import Mathlib

/-!
CE102M meter plugin: embedding and verified properties.

A shallow embedding of `plugins/inputs/ce102m/ce102m.go`.

* Go `int` values that come from configuration are `Int`; the array
  `[maxTariffId]bool` is a `List Bool` of length 5 and an index outside
  `0..4` is a run-time panic, kept as an explicit outcome.
* Go `map[string]T` is an association list with overwrite-on-insert; only
  the set of keys and the value bound to a key are observable.
* `strconv.ParseUint` / `strconv.ParseInt` are modelled from the Go standard
  library with explicit 64-bit wrap-around in the accumulation loop.
* The transport (`iec62056`) is an environment: a script of dial outcomes and
  of command replies, consumed in order, with a log of what was sent.
-/

namespace Ce102m

/-! ## Constants -/

def maxTariffId : Int := 5

def maxRetries : Nat := 3

def keyMeterId : String := "id"

def keyError : String := "error_key"

def keyErrDesc : String := "error_description"

/-! ## Errors -/

/-- The two error kinds of `strconv` number parsing. -/
inductive NumError where
  | syntaxErr
  | rangeErr
  deriving DecidableEq, Repr

/-- Error values returned by the plugin's functions; `dial` and `transport`
are the errors of the `iec62056` library, the latter told apart by a code. -/
inductive Err where
  | invalidTariff (t : Int)
  | emptyResult (request : String)
  | num (e : NumError)
  | statusParse
  | badDate (text : List Char)
  | dial
  | transport (code : Nat)
  deriving DecidableEq, Repr

deriving instance DecidableEq for Except

/-! ## Go maps -/

/-- Assignment `m[k] = v` on a Go map kept as an association list. -/
def mapSet {V : Type} (m : List (String × V)) (k : String) (v : V) : List (String × V) :=
  match m with
  | [] => [(k, v)]
  | (k', v') :: rest => if k' = k then (k, v) :: rest else (k', v') :: mapSet rest k v

/-- The keys present in a Go map. -/
def mapKeys {V : Type} (m : List (String × V)) : List String := m.map Prod.fst

/-- Lookup `m[k]` with presence. -/
def mapGet {V : Type} (m : List (String × V)) (k : String) : Option V :=
  match m with
  | [] => none
  | (k', v') :: rest => if k' = k then some v' else mapGet rest k

/-! ## strconv -/

/-- Digit value of one byte as computed in the loop of `strconv.ParseUint`:
decimal digits, then letters of either case counted from 10. -/
def digitOf (c : Char) : Option Nat :=
  if 48 ≤ c.toNat ∧ c.toNat ≤ 57 then some (c.toNat - 48)
  else if 97 ≤ c.toNat ∧ c.toNat ≤ 122 then some (c.toNat - 97 + 10)
  else if 65 ≤ c.toNat ∧ c.toNat ≤ 90 then some (c.toNat - 65 + 10)
  else none

/-- The accumulation loop of `strconv.ParseUint` for an explicit base:
`n` is a `uint64`, so the product and the sum wrap at `2^64`. -/
def parseUintLoop (base maxVal cutoff : Nat) : List Char → Nat → Except NumError Nat
  | [], n => .ok n
  | c :: cs, n =>
    match digitOf c with
    | none => .error .syntaxErr
    | some d =>
      if d ≥ base then .error .syntaxErr
      else if n ≥ cutoff then .error .rangeErr
      else
        let n0 := (n * base) % 2 ^ 64
        let n1 := (n0 + d) % 2 ^ 64
        if n1 < n0 ∨ n1 > maxVal then .error .rangeErr
        else parseUintLoop base maxVal cutoff cs n1

/-- `strconv.ParseUint(s, base, bitSize)` for `2 ≤ base ≤ 36` and
`1 ≤ bitSize ≤ 64` (the only way the plugin calls it). -/
def parseUint (s : List Char) (base bitSize : Nat) : Except NumError Nat :=
  if s = [] then .error .syntaxErr
  else parseUintLoop base (2 ^ bitSize - 1) ((2 ^ 64 - 1) / base + 1) s 0

/-- `strconv.ParseInt(s, base, bitSize)` for an explicit base: an optional
sign, the magnitude through `ParseUint(_, base, 64)`, then the signed range
check against `2^(bitSize-1)`. -/
def parseInt (s : List Char) (base bitSize : Nat) : Except NumError Int :=
  match s with
  | [] => .error .syntaxErr
  | c :: cs =>
    let neg := decide (c = '-')
    let body := if c = '+' ∨ c = '-' then cs else c :: cs
    match parseUint body base 64 with
    | .error e => .error e
    | .ok un =>
      let cutoff := 2 ^ (bitSize - 1)
      if !neg ∧ un ≥ cutoff then .error .rangeErr
      else if neg ∧ un > cutoff then .error .rangeErr
      else .ok (if neg then -(un : Int) else (un : Int))

/-- `fmt.Sprint` / `%d` of an integer. -/
def fmtInt (n : Int) : String := toString n

/-! ## Tariff filter -/

structure tariffFilter where
  isAll : Bool
  isSingle : Bool
  mask : List Bool
  minId : Int
  arg : String
  deriving DecidableEq, Repr

/-- The zero value `&tariffFilter{}`. -/
def tariffFilter.zero : tariffFilter :=
  { isAll := false, isSingle := false, mask := List.replicate 5 false, minId := 0, arg := "" }

/-- `sort.Ints`: the ascending rearrangement of the slice. -/
def sortInts (cfg : List Int) : List Int := cfg.insertionSort (· ≤ ·)

/-- The validation loop of `newTariffFilter` over the sorted slice: the first
index outside `1..maxTariffId` aborts, every other one is marked. -/
def markTariffs : List Int → tariffFilter → Except Err tariffFilter
  | [], rv => .ok rv
  | t :: ts, rv =>
    if 0 ≥ t ∨ t > maxTariffId then .error (.invalidTariff t)
    else markTariffs ts { rv with mask := rv.mask.set (t - 1).toNat true }

def newTariffFilter (cfg : List Int) : Except Err tariffFilter :=
  let rv := tariffFilter.zero
  match cfg with
  | [] => .ok { rv with isAll := true }
  | [arg] =>
    if 0 ≥ arg ∨ arg > maxTariffId then .error (.invalidTariff arg)
    else .ok { rv with arg := fmtInt arg, isSingle := true, minId := arg,
                       mask := rv.mask.set (arg - 1).toNat true }
  | _ =>
    let cfg := sortInts cfg
    match markTariffs cfg rv with
    | .error e => .error e
    | .ok rv =>
      let rv := { rv with minId := cfg.headD 0 }
      let maxId := cfg.getLastD 0
      if rv.minId = maxId then
        .ok { rv with arg := fmtInt rv.minId, isSingle := true }
      else
        let all := rv.mask.all id
        let rv := if all then { rv with isAll := true } else rv
        .ok { rv with arg := fmtInt rv.minId ++ "," ++ fmtInt (maxId - rv.minId + 1) }

/-! ## Wire data and results -/

structure DataSet where
  Address : String
  Value : String
  deriving DecidableEq, Repr

structure DataLine where
  Sets : List DataSet
  deriving DecidableEq, Repr

structure DataBlock where
  Lines : List DataLine
  deriving DecidableEq, Repr

/-- A read command `iec62056.Command{Id: CmdR1, Payload: &DataSet{...}}`. -/
structure Command where
  Address : String
  Value : String
  deriving DecidableEq, Repr

/-- A value stored under `map[string]any`: a `uint64` or a string. -/
inductive FieldVal where
  | uint (n : Nat)
  | str (s : String)
  deriving DecidableEq, Repr

structure result where
  tags : List (String × String)
  fields : List (String × FieldVal)
  deriving DecidableEq, Repr

/-- How a Go call ends: it returns with a nil error, returns with an error,
or panics (it does not return and the panic unwinds the callers). -/
inductive Outcome (α : Type) where
  | ok (a : α)
  | error (e : Err)
  | panic
  deriving DecidableEq, Repr

/-! ## Durations -/

structure Duration where
  tt : Int
  monts : Int
  years : Int
  deriving DecidableEq, Repr

def Duration.Empty (d : Duration) : Bool :=
  d.tt == 0 && d.years == 0 && d.monts == 0

/-- Saturation of `time.Time.Sub` at the ends of `int64`. -/
def satInt64 (x : Int) : Int :=
  if x > 2 ^ 63 - 1 then 2 ^ 63 - 1 else if x < -(2 ^ 63) then -(2 ^ 63) else x

/-- Wrap-around of `int64` arithmetic. -/
def wrapInt64 (x : Int) : Int := (x + 2 ^ 63) % 2 ^ 64 - 2 ^ 63

/-! ## Session, environment -/

/-- What the plugin did on the network, in order. -/
inductive Event where
  | dial (n : Nat) (ok : Bool)
  | close (conn : Nat)
  | command (conn : Nat) (cmd : Command)
  deriving DecidableEq, Repr

/-- The environment: the bridge, the meter, the wall clock and the calendar.
The `n`-th `Dial` succeeds iff `dialOk n` and then yields connection `n`; the
`n`-th command exchange ends as `reply n`; the `n`-th reading of the wall
clock is `clock n` (nanoseconds); `addDate t y m` is `t.AddDate(y, m, 0)`;
`parseInLocation s` is `time.ParseInLocation("02.01.06 15:04:05", s, d.location)`
with `none` for its error. -/
structure World where
  dialOk : Nat → Bool
  reply : Nat → Except Err DataBlock
  clock : Nat → Int
  addDate : Int → Int → Int → Int
  parseInLocation : List Char → Option Int
  dials : Nat
  sent : Nat
  ticks : Nat
  log : List Event

/-- One reading of `time.Now()`. -/
def World.now (w : World) : Int × World :=
  (w.clock w.ticks, { w with ticks := w.ticks + 1 })

def World.emit (w : World) (e : Event) : World :=
  { w with log := w.log ++ [e] }

/-- `d.Until(t)`: advance `t` by the calendar part, add the fixed span, and
take the saturated difference to the wall clock. -/
def Duration.Until (d : Duration) (t : Int) (w : World) : Int × World :=
  let t := w.addDate t d.years d.monts
  let t := t + d.tt
  let (now, w) := w.now
  (satInt64 (t - now), w)

/-- The part of `iec62056.TariffDevice` the plugin touches: the connection it
was last reset to and its idle timeout. -/
structure TariffDevice where
  conn : Nat
  IdleTimeout : Int
  deriving DecidableEq, Repr

structure client where
  td : Option TariffDevice
  conn : Option Nat
  isConnected : Bool
  idleTo : Int
  deriving DecidableEq, Repr

structure device where
  Socket : String
  Address : String
  Status : Duration
  Prefix : String
  tariffs : tariffFilter
  cl : client
  meterId : String
  lastStatusTime : Int
  prevIsConnected : Bool
  deriving DecidableEq, Repr

/-- `td.Command(cmd)`: one exchange on the connection the handle is bound to. -/
def TariffDevice.Command (td : TariffDevice) (cmd : Command) (w : World) :
    Except Err DataBlock × World :=
  (w.reply w.sent, { w with sent := w.sent + 1, log := w.log ++ [.command td.conn cmd] })

/-- `len(db.Lines) == 0 || len(db.Lines[0].Sets) == 0` failing, with the first
value when it does not. -/
def firstValue (db : DataBlock) : Option String :=
  match db.Lines with
  | [] => none
  | l :: _ =>
    match l.Sets with
    | [] => none
    | s :: _ => some s.Value

def getIdleTimeout (td : TariffDevice) (w : World) : Except Err Int × World :=
  match td.Command { Address := "ACTIV", Value := "" } w with
  | (.error e, w) => (.error e, w)
  | (.ok db, w) =>
    match firstValue db with
    | none => (.error (.emptyResult "session timeout"), w)
    | some txt =>
      match parseInt txt.toList 10 64 with
      | .ok v => (.ok (wrapInt64 (v * 1000000000)), w)
      | .error e => (.error (.num e), w)

def getMeterId (td : TariffDevice) (w : World) : Except Err String × World :=
  match td.Command { Address := "SNUMB", Value := "" } w with
  | (.error e, w) => (.error e, w)
  | (.ok db, w) =>
    match firstValue db with
    | none => (.error (.emptyResult "serial no"), w)
    | some v => (.ok v, w)

/-- The head of `d.client()` after the connected check: a stale connection
object is closed and dropped. -/
def device.dropStale (d : device) (w : World) : device × World :=
  match d.cl.conn with
  | some c => ({ d with cl := { d.cl with conn := none } }, w.emit (.close c))
  | none => (d, w)

/-- `d.cl.dialer.Dial(d.Socket)`: the connection on success. -/
def World.dial (w : World) : Option Nat × World :=
  (if w.dialOk w.dials then some w.dials else none,
   { w with dials := w.dials + 1, log := w.log ++ [.dial w.dials (w.dialOk w.dials)] })

/-- The `if d.cl.idleTo == 0` block of `d.client()` on the fresh connection
`conn`: a failed query closes `conn`. -/
def device.resolveIdleTo (d : device) (td : TariffDevice) (conn : Nat) (w : World) :
    Except Err Unit × device × World :=
  if d.cl.idleTo = 0 then
    match getIdleTimeout td w with
    | (.error e, w) => (.error e, d, w.emit (.close conn))
    | (.ok tmo, w) => (.ok (), { d with cl := { d.cl with idleTo := tmo } }, w)
  else (.ok (), d, w)

/-- The `if d.meterId == ""` block of `d.client()` on the fresh connection
`conn`: a failed query closes `conn`. -/
def device.resolveMeterId (d : device) (td : TariffDevice) (conn : Nat) (w : World) :
    Except Err Unit × device × World :=
  if d.meterId = "" then
    match getMeterId td w with
    | (.error e, w) => (.error e, d, w.emit (.close conn))
    | (.ok id, w) => (.ok (), { d with meterId := id }, w)
  else (.ok (), d, w)

/-- The handle after `WithAddress` (when there was none) and `Reset(conn)`. -/
def client.handleFor (cl : client) (conn : Nat) : TariffDevice :=
  match cl.td with
  | none => { conn := conn, IdleTimeout := 0 }
  | some td => { td with conn := conn }

/-- Assignment of the handle `d.cl.td`. -/
def device.setHandle (d : device) (td : TariffDevice) : device :=
  { d with cl := { d.cl with td := some td } }

/-- `d.cl.td.IdleTimeout = d.cl.idleTo`. -/
def TariffDevice.setIdle (td : TariffDevice) (idle : Int) : TariffDevice :=
  { td with IdleTimeout := idle }

/-- `d.cl.conn = conn; d.cl.isConnected = true`. -/
def device.markConnected (d : device) (conn : Nat) : device :=
  { d with cl := { d.cl with conn := some conn, isConnected := true } }

/-- The part of `d.client()` after a successful dial of `conn`. -/
def device.setup (d : device) (conn : Nat) (w : World) :
    Except Err (Option TariffDevice) × device × World :=
  match (d.setHandle (d.cl.handleFor conn)).resolveIdleTo (d.cl.handleFor conn) conn w with
  | (.error e, d1, w) => (.error e, d1, w)
  | (.ok _, d1, w) =>
    match (d1.setHandle ((d.cl.handleFor conn).setIdle d1.cl.idleTo)).resolveMeterId
        ((d.cl.handleFor conn).setIdle d1.cl.idleTo) conn w with
    | (.error e, d2, w) => (.error e, d2, w)
    | (.ok _, d2, w) =>
      (.ok (some ((d.cl.handleFor conn).setIdle d1.cl.idleTo)), d2.markConnected conn, w)

/-- `d.client()`: the cached handle when connected, otherwise close the stale
connection, dial, and resolve the idle timeout and the meter id if unset. -/
def device.client (d : device) (w : World) : Except Err (Option TariffDevice) × device × World :=
  if d.cl.isConnected then (.ok d.cl.td, d, w)
  else
    match (d.dropStale w).2.dial with
    | (none, w1) => (.error .dial, (d.dropStale w).1, w1)
    | (some conn, w1) => (d.dropStale w).1.setup conn w1

/-- `d.cl.isConnected = false`. -/
def device.markFailed (d : device) : device :=
  { d with cl := { d.cl with isConnected := false } }

/-- `d.commandToMeter(cmd)`: a nil handle makes the exchange panic. -/
def device.commandToMeter (d : device) (cmd : Command) (w : World) :
    Outcome DataBlock × device × World :=
  match d.client w with
  | (.error e, d, w) => (.error e, d, w)
  | (.ok none, d, w) => (.panic, d, w)
  | (.ok (some td), d, w) =>
    match td.Command cmd w with
    | (.error e, w) => (.error e, d.markFailed, w)
    | (.ok db, w) => (.ok db, d, w)

/-! ## Value extraction -/

/-- The closure `parseValue` of `gatherValues`: drop the first `"."`, then
`strconv.ParseUint(v, 10, 32)`. -/
def parseValue (v : String) : Except NumError Nat :=
  parseUint (v.toList.erase '.') 10 32

/-- Indexing `mask[i]` of the `[5]bool` array: `none` is the index-out-of-range
panic. -/
def maskAt (mask : List Bool) (i : Int) : Option Bool :=
  if 0 ≤ i ∧ i < maxTariffId then mask[i.toNat]? else none

/-- The test `d.tariffs.isAll || d.tariffs.mask[d.tariffs.minId+i-1]` for
line offset `i`: the mask is indexed only when `isAll` is false. -/
def wanted (t : tariffFilter) (i : Nat) : Option Bool :=
  if t.isAll then some true else maskAt t.mask (t.minId + i - 1)

/-- How one pass over the data sets of a line ends: the loop ran to its end
with the fields collected so far, or `gatherValues` left from inside it. -/
inductive LineFlow where
  | next (rv : result)
  | left (o : Outcome result)
  deriving DecidableEq, Repr

/-- The inner loop of `gatherValues` over the data sets of line `i`. -/
def gatherSets (t : tariffFilter) (pfx : String) (i : Nat) : List DataSet → result → LineFlow
  | [], rv => .next rv
  | ds :: rest, rv =>
    if t.isSingle then
      match parseValue ds.Value with
      | .error e => .left (.error (.num e))
      | .ok val =>
        .left (.ok { rv with fields := mapSet rv.fields (pfx ++ fmtInt t.minId) (.uint val) })
    else
      match wanted t i with
      | none => .left .panic
      | some false => gatherSets t pfx i rest rv
      | some true =>
        match parseValue ds.Value with
        | .error e => .left (.error (.num e))
        | .ok val =>
          let tid : Int := if !t.isAll then t.minId else 1
          gatherSets t pfx i rest
            { rv with fields := mapSet rv.fields (pfx ++ fmtInt (i + tid)) (.uint val) }

/-- The outer loop of `gatherValues` over the lines, from offset `i`. -/
def gatherLines (t : tariffFilter) (pfx : String) : Nat → List DataLine → result → Outcome result
  | _, [], rv => .ok rv
  | i, dl :: rest, rv =>
    if maxTariffId < (i : Int) + 1 then .ok rv
    else
      match gatherSets t pfx i dl.Sets rv with
      | .left o => o
      | .next rv => gatherLines t pfx (i + 1) rest rv

/-- The `ET0PE` request of `gatherValues`: the selector is attached only when
the filter is not in all-tariffs mode. -/
def valuesCmd (t : tariffFilter) : Command :=
  { Address := "ET0PE", Value := if !t.isAll then t.arg else "" }

def device.gatherValues (d : device) (w : World) : Outcome result × device × World :=
  match d.commandToMeter (valuesCmd d.tariffs) w with
  | (.error e, d, w) => (.error e, d, w)
  | (.panic, d, w) => (.panic, d, w)
  | (.ok db, d, w) =>
    match firstValue db with
    | none => (.error (.emptyResult "current values"), d, w)
    | some _ =>
      let rv : result := { tags := [(keyMeterId, d.meterId)], fields := [] }
      (gatherLines d.tariffs d.Prefix 0 db.Lines rv, d, w)

/-! ## Status -/

/-- The eight independent tests of `curState` on the parsed status word. -/
def statusFlags (val : Int) : List (String × String) :=
  let rv : List (String × String) := []
  let rv := if Int.land val ((1 <<< 3 : Nat) : Int) ≠ 0 then
    mapSet rv "BatDischarged" "Battery discharged" else rv
  let rv := if Int.land val ((1 <<< 12 : Nat) : Int) ≠ 0 then
    mapSet rv "TimeSync" "Time is not syncronizeded" else rv
  let rv := if Int.land val ((1 <<< 16 : Nat) : Int) ≠ 0 then
    mapSet rv "PowChecksum" "Checksum of power parameters mismatch" else rv
  let rv := if Int.land val ((1 <<< 17 : Nat) : Int) ≠ 0 then
    mapSet rv "IllegalAccess" "Illegal access detected" else rv
  let rv := if Int.land val ((1 <<< 19 : Nat) : Int) ≠ 0 then
    mapSet rv "BatExpired" "Battery expired" else rv
  let rv := if Int.land val ((1 <<< 20 : Nat) : Int) ≠ 0 then
    mapSet rv "EEPROM" "EEPROM checksum mismatch" else rv
  let rv := if Int.land val ((1 <<< 21 : Nat) : Int) ≠ 0 then
    mapSet rv "DeviceParam" "Checksum of device parameters mismatch" else rv
  let rv := if Int.land val ((1 <<< 28 : Nat) : Int) ≠ 0 then
    mapSet rv "Scheduler" "Scheduler configuration has errors" else rv
  rv

def statCmd : Command := { Address := "STAT_", Value := "" }

def device.curState (d : device) (w : World) :
    Outcome (List (String × String)) × device × World :=
  match d.commandToMeter statCmd w with
  | (.error e, d, w) => (.error e, d, w)
  | (.panic, d, w) => (.panic, d, w)
  | (.ok db, d, w) =>
    match firstValue db with
    | none => (.error (.emptyResult "system status"), d, w)
    | some v =>
      match parseInt v.toList 16 32 with
      | .error _ => (.error .statusParse, d, w)
      | .ok val => (.ok (statusFlags val), d, w)

/-- `d.gatherStatus()`. The `range` over the Go map visits the entries in an
unspecified order; the order of the association list stands for it. -/
def device.gatherStatus (d : device) (w : World) : Outcome (List result) × device × World :=
  if d.Status.Empty then (.ok [], d, w)
  else
    match d.Status.Until d.lastStatusTime w with
    | (u, w) =>
      if u ≥ 0 then (.ok [], d, w)
      else
        match d.curState w with
        | (.error e, d, w) => (.error e, d, w)
        | (.panic, d, w) => (.panic, d, w)
        | (.ok stat, d, w) =>
          let rv := stat.map fun kv =>
            ({ tags := [(keyMeterId, d.meterId)],
               fields := [(keyError, .str kv.1), (keyErrDesc, .str kv.2)] } : result)
          match w.now with
          | (now, w) => (.ok rv, { d with lastStatusTime := now }, w)

/-! ## Retries -/

/-- The loop of `withRetries` with `left` iterations to go
(`left = maxRetries - i`) and `err` the variable the closure returns. -/
def withRetriesLoop {σ : Type} (fn : σ → Outcome Unit × σ) :
    Nat → Option Err → σ → Outcome Unit × σ
  | 0, err, s =>
    (match err with
      | none => .ok ()
      | some e => .error e, s)
  | left + 1, _, s =>
    match fn s with
    | (.ok _, s) => (.ok (), s)
    | (.error e, s) => withRetriesLoop fn left (some e) s
    | (.panic, s) => (.panic, s)

/-- The closure `withRetries` of `gatherData` applied to a phase `fn`. -/
def withRetries {σ : Type} (fn : σ → Outcome Unit × σ) (s : σ) : Outcome Unit × σ :=
  withRetriesLoop fn maxRetries none s

/-! ## Sample states -/

/-- A stand-in for the date parser that knows one instant:
`01.02.23 10:20:30` in UTC, as nanoseconds since the epoch. -/
def sampleParse (s : List Char) : Option Int :=
  if s = "01.02.23 10:20:30".toList then some 1675246830000000000 else none

/-- A meter that answers the idle-timeout query with `30`, the serial-number
query with `12345` and every later request with `db`, behind a bridge that
always accepts the connection. -/
def sampleWorld (db : DataBlock) : World :=
  { dialOk := fun _ => true
    reply := fun n =>
      if n = 0 then .ok ⟨[⟨[⟨"ACTIV", "30"⟩]⟩]⟩
      else if n = 1 then .ok ⟨[⟨[⟨"SNUMB", "12345"⟩]⟩]⟩
      else .ok db
    clock := fun n => 1000 + n
    addDate := fun t _ _ => t
    parseInLocation := sampleParse
    dials := 0, sent := 0, ticks := 0, log := [] }

/-- A freshly initialised plugin with prefix `chan_` and the given filter and
status interval. -/
def sampleDevice (t : tariffFilter) (status : Duration) : device :=
  { Socket := "localhost:4001", Address := "", Status := status, Prefix := "chan_",
    tariffs := t, cl := { td := none, conn := none, isConnected := false, idleTo := 0 },
    meterId := "", lastStatusTime := 0, prevIsConnected := false }

/-- A phase that fails on every call, with the number of the call in the
error, and counts its calls in the state. -/
def failingPhase (n : Nat) : Outcome Unit × Nat := (.error (.transport n), n + 1)

/-- A phase that fails twice and then succeeds. -/
def flakyPhase (n : Nat) : Outcome Unit × Nat :=
  (if n < 2 then .error (.transport n) else .ok (), n + 1)

/-- A three-line `ET0PE` response. -/
def sampleValues : DataBlock :=
  ⟨[⟨[⟨"ET0PE", "0001.234"⟩]⟩, ⟨[⟨"ET0PE", "0002.5"⟩]⟩, ⟨[⟨"ET0PE", "7.1"⟩]⟩]⟩

/-! ## Specification-side definitions -/

/-- An index is valid when it lies in `1..maxTariffId`. -/
def validTariff (t : Int) : Prop := 1 ≤ t ∧ t ≤ 5

/-- Two device states with the same static configuration and status clock. -/
def sameConfig (d d1 : device) : Prop :=
  d1.tariffs = d.tariffs ∧ d1.Prefix = d.Prefix ∧ d1.Status = d.Status ∧
  d1.lastStatusTime = d.lastStatusTime ∧ d1.Socket = d.Socket ∧ d1.Address = d.Address

/-- The status catalog of the specification: bit position and key. -/
def statusCatalog : List (Nat × String) :=
  [(3, "BatDischarged"), (12, "TimeSync"), (16, "PowChecksum"), (17, "IllegalAccess"),
   (19, "BatExpired"), (20, "EEPROM"), (21, "DeviceParam"), (28, "Scheduler")]

/-- A `STAT_` response carrying the given text. -/
def statusReply (v : String) : DataBlock := ⟨[⟨[⟨"STAT_", v⟩]⟩]⟩

/-- Some event of the list is a `STAT_` request. -/
def sendsStat (evs : List Event) : Prop := ∃ c, Event.command c statCmd ∈ evs

/-- The log of `w1` continues the log of `w` with events none of which is a
`STAT_` request. -/
def extendsQuietly (w w1 : World) : Prop :=
  ∃ evs, w1.log = w.log ++ evs ∧ ¬ sendsStat evs

/-- A phase instrumented with a record of what each of its calls returned;
the phase itself runs as before. -/
def logged {σ : Type} (fn : σ → Outcome Unit × σ) :
    σ × List (Outcome Unit) → Outcome Unit × (σ × List (Outcome Unit)) :=
  fun st => ((fn st.1).1, ((fn st.1).2, st.2 ++ [(fn st.1).1]))

/-- A decimal digit character. -/
def isDecDigit (c : Char) : Prop := 48 ≤ c.toNat ∧ c.toNat ≤ 57

instance (c : Char) : Decidable (isDecDigit c) := by
  unfold isDecDigit
  infer_instance

/-- The number a run of decimal digits denotes, most significant digit
first, through Mathlib's positional `Nat.ofDigits`. -/
def decimalValue (ds : List Char) : Nat :=
  Nat.ofDigits 10 (ds.reverse.map fun c => c.toNat - 48)

/-- The sample meter, except that the exchange number `k` (counted from 0)
fails with a transport error and every later one answers `"00000000"`. -/
def failingWorld (k : Nat) : World :=
  { dialOk := fun _ => true
    reply := fun n =>
      if n = k then .error (.transport k)
      else if n = 0 then .ok ⟨[⟨[⟨"ACTIV", "30"⟩]⟩]⟩
      else if n = 1 then .ok ⟨[⟨[⟨"SNUMB", "12345"⟩]⟩]⟩
      else .ok (statusReply "00000000")
    clock := fun n => 1000 + n
    addDate := fun t _ _ => t
    parseInLocation := sampleParse
    dials := 0, sent := 0, ticks := 0, log := [] }

/-! ## Connection bookkeeping -/

/-- One step of the bookkeeping of open connections along the log: a dial
while a connection is still open is a violation (`none`, kept from then on),
a successful dial opens its connection, a close removes one. -/
def trackStep (st : Option (List Nat)) (e : Event) : Option (List Nat) :=
  match st with
  | none => none
  | some cs =>
    match e with
    | .dial n ok => if cs = [] then some (if ok then [n] else []) else none
    | .close c => some (cs.erase c)
    | .command _ _ => some cs

/-- The connections open after the log, or `none` if at some dial an earlier
connection had not been closed. -/
def openAfter (log : List Event) : Option (List Nat) := log.foldl trackStep (some [])

/-- A call made on the session. -/
inductive SessionOp where
  | client
  | command (cmd : Command)
  deriving DecidableEq, Repr

/-- A sequence of `client` and `commandToMeter` calls; a panic ends it. -/
def runOps : List SessionOp → device → World → device × World
  | [], d, w => (d, w)
  | .client :: ops, d, w => runOps ops (d.client w).2.1 (d.client w).2.2
  | .command cmd :: ops, d, w =>
    match (d.commandToMeter cmd w).1 with
    | .panic => ((d.commandToMeter cmd w).2.1, (d.commandToMeter cmd w).2.2)
    | _ => runOps ops (d.commandToMeter cmd w).2.1 (d.commandToMeter cmd w).2.2

/-- The stored connection is the one open connection, if any, and no dial
ever happened over an open connection. -/
def oneConnection (d : device) (w : World) : Prop :=
  openAfter w.log = some d.cl.conn.toList

/-- A bridge that accepts every connection in front of a meter whose first
exchange (the idle-timeout query of the first connect) fails. -/
def flakyWorld : World := failingWorld 0

/-- The sample meter with an idle timeout of `0`, whose third exchange (the
first command after the connect) fails. -/
def zeroIdleWorld : World :=
  { dialOk := fun _ => true
    reply := fun n =>
      if n = 0 then .ok ⟨[⟨[⟨"ACTIV", "0"⟩]⟩]⟩
      else if n = 1 then .ok ⟨[⟨[⟨"SNUMB", "12345"⟩]⟩]⟩
      else if n = 2 then .error (.transport 2)
      else if n = 3 then .ok ⟨[⟨[⟨"ACTIV", "0"⟩]⟩]⟩
      else .ok (statusReply "00000000")
    clock := fun n => 1000 + n
    addDate := fun t _ _ => t
    parseInLocation := sampleParse
    dials := 0, sent := 0, ticks := 0, log := [] }

/-- The events of closing the stored connection, if there is one. -/
def closeEvents (conn : Option Nat) : List Event :=
  match conn with
  | some c => [.close c]
  | none => []

/-- Both cached session values are set. -/
def cacheSet (d : device) : Prop := d.cl.idleTo ≠ 0 ∧ d.meterId ≠ ""

/-! ## Device time -/

def dateCmd : Command := { Address := "DATE_", Value := "" }

def timeCmd : Command := { Address := "TIME_", Value := "" }

/-- The slice `dateStr[3:]`: `none` is the slice-bounds panic of a value
shorter than 3. The wire carries 7-bit characters, so bytes are characters. -/
def sliceFrom3 (dateStr : String) : Option (List Char) :=
  if dateStr.length < 3 then none else some (dateStr.toList.drop 3)

/-- `d.systime()`: the date without its first 3 characters, a blank and the
time, parsed in the configured location. -/
def device.systime (d : device) (w : World) : Outcome Int × device × World :=
  match d.commandToMeter dateCmd w with
  | (.error e, d, w) => (.error e, d, w)
  | (.panic, d, w) => (.panic, d, w)
  | (.ok db, d, w) =>
    match firstValue db with
    | none => (.error (.emptyResult "system date"), d, w)
    | some dateStr =>
      match sliceFrom3 dateStr with
      | none => (.panic, d, w)
      | some date =>
        match d.commandToMeter timeCmd w with
        | (.error e, d, w) => (.error e, d, w)
        | (.panic, d, w) => (.panic, d, w)
        | (.ok db2, d, w) =>
          match firstValue db2 with
          | none => (.error (.emptyResult "system time"), d, w)
          | some tm =>
            match w.parseInLocation (date ++ ' ' :: tm.toList) with
            | none => (.error (.badDate (date ++ ' ' :: tm.toList)), d, w)
            | some t => (.ok t, d, w)

/-- The sample meter answering the date request (its third exchange) with
the given block and the time request with `10:20:30`. -/
def dateWorld (date : DataBlock) : World :=
  { dialOk := fun _ => true
    reply := fun n =>
      if n = 0 then .ok ⟨[⟨[⟨"ACTIV", "30"⟩]⟩]⟩
      else if n = 1 then .ok ⟨[⟨[⟨"SNUMB", "12345"⟩]⟩]⟩
      else if n = 2 then .ok date
      else if n = 3 then .ok ⟨[⟨[⟨"TIME_", "10:20:30"⟩]⟩]⟩
      else .ok ⟨[]⟩
    clock := fun n => 1000 + n
    addDate := fun t _ _ => t
    parseInLocation := sampleParse
    dials := 0, sent := 0, ticks := 0, log := [] }

/-- A five-line `ET0PE` response. -/
def fiveLines : DataBlock :=
  ⟨[⟨[⟨"ET0PE", "1.1"⟩]⟩, ⟨[⟨"ET0PE", "2.2"⟩]⟩, ⟨[⟨"ET0PE", "3.3"⟩]⟩,
    ⟨[⟨"ET0PE", "4.4"⟩]⟩, ⟨[⟨"ET0PE", "5.5"⟩]⟩]⟩

/-! ## One polling pass -/

/-- One `acc.AddFields(measurment, fields, tags, t)` call. -/
structure Record where
  fields : List (String × FieldVal)
  tags : List (String × String)
  time : Int
  deriving DecidableEq, Repr

/-- What the phases of `gatherData` share: the plugin, the environment, the
accumulator and the variable `t`. -/
structure Pass where
  d : device
  w : World
  acc : List Record
  t : Int

/-- The zero `time.Time{}` that `systime` returns with an error. -/
def zeroTime : Int := -62135596800000000000

/-- The first closure of `gatherData`: `t, err = d.systime()`. -/
def timePhase (s : Pass) : Outcome Unit × Pass :=
  match s.d.systime s.w with
  | (.ok tm, d, w) => (.ok (), { s with d := d, w := w, t := tm })
  | (.error e, d, w) => (.error e, { s with d := d, w := w, t := zeroTime })
  | (.panic, d, w) => (.panic, { s with d := d, w := w })

/-- The second closure of `gatherData`: the status records are added only
when `gatherStatus` returned no error. -/
def statusPhase (s : Pass) : Outcome Unit × Pass :=
  match s.d.gatherStatus s.w with
  | (.ok stat, d, w) =>
    (.ok (), { s with d := d, w := w,
                      acc := s.acc ++ stat.map fun v => ⟨v.fields, v.tags, s.t⟩ })
  | (.error e, d, w) => (.error e, { s with d := d, w := w })
  | (.panic, d, w) => (.panic, { s with d := d, w := w })

/-- The third closure of `gatherData`: the value record is added only when
`gatherValues` returned no error. -/
def valuesPhase (s : Pass) : Outcome Unit × Pass :=
  match s.d.gatherValues s.w with
  | (.ok v, d, w) => (.ok (), { s with d := d, w := w, acc := s.acc ++ [⟨v.fields, v.tags, s.t⟩] })
  | (.error e, d, w) => (.error e, { s with d := d, w := w })
  | (.panic, d, w) => (.panic, { s with d := d, w := w })

/-- `d.gatherData(acc)`: the returned time and error, and the state left. -/
def device.gatherData (d : device) (w : World) (acc : List Record) :
    (Int × Outcome Unit) × Pass :=
  match withRetries timePhase { d := d, w := w, acc := acc, t := zeroTime } with
  | (.error e, s) => ((s.w.now.1, .error e), { s with w := s.w.now.2 })
  | (.panic, s) => ((s.t, .panic), s)
  | (.ok _, s) =>
    match withRetries statusPhase s with
    | (.error e, s) => ((s.t, .error e), s)
    | (.panic, s) => ((s.t, .panic), s)
    | (.ok _, s) =>
      match withRetries valuesPhase s with
      | (r, s) => ((s.t, r), s)

/-- The log of `w1` continues the log of `w` with events whose requests all
go to one of the given addresses. -/
def sendsOnly (addrs : List String) (w w1 : World) : Prop :=
  ∃ evs, w1.log = w.log ++ evs ∧ ∀ c cmd, Event.command c cmd ∈ evs → cmd.Address ∈ addrs

/-- The sample meter answering the date and the time request and returning
an empty block to every later request. -/
def emptyValuesWorld : World := dateWorld ⟨[⟨[⟨"DATE_", "03.01.02.23"⟩]⟩]⟩

/-- The sample meter whose date request fails on every attempt. -/
def noDateWorld : World :=
  { dialOk := fun _ => true
    reply := fun n =>
      if n = 0 then .ok ⟨[⟨[⟨"ACTIV", "30"⟩]⟩]⟩
      else if n = 1 then .ok ⟨[⟨[⟨"SNUMB", "12345"⟩]⟩]⟩
      else .error (.transport n)
    clock := fun n => 1000 + n
    addDate := fun t _ _ => t
    parseInLocation := sampleParse
    dials := 0, sent := 0, ticks := 0, log := [] }

/-- The state after the retried time phase of a pass. -/
def afterTime (d : device) (w : World) (acc : List Record) : Outcome Unit × Pass :=
  withRetries timePhase { d := d, w := w, acc := acc, t := zeroTime }

/-- The state after the retried status phase, run from where the time phase
ended. -/
def afterStatus (d : device) (w : World) (acc : List Record) : Outcome Unit × Pass :=
  withRetries statusPhase (afterTime d w acc).2

/-- The state after the retried values phase, run from where the status
phase ended. -/
def afterValues (d : device) (w : World) (acc : List Record) : Outcome Unit × Pass :=
  withRetries valuesPhase (afterStatus d w acc).2

/-! ## Specification-side definitions: the attempts of a phase -/

/-- The outcomes of up to `n` successive calls of a session function, each
made in the state the previous call left, up to and including the first call
that does not return an error, with the state after the last call made. -/
def attempts {α : Type} (f : device → World → Outcome α × device × World) :
    Nat → device → World → List (Outcome α) × device × World
  | 0, d, w => ([], d, w)
  | n + 1, d, w =>
    match f d w with
    | (.error e, d1, w1) => (.error e :: (attempts f n d1 w1).1, (attempts f n d1 w1).2)
    | (.ok a, d1, w1) => ([.ok a], d1, w1)
    | (.panic, d1, w1) => ([.panic], d1, w1)

/-- The calls of `systime` a pass makes: at most `maxRetries`, from the state
the pass starts in. -/
def timeTries (d : device) (w : World) : List (Outcome Int) × device × World :=
  attempts device.systime maxRetries d w

/-- The calls of `gatherStatus` a pass makes when they follow the calls of
`systime`: at most `maxRetries`, from the state those left. -/
def statusTries (d : device) (w : World) : List (Outcome (List result)) × device × World :=
  attempts device.gatherStatus maxRetries (timeTries d w).2.1 (timeTries d w).2.2

/-- The calls of `gatherValues` a pass makes when they follow the calls of
`gatherStatus`: at most `maxRetries`, from the state those left. -/
def valuesTries (d : device) (w : World) : List (Outcome result) × device × World :=
  attempts device.gatherValues maxRetries (statusTries d w).2.1 (statusTries d w).2.2

/-- The error value a sequence of call outcomes leaves in the variable `err`
of `withRetries`, which held `err` before them. -/
def lastError {α : Type} : List (Outcome α) → Option Err → Outcome Unit
  | [], none => .ok ()
  | [], some e => .error e
  | .error e :: rest, _ => lastError rest (some e)
  | .ok _ :: _, _ => .ok ()
  | .panic :: _, _ => .panic

/-- A call outcome without its value. -/
def Outcome.void {α : Type} : Outcome α → Outcome Unit
  | .ok _ => .ok ()
  | .error e => .error e
  | .panic => .panic

/-- What one call of `systime` in the first closure does to the accumulator
and to `t`. -/
def noteTime (st : List Record × Int) : Outcome Int → List Record × Int
  | .ok tm => (st.1, tm)
  | .error _ => (st.1, zeroTime)
  | .panic => st

/-- What one call of `gatherStatus` in the second closure does to the
accumulator and to `t`. -/
def noteStatus (st : List Record × Int) : Outcome (List result) → List Record × Int
  | .ok stat => (st.1 ++ stat.map fun v => ⟨v.fields, v.tags, st.2⟩, st.2)
  | .error _ => st
  | .panic => st

/-- What one call of `gatherValues` in the third closure does to the
accumulator and to `t`. -/
def noteValues (st : List Record × Int) : Outcome result → List Record × Int
  | .ok v => (st.1 ++ [⟨v.fields, v.tags, st.2⟩], st.2)
  | .error _ => st
  | .panic => st

/-- The sample meter answering the date and the time request, whose every
later exchange (the status requests) fails with a transport error. -/
def noStatusWorld : World :=
  { dialOk := fun _ => true
    reply := fun n =>
      if n = 0 then .ok ⟨[⟨[⟨"ACTIV", "30"⟩]⟩]⟩
      else if n = 1 then .ok ⟨[⟨[⟨"SNUMB", "12345"⟩]⟩]⟩
      else if n = 2 then .ok ⟨[⟨[⟨"DATE_", "03.01.02.23"⟩]⟩]⟩
      else if n = 3 then .ok ⟨[⟨[⟨"TIME_", "10:20:30"⟩]⟩]⟩
      else .error (.transport n)
    clock := fun n => 1000 + n
    addDate := fun t _ _ => t
    parseInLocation := sampleParse
    dials := 0, sent := 0, ticks := 0, log := [] }

/-- The sample meter answering the date, the time and the status request
(status word `1009`) and returning an empty block to every later request. -/
def statusOnlyWorld : World :=
  { dialOk := fun _ => true
    reply := fun n =>
      if n = 0 then .ok ⟨[⟨[⟨"ACTIV", "30"⟩]⟩]⟩
      else if n = 1 then .ok ⟨[⟨[⟨"SNUMB", "12345"⟩]⟩]⟩
      else if n = 2 then .ok ⟨[⟨[⟨"DATE_", "03.01.02.23"⟩]⟩]⟩
      else if n = 3 then .ok ⟨[⟨[⟨"TIME_", "10:20:30"⟩]⟩]⟩
      else if n = 4 then .ok (statusReply "1009")
      else .ok ⟨[]⟩
    clock := fun n => 1000 + n
    addDate := fun t _ _ => t
    parseInLocation := sampleParse
    dials := 0, sent := 0, ticks := 0, log := [] }

/-! ## Duration texts -/

/-- The closure `isDigit` of `UnmarshalTOML`. -/
def isDigit (ch : Char) : Bool := decide (48 ≤ ch.toNat) && decide (ch.toNat ≤ 57)

/-- `time.Nanosecond` .. `time.Hour`, the day and the week, in nanoseconds. -/
def nanosecond : Int := 1

def microsecond : Int := 1000

def millisecond : Int := 1000000

def second : Int := 1000000000

def minute : Int := 60000000000

def hour : Int := 3600000000000

def day : Int := 24 * 3600000000000

def week : Int := 7 * 24 * 3600000000000

/-- `d.tt += time.Duration(n) * unit`: the product and the sum are `int64`
operations and wrap. -/
def Duration.addSpan (d : Duration) (n : Int) (unit : Int) : Duration :=
  { d with tt := wrapInt64 (d.tt + wrapInt64 (n * unit)) }

/-- What the `switch dR[i]` of `UnmarshalTOML` does with the number `n`, the
unit rune `c` and the rune `next` after it, if any (`i+1 < len(dR)`): the
updated duration and how many runes beyond `c` the branch passes over (1 for
`i += 2; continue`, 0 for `i++`), or `none` for the `default` branch. -/
def applyUnit (d : Duration) (n : Int) (c : Char) (next : Option Char) :
    Option (Duration × Nat) :=
  if c = 's' then some (d.addSpan n second, 0)
  else if c = 'h' then some (d.addSpan n hour, 0)
  else if c = 'd' then some (d.addSpan n day, 0)
  else if c = 'w' then some (d.addSpan n week, 0)
  else if c = 'y' then some ({ d with years := n }, 0)
  else if c = 'n' then some (d.addSpan n nanosecond, if next = some 's' then 1 else 0)
  else if c = 'u' ∨ c = 'µ' then
    some (d.addSpan n microsecond, if next = some 's' then 1 else 0)
  else if c = 'm' then
    if next = some 's' then some (d.addSpan n millisecond, 1)
    else if next = some 'o' then some ({ d with monts := n }, 1)
    else some (d.addSpan n minute, 0)
  else none

/-- The component loop of `UnmarshalTOML` on the runes from index `i` on:
`skip` runes of a two-rune unit are still to be passed over, `digits` is the
digit run read since the start `s` of the component; `none` is `newErr()`. -/
def componentLoop : List Char → Nat → List Char → Duration → Option Duration
  | [], _, digits, d => if digits = [] then some d else none
  | _ :: rest, skip + 1, digits, d => componentLoop rest skip digits d
  | c :: rest, 0, digits, d =>
    if isDigit c then componentLoop rest 0 (digits ++ [c]) d
    else if digits = [] then none
    else
      match parseInt digits 10 64 with
      | .error _ => none
      | .ok n =>
        match applyUnit d n c rest.head? with
        | none => none
        | some (d1, skip) => componentLoop rest skip [] d1

/-- The fallback parser of `UnmarshalTOML`, after `config.Duration` declined
the text: `*d = Duration{}` and the component loop. -/
def parseComponents (text : String) : Option Duration :=
  componentLoop text.toList 0 [] ⟨0, 0, 0⟩

/-! ## Specification of duration texts -/

/-- The spellings of a unit that the component loop reads. -/
inductive UnitWord where
  | s | h | d | w | y | n | ns | u | us | mu | mus | m | ms | mo
  deriving DecidableEq, Repr

def UnitWord.chars : UnitWord → List Char
  | .s => ['s']
  | .h => ['h']
  | .d => ['d']
  | .w => ['w']
  | .y => ['y']
  | .n => ['n']
  | .ns => ['n', 's']
  | .u => ['u']
  | .us => ['u', 's']
  | .mu => ['µ']
  | .mus => ['µ', 's']
  | .m => ['m']
  | .ms => ['m', 's']
  | .mo => ['m', 'o']

/-- The length in nanoseconds of a fixed-span unit; the calendar units have
none. -/
def UnitWord.span : UnitWord → Option Int
  | .s => some second
  | .h => some hour
  | .d => some day
  | .w => some week
  | .y => none
  | .n => some nanosecond
  | .ns => some nanosecond
  | .u => some microsecond
  | .us => some microsecond
  | .mu => some microsecond
  | .mus => some microsecond
  | .m => some minute
  | .ms => some millisecond
  | .mo => none

/-- The units the specification lists: `ns, us, µs, ms, s, m, h, d, w, mo, y`. -/
def UnitWord.listed (uw : UnitWord) : Bool :=
  !(decide (uw = .n) || decide (uw = .u) || decide (uw = .mu))

/-- What a component with number `n` does to the duration. -/
def UnitWord.apply (uw : UnitWord) (n : Int) (d : Duration) : Duration :=
  match uw.span with
  | some k => d.addSpan n k
  | none => if uw = .y then { d with years := n } else { d with monts := n }

/-- A component of a duration text: a digit run and a unit. -/
structure Component where
  digits : List Char
  unit : UnitWord
  deriving DecidableEq, Repr

def Component.text (c : Component) : List Char := c.digits ++ c.unit.chars

/-- The digit run is a non-empty run of decimal digits. -/
def Component.wellFormed (c : Component) : Prop :=
  c.digits ≠ [] ∧ ∀ ch ∈ c.digits, isDecDigit ch

/-- The number of the component fits a signed 64-bit integer. -/
def Component.fits (c : Component) : Prop := decimalValue c.digits < 2 ^ 63

def Component.apply (c : Component) (d : Duration) : Duration :=
  c.unit.apply (decimalValue c.digits) d

/-- The text of a sequence of components. -/
def render : List Component → List Char
  | [] => []
  | c :: cs => c.text ++ render cs

/-- The components applied in order. -/
def applyAll : List Component → Duration → Duration
  | [], d => d
  | c :: cs, d => applyAll cs (c.apply d)

/-- The exact sum, in nanoseconds, of the fixed-span components. -/
def spanSum : List Component → Int
  | [] => 0
  | c :: cs =>
    (match c.unit.span with
      | some k => (decimalValue c.digits : Int) * k
      | none => 0) + spanSum cs

/-- How many components carry the given unit. -/
def countUnit (uw : UnitWord) (cs : List Component) : Nat :=
  (cs.filter fun c => c.unit = uw).length

/-! ## Lemmas: sorting and the tariff filter -/

theorem sortInts_mem (cfg : List Int) (x : Int) : x ∈ sortInts cfg ↔ x ∈ cfg := by
  unfold sortInts
  exact List.mem_insertionSort _

theorem sortInts_length (cfg : List Int) : (sortInts cfg).length = cfg.length := by
  unfold sortInts
  exact List.length_insertionSort _ _

theorem sortInts_sorted (cfg : List Int) : (sortInts cfg).Pairwise (· ≤ ·) := by
  unfold sortInts
  exact List.sorted_insertionSort _ _

theorem headD_mem_of_ne_nil (l : List Int) (h : l ≠ []) : l.headD 0 ∈ l := by
  cases l with
  | nil => exact absurd rfl h
  | cons a t => simp

theorem headD_le_of_pairwise (l : List Int) (hs : l.Pairwise (· ≤ ·)) (x : Int) (hx : x ∈ l) :
    l.headD 0 ≤ x := by
  cases l with
  | nil => simp at hx
  | cons a t =>
    rcases List.mem_cons.mp hx with h | h
    · simp [h]
    · exact (List.pairwise_cons.mp hs).1 x h

theorem getLastD_mem_of_ne_nil (l : List Int) (h : l ≠ []) : l.getLastD 0 ∈ l := by
  induction l with
  | nil => exact absurd rfl h
  | cons a t ih =>
    cases t with
    | nil => simp
    | cons b t2 =>
      have := ih (by simp)
      simp only [List.getLastD_cons] at this ⊢
      exact List.mem_cons_of_mem _ this

theorem le_getLastD_of_pairwise (l : List Int) (hs : l.Pairwise (· ≤ ·)) :
    ∀ x ∈ l, x ≤ l.getLastD 0 := by
  induction l with
  | nil => simp
  | cons a t ih =>
    cases t with
    | nil => simp
    | cons b t2 =>
      have hs2 := (List.pairwise_cons.mp hs).2
      have hab := (List.pairwise_cons.mp hs).1
      have ih2 := ih hs2
      have hlast := ih2 b (List.mem_cons_self _ _)
      simp only [List.getLastD_cons] at hlast ih2 ⊢
      intro x hx
      rcases List.mem_cons.mp hx with h | h
      · have := hab b (List.mem_cons_self _ _)
        omega
      · exact ih2 x h

theorem markTariffs_error_iff (l : List Int) (rv : tariffFilter) :
    (∃ e, markTariffs l rv = .error e) ↔ ∃ t ∈ l, ¬ validTariff t := by
  induction l generalizing rv with
  | nil => simp [markTariffs]
  | cons t ts ih =>
    unfold markTariffs
    by_cases h : 0 ≥ t ∨ t > maxTariffId
    · rw [if_pos h]
      constructor
      · intro _
        refine ⟨t, List.mem_cons_self _ _, ?_⟩
        unfold validTariff
        unfold maxTariffId at h
        omega
      · intro _
        exact ⟨_, rfl⟩
    · rw [if_neg h, ih]
      have hv : validTariff t := by
        unfold validTariff
        unfold maxTariffId at h
        omega
      constructor
      · rintro ⟨x, hx, hnx⟩
        exact ⟨x, List.mem_cons_of_mem _ hx, hnx⟩
      · rintro ⟨x, hx, hnx⟩
        rcases List.mem_cons.mp hx with h1 | h1
        · exact absurd (h1 ▸ hv) hnx
        · exact ⟨x, h1, hnx⟩

theorem markTariffs_ok (l : List Int) (rv : tariffFilter) (hl : ∀ t ∈ l, validTariff t)
    (hlen : rv.mask.length = 5) :
    ∃ rv1, markTariffs l rv = .ok rv1 ∧ rv1.isAll = rv.isAll ∧ rv1.isSingle = rv.isSingle ∧
      rv1.minId = rv.minId ∧ rv1.arg = rv.arg ∧ rv1.mask.length = 5 ∧
      ∀ k : Nat, k < 5 →
        (rv1.mask[k]? = some true ↔ (rv.mask[k]? = some true ∨ ((k : Int) + 1) ∈ l)) := by
  induction l generalizing rv with
  | nil =>
    refine ⟨rv, rfl, rfl, rfl, rfl, rfl, hlen, ?_⟩
    intro k _
    simp
  | cons t ts ih =>
    have ht : validTariff t := hl t (List.mem_cons_self _ _)
    have hts : ∀ x ∈ ts, validTariff x := fun x hx => hl x (List.mem_cons_of_mem _ hx)
    unfold validTariff at ht
    have hcond : ¬ (0 ≥ t ∨ t > maxTariffId) := by
      unfold maxTariffId
      omega
    unfold markTariffs
    rw [if_neg hcond]
    obtain ⟨rv1, h1, h2, h3, h4, h5, h6, h7⟩ :=
      ih { rv with mask := rv.mask.set (t - 1).toNat true } hts (by simp [hlen])
    refine ⟨rv1, h1, h2, h3, h4, h5, h6, ?_⟩
    intro k hk
    rw [h7 k hk]
    simp only [List.getElem?_set, hlen, List.mem_cons]
    by_cases hkt : (t - 1).toNat = k
    · have h8 : (k : Int) + 1 = t := by omega
      rw [if_pos hkt, if_pos (by omega)]
      simp [h8]
    · have h8 : ¬ ((k : Int) + 1 = t) := by omega
      rw [if_neg hkt]
      simp [h8]

theorem mask_all_iff (m : List Bool) (hlen : m.length = 5) :
    m.all id = true ↔ ∀ k : Nat, k < 5 → m[k]? = some true := by
  rw [List.all_eq_true]
  constructor
  · intro h k hk
    have hk2 : k < m.length := by omega
    rw [List.getElem?_eq_getElem hk2]
    have := h m[k] (List.getElem_mem hk2)
    simpa using this
  · intro h x hx
    obtain ⟨k, hk, hkx⟩ := List.getElem_of_mem hx
    have h2 := h k (by omega)
    rw [List.getElem?_eq_getElem hk, hkx] at h2
    simpa using h2

/-- The filter `newTariffFilter` builds from two or more valid indices. -/
theorem newTariffFilter_multi (cfg : List Int) (hlen : 2 ≤ cfg.length)
    (hv : ∀ t ∈ cfg, validTariff t) :
    ∃ f, newTariffFilter cfg = .ok f ∧ f.minId = (sortInts cfg).headD 0 ∧ f.mask.length = 5 ∧
      (∀ k : Nat, k < 5 → (f.mask[k]? = some true ↔ ((k : Int) + 1) ∈ cfg)) ∧
      ((sortInts cfg).headD 0 = (sortInts cfg).getLastD 0 →
        f.isSingle = true ∧ f.isAll = false ∧ f.arg = fmtInt ((sortInts cfg).headD 0)) ∧
      ((sortInts cfg).headD 0 ≠ (sortInts cfg).getLastD 0 →
        f.isSingle = false ∧ (f.isAll = true ↔ ∀ k : Nat, k < 5 → ((k : Int) + 1) ∈ cfg) ∧
        f.arg = fmtInt ((sortInts cfg).headD 0) ++ "," ++
          fmtInt ((sortInts cfg).getLastD 0 - (sortInts cfg).headD 0 + 1)) := by
  match cfg, hlen with
  | a :: b :: rest, _ =>
    have hv2 : ∀ t ∈ sortInts (a :: b :: rest), validTariff t :=
      fun t ht => hv t ((sortInts_mem _ t).mp ht)
    obtain ⟨rv1, h1, h2, h3, h4, h5, h6, h7⟩ :=
      markTariffs_ok (sortInts (a :: b :: rest)) tariffFilter.zero hv2 (by simp [tariffFilter.zero])
    have h7b : ∀ k : Nat, k < 5 → (rv1.mask[k]? = some true ↔ ((k : Int) + 1) ∈ a :: b :: rest) := by
      intro k hk
      rw [h7 k hk, sortInts_mem]
      have h0 : tariffFilter.zero.mask[k]? = some false := by
        have : k = 0 ∨ k = 1 ∨ k = 2 ∨ k = 3 ∨ k = 4 := by omega
        rcases this with h | h | h | h | h <;> subst h <;> rfl
      rw [h0]
      simp
    have hz1 : tariffFilter.zero.isAll = false := rfl
    have hz2 : tariffFilter.zero.isSingle = false := rfl
    simp only [newTariffFilter, h1]
    by_cases hmm : (sortInts (a :: b :: rest)).headD 0 = (sortInts (a :: b :: rest)).getLastD 0
    · rw [if_pos hmm]
      refine ⟨_, rfl, rfl, h6, h7b, ?_, ?_⟩
      · intro _
        exact ⟨rfl, by simp [h2, hz1], rfl⟩
      · intro h
        exact absurd hmm h
    · rw [if_neg hmm]
      by_cases hall : rv1.mask.all id = true
      · rw [if_pos hall]
        refine ⟨_, rfl, rfl, h6, h7b, ?_, ?_⟩
        · intro h
          exact absurd h hmm
        · intro _
          refine ⟨by simp [h3, hz2], ?_, rfl⟩
          simp only [true_iff]
          intro k hk
          exact (h7b k hk).mp ((mask_all_iff _ h6).mp hall k hk)
      · rw [if_neg hall]
        refine ⟨_, rfl, rfl, h6, h7b, ?_, ?_⟩
        · intro h
          exact absurd h hmm
        · intro _
          refine ⟨by simp [h3, hz2], ?_, rfl⟩
          constructor
          · intro h
            simp only [h2, hz1] at h
            exact absurd h (by simp)
          · intro h
            exfalso
            apply hall
            rw [mask_all_iff _ h6]
            intro k hk
            exact (h7b k hk).mpr (h k hk)

theorem validTariff_of_range {cfg : List Int} (hv : ∀ t ∈ cfg, 1 ≤ t ∧ t ≤ 5) :
    ∀ t ∈ cfg, validTariff t := hv

theorem length_ge_two_of_mem_ne {cfg : List Int} {x y : Int} (hx : x ∈ cfg) (hy : y ∈ cfg)
    (hxy : x ≠ y) : 2 ≤ cfg.length := by
  match cfg with
  | [] => simp at hx
  | [a] =>
    simp only [List.mem_singleton] at hx hy
    exact absurd (hx.trans hy.symm) hxy
  | a :: b :: rest => simp

theorem maskAt_pred (m : List Bool) (k : Int) (h1 : 1 ≤ k) (h5 : k ≤ 5) :
    maskAt m (k - 1) = m[(k - 1).toNat]? := by
  unfold maskAt maxTariffId
  rw [if_pos (by omega)]

theorem newTariffFilter_fails_iff (cfg : List Int) :
    (∃ e, newTariffFilter cfg = .error e) ↔ ∃ t ∈ cfg, t < 1 ∨ 5 < t := by
  match cfg with
  | [] => simp [newTariffFilter]
  | [a] =>
    simp only [newTariffFilter, maxTariffId, List.mem_singleton, exists_eq_left]
    by_cases h : 0 ≥ a ∨ a > 5
    · rw [if_pos h]
      constructor
      · intro _
        omega
      · intro _
        exact ⟨_, rfl⟩
    · rw [if_neg h]
      constructor
      · rintro ⟨e, he⟩
        cases he
      · intro h2
        omega
  | a :: b :: rest =>
    by_cases hv : ∀ t ∈ a :: b :: rest, validTariff t
    · obtain ⟨f, hf, _⟩ := newTariffFilter_multi (a :: b :: rest) (by simp) hv
      rw [hf]
      constructor
      · rintro ⟨e, he⟩
        cases he
      · rintro ⟨t, ht, hbad⟩
        have := hv t ht
        unfold validTariff at this
        omega
    · have hbad : ∃ t ∈ a :: b :: rest, ¬ validTariff t := by
        by_contra hcon
        apply hv
        intro t ht
        by_contra hnt
        exact hcon ⟨t, ht, hnt⟩
      constructor
      · intro _
        obtain ⟨t, ht, hnt⟩ := hbad
        refine ⟨t, ht, ?_⟩
        unfold validTariff at hnt
        omega
      · intro _
        have hbad2 : ∃ t ∈ sortInts (a :: b :: rest), ¬ validTariff t := by
          obtain ⟨t, ht, hnt⟩ := hbad
          exact ⟨t, (sortInts_mem _ t).mpr ht, hnt⟩
        obtain ⟨e, he⟩ := (markTariffs_error_iff _ tariffFilter.zero).mpr hbad2
        exact ⟨e, by simp only [newTariffFilter, he]⟩

/-! ## Claims on the tariff filter -/

/-- C4: `newTariffFilter` returns an error if and only if some element of the
list is outside `1..5`, for lists of any length, order and multiplicity; the
empty list succeeds and `[0]`, `[6]` fail. -/
theorem newTariffFilter_error_iff (cfg : List Int) :
    ((∃ e, newTariffFilter cfg = .error e) ↔ ∃ t ∈ cfg, t < 1 ∨ 5 < t) ∧
    (∃ f, newTariffFilter [] = .ok f) ∧
    newTariffFilter [0] = .error (.invalidTariff 0) ∧
    newTariffFilter [6] = .error (.invalidTariff 6) :=
  ⟨newTariffFilter_fails_iff cfg, ⟨_, rfl⟩, by decide, by decide⟩

/-- C5 as written fails: the filter built from `[1,2,3,4,5]` is in all-tariffs
mode but its `arg` is `"1,5"`, not the empty string. -/
theorem newTariffFilter_all_arg_nonempty :
    ∃ f, newTariffFilter [1, 2, 3, 4, 5] = .ok f ∧ f.isAll = true ∧ f.isSingle = false ∧
      f.arg = "1,5" ∧ f.arg ≠ "" :=
  ⟨_, rfl, rfl, rfl, rfl, by decide⟩

/-- C5 (amended): for the empty list and for every list of indices in `1..5`
whose values cover all of `1..5`, `newTariffFilter` returns a filter in
all-tariffs mode (`isAll` true, `isSingle` false); its `arg` is empty for the
empty list and `"1,5"` for a covering list, and the `ET0PE` request that
`gatherValues` builds from it carries an empty selector in both cases. -/
theorem newTariffFilter_all (cfg : List Int)
    (h : cfg = [] ∨ ((∀ t ∈ cfg, 1 ≤ t ∧ t ≤ 5) ∧ ∀ k : Int, 1 ≤ k → k ≤ 5 → k ∈ cfg)) :
    ∃ f, newTariffFilter cfg = .ok f ∧ f.isAll = true ∧ f.isSingle = false ∧
      f.arg = (if cfg = [] then "" else "1,5") ∧ (valuesCmd f).Value = "" := by
  rcases h with h | ⟨hv, hc⟩
  · subst h
    exact ⟨_, rfl, rfl, rfl, rfl, rfl⟩
  · have h1 : (1 : Int) ∈ cfg := hc 1 (by omega) (by omega)
    have h5 : (5 : Int) ∈ cfg := hc 5 (by omega) (by omega)
    have hlen : 2 ≤ cfg.length := length_ge_two_of_mem_ne h1 h5 (by omega)
    have hne : cfg ≠ [] := by
      intro h0
      rw [h0] at h1
      simp at h1
    have hsne : sortInts cfg ≠ [] := by
      intro h0
      have := sortInts_length cfg
      rw [h0] at this
      simp at this
      omega
    obtain ⟨f, hf, hmin, _, hmask, _, hrange⟩ := newTariffFilter_multi cfg hlen hv
    have hmn : (sortInts cfg).headD 0 = 1 := by
      have hle := headD_le_of_pairwise _ (sortInts_sorted cfg) 1 ((sortInts_mem _ _).mpr h1)
      have hge := hv _ ((sortInts_mem _ _).mp (headD_mem_of_ne_nil _ hsne))
      omega
    have hmx : (sortInts cfg).getLastD 0 = 5 := by
      have hle := le_getLastD_of_pairwise _ (sortInts_sorted cfg) 5 ((sortInts_mem _ _).mpr h5)
      have hge := hv _ ((sortInts_mem _ _).mp (getLastD_mem_of_ne_nil _ hsne))
      omega
    obtain ⟨hs, hall, harg⟩ := hrange (by rw [hmn, hmx]; omega)
    have hallT : f.isAll = true := hall.mpr (fun k hk => hc _ (by omega) (by omega))
    refine ⟨f, hf, hallT, hs, ?_, ?_⟩
    · rw [if_neg hne, harg, hmn, hmx]
      rfl
    · simp [valuesCmd, hallT]

/-- Witness for C5 (amended): the covering list `[5,4,3,2,1]`. -/
theorem newTariffFilter_all_witness :
    ∃ f, newTariffFilter [5, 4, 3, 2, 1] = .ok f ∧ f.isAll = true ∧ f.isSingle = false ∧
      f.arg = (if ([5, 4, 3, 2, 1] : List Int) = [] then "" else "1,5") ∧
      (valuesCmd f).Value = "" :=
  newTariffFilter_all [5, 4, 3, 2, 1] (Or.inr (by decide))

/-- C6 as written fails: `[2,2]` is a list of two indices in `1..5` that does
not cover `1..5`, and its selector is `"2"`, not `"2,1"`. -/
theorem newTariffFilter_equal_indices_selector :
    (2 ≤ ([2, 2] : List Int).length ∧ (∀ t ∈ ([2, 2] : List Int), 1 ≤ t ∧ t ≤ 5) ∧
      (3 : Int) ∉ ([2, 2] : List Int)) ∧
    ∃ f, newTariffFilter [2, 2] = .ok f ∧ f.minId = 2 ∧ f.arg = "2" ∧
      f.arg ≠ fmtInt 2 ++ "," ++ fmtInt (2 - 2 + 1) :=
  ⟨by decide, _, rfl, rfl, rfl, by decide⟩

/-- C6 (amended): for every list of two or more indices, each in `1..5`, whose
values do not cover all of `1..5`, `newTariffFilter` returns a filter with
`minId` the smallest listed index and a 5-entry mask holding exactly the listed
indices; its selector is the decimal minimum, a comma and the decimal span
`max-min+1` when the listed values are not all equal, and the decimal index
alone (single-tariff mode) when they are all equal. -/
theorem newTariffFilter_range (cfg : List Int) (hlen : 2 ≤ cfg.length)
    (hv : ∀ t ∈ cfg, 1 ≤ t ∧ t ≤ 5) (hnc : ∃ k : Int, 1 ≤ k ∧ k ≤ 5 ∧ k ∉ cfg) :
    ∃ f mn mx, newTariffFilter cfg = .ok f ∧ mn ∈ cfg ∧ mx ∈ cfg ∧
      (∀ x ∈ cfg, mn ≤ x ∧ x ≤ mx) ∧ f.minId = mn ∧ f.mask.length = 5 ∧
      (∀ k : Int, 1 ≤ k → k ≤ 5 → (maskAt f.mask (k - 1) = some true ↔ k ∈ cfg)) ∧
      f.isAll = false ∧ f.isSingle = decide (mn = mx) ∧
      f.arg = (if mn = mx then fmtInt mn else fmtInt mn ++ "," ++ fmtInt (mx - mn + 1)) := by
  have hsne : sortInts cfg ≠ [] := by
    intro h0
    have := sortInts_length cfg
    rw [h0] at this
    simp at this
    omega
  obtain ⟨f, hf, hmin, hmlen, hmask, hsingle, hrange⟩ := newTariffFilter_multi cfg hlen hv
  refine ⟨f, (sortInts cfg).headD 0, (sortInts cfg).getLastD 0, hf,
    (sortInts_mem _ _).mp (headD_mem_of_ne_nil _ hsne),
    (sortInts_mem _ _).mp (getLastD_mem_of_ne_nil _ hsne), ?_, hmin, hmlen, ?_, ?_⟩
  · intro x hx
    exact ⟨headD_le_of_pairwise _ (sortInts_sorted cfg) x ((sortInts_mem _ _).mpr hx),
      le_getLastD_of_pairwise _ (sortInts_sorted cfg) x ((sortInts_mem _ _).mpr hx)⟩
  · intro k h1 h5
    rw [maskAt_pred _ k h1 h5]
    have := hmask (k - 1).toNat (by omega)
    rw [this]
    have hk : (((k - 1).toNat : Nat) : Int) + 1 = k := by omega
    rw [hk]
  · by_cases hmm : (sortInts cfg).headD 0 = (sortInts cfg).getLastD 0
    · obtain ⟨h1, h2, h3⟩ := hsingle hmm
      refine ⟨h2, ?_, ?_⟩
      · rw [h1, decide_eq_true hmm]
      · rw [if_pos hmm, h3]
    · obtain ⟨h1, h2, h3⟩ := hrange hmm
      refine ⟨?_, ?_, ?_⟩
      · cases hall : f.isAll with
        | false => rfl
        | true =>
          exfalso
          obtain ⟨k, hk1, hk5, hkn⟩ := hnc
          have := h2.mp hall (k - 1).toNat (by omega)
          have hk : (((k - 1).toNat : Nat) : Int) + 1 = k := by omega
          rw [hk] at this
          exact hkn this
      · rw [h1, decide_eq_false hmm]
      · rw [if_neg hmm, h3]

/-- Witness for C6 (amended): `[2,4]` gives `minId` 2 and selector `"2,3"`. -/
theorem newTariffFilter_range_witness :
    newTariffFilter [2, 4] =
      .ok { isAll := false, isSingle := false, mask := [false, true, false, true, false],
            minId := 2, arg := "2,3" } ∧
    ∃ f mn mx, newTariffFilter [2, 4] = .ok f ∧ mn ∈ ([2, 4] : List Int) ∧
      mx ∈ ([2, 4] : List Int) ∧
      (∀ x ∈ ([2, 4] : List Int), mn ≤ x ∧ x ≤ mx) ∧ f.minId = mn ∧ f.mask.length = 5 ∧
      (∀ k : Int, 1 ≤ k → k ≤ 5 → (maskAt f.mask (k - 1) = some true ↔ k ∈ ([2, 4] : List Int))) ∧
      f.isAll = false ∧ f.isSingle = decide (mn = mx) ∧
      f.arg = (if mn = mx then fmtInt mn else fmtInt mn ++ "," ++ fmtInt (mx - mn + 1)) :=
  ⟨by decide, newTariffFilter_range [2, 4] (by decide) (by decide) ⟨3, by decide⟩⟩

/-! ## Lemmas: number parsing -/

theorem decimalValue_nil : decimalValue [] = 0 := rfl

theorem decimalValue_cons (c : Char) (cs : List Char) :
    decimalValue (c :: cs) = (c.toNat - 48) * 10 ^ cs.length + decimalValue cs := by
  unfold decimalValue
  rw [List.reverse_cons, List.map_append, Nat.ofDigits_append]
  simp [Nat.ofDigits_singleton]
  ring

theorem digitOf_of_isDecDigit (c : Char) (h : isDecDigit c) :
    digitOf c = some (c.toNat - 48) := by
  unfold digitOf
  unfold isDecDigit at h
  rw [if_pos h]

/-- On a run of decimal digits the loop of `ParseUint(_, 10, 32)` never hits a
range check as long as the number read so far stays below `2^32`. -/
theorem parseUintLoop_digits (ds : List Char) (hd : ∀ c ∈ ds, isDecDigit c) :
    ∀ n : Nat, n * 10 ^ ds.length + decimalValue ds < 2 ^ 32 →
      parseUintLoop 10 (2 ^ 32 - 1) ((2 ^ 64 - 1) / 10 + 1) ds n =
        .ok (n * 10 ^ ds.length + decimalValue ds) := by
  induction ds with
  | nil =>
    intro n _
    simp [parseUintLoop, decimalValue_nil]
  | cons c cs ih =>
    intro n hn
    have hc : isDecDigit c := hd c (List.mem_cons_self _ _)
    have hcs : ∀ x ∈ cs, isDecDigit x := fun x hx => hd x (List.mem_cons_of_mem _ hx)
    have hdig := digitOf_of_isDecDigit c hc
    unfold isDecDigit at hc
    rw [decimalValue_cons, List.length_cons, pow_succ] at hn
    have hpos : 0 < 10 ^ cs.length := by positivity
    have hstep : (n * 10 + (c.toNat - 48)) * 10 ^ cs.length + decimalValue cs < 2 ^ 32 := by
      have : (n * 10 + (c.toNat - 48)) * 10 ^ cs.length =
          n * (10 ^ cs.length * 10) + (c.toNat - 48) * 10 ^ cs.length := by ring
      omega
    have hsmall : n * 10 + (c.toNat - 48) < 2 ^ 32 := by
      have h1 : n * 10 + (c.toNat - 48) ≤ (n * 10 + (c.toNat - 48)) * 10 ^ cs.length :=
        Nat.le_mul_of_pos_right _ hpos
      omega
    have hres := ih hcs (n * 10 + (c.toNat - 48)) hstep
    unfold parseUintLoop
    simp only [hdig]
    have hn0 : n * 10 % 2 ^ 64 = n * 10 := Nat.mod_eq_of_lt (by omega)
    have hn1 : (n * 10 + (c.toNat - 48)) % 2 ^ 64 = n * 10 + (c.toNat - 48) :=
      Nat.mod_eq_of_lt (by omega)
    rw [if_neg (by omega), if_neg (by omega)]
    simp only [hn0, hn1]
    rw [if_neg (by omega), hres]
    congr 1
    rw [decimalValue_cons, List.length_cons, pow_succ]
    ring

theorem parseUintLoop_bad_char (base maxVal cutoff : Nat) (ds : List Char) (x : Char)
    (hx : x ∈ ds) (hbad : digitOf x = none) :
    ∀ n : Nat, ∃ e, parseUintLoop base maxVal cutoff ds n = .error e := by
  induction ds with
  | nil => simp at hx
  | cons c cs ih =>
    intro n
    unfold parseUintLoop
    rcases List.mem_cons.mp hx with h | h
    · subst h
      rw [hbad]
      exact ⟨_, rfl⟩
    · cases hc : digitOf c with
      | none => exact ⟨_, rfl⟩
      | some d =>
        simp only
        split_ifs
        · exact ⟨_, rfl⟩
        · exact ⟨_, rfl⟩
        · exact ⟨_, rfl⟩
        · exact ih h _

/-! ## Claims on value parsing -/

/-- C3: `parseValue` deletes the decimal separator instead of rounding: a
value made of decimal digits with exactly one `.` among them (at least one
digit) whose digits, read as one decimal number, are below `2^32` parses to
exactly that number; `"0001.234"` gives 1234; a value with two or more
separators is rejected with an error. -/
theorem parseValue_removes_separator :
    (∀ a b : List Char, (∀ c ∈ a ++ b, isDecDigit c) → a ++ b ≠ [] →
      decimalValue (a ++ b) < 2 ^ 32 →
      parseValue (String.mk (a ++ '.' :: b)) = .ok (decimalValue (a ++ b))) ∧
    parseValue "0001.234" = .ok 1234 ∧
    (∀ v : String, 2 ≤ v.toList.count '.' → ∃ e, parseValue v = .error e) := by
  refine ⟨?_, by decide, ?_⟩
  · intro a b hd hne hlt
    have hdot : '.' ∉ a := by
      intro hmem
      have := hd '.' (List.mem_append_left _ hmem)
      revert this
      decide
    have herase : (a ++ '.' :: b).erase '.' = a ++ b := by
      rw [List.erase_append_right _ hdot, List.erase_cons_head]
    have hlist : (String.mk (a ++ '.' :: b)).toList = a ++ '.' :: b := rfl
    unfold parseValue parseUint
    rw [hlist, herase, if_neg hne]
    have := parseUintLoop_digits (a ++ b) hd 0 (by simpa using hlt)
    simpa using this
  · intro v hv
    have hcount : 0 < (v.toList.erase '.').count '.' := by
      rw [List.count_erase_self]
      omega
    have hmem : '.' ∈ v.toList.erase '.' := List.count_pos_iff.mp hcount
    have hne : v.toList.erase '.' ≠ [] := List.ne_nil_of_mem hmem
    unfold parseValue parseUint
    rw [if_neg hne]
    exact parseUintLoop_bad_char _ _ _ _ '.' hmem (by decide) 0

/-- Witness for C3: `"12.5"` parses to 125 and `"1.2.3"` is rejected. -/
theorem parseValue_removes_separator_witness :
    parseValue (String.mk (['1', '2'] ++ '.' :: ['5'])) = .ok (decimalValue (['1', '2'] ++ ['5'])) ∧
    decimalValue (['1', '2'] ++ ['5']) = 125 ∧
    ∃ e, parseValue "1.2.3" = .error e :=
  ⟨parseValue_removes_separator.1 ['1', '2'] ['5'] (by decide) (by decide) (by decide),
   by decide,
   parseValue_removes_separator.2.2 "1.2.3" (by decide)⟩

/-! ## Lemmas: the session leaves the configuration alone -/

theorem sameConfig_refl (d : device) : sameConfig d d := ⟨rfl, rfl, rfl, rfl, rfl, rfl⟩

theorem sameConfig_trans {a b c : device} (h1 : sameConfig a b) (h2 : sameConfig b c) :
    sameConfig a c := by
  obtain ⟨a1, a2, a3, a4, a5, a6⟩ := h1
  obtain ⟨b1, b2, b3, b4, b5, b6⟩ := h2
  exact ⟨b1.trans a1, b2.trans a2, b3.trans a3, b4.trans a4, b5.trans a5, b6.trans a6⟩

theorem dropStale_config (d : device) (w : World) : sameConfig d (d.dropStale w).1 := by
  unfold device.dropStale
  split <;> exact ⟨rfl, rfl, rfl, rfl, rfl, rfl⟩

theorem resolveIdleTo_config (d : device) (td : TariffDevice) (conn : Nat) (w : World) :
    sameConfig d (d.resolveIdleTo td conn w).2.1 := by
  unfold device.resolveIdleTo
  split
  · split <;> exact ⟨rfl, rfl, rfl, rfl, rfl, rfl⟩
  · exact sameConfig_refl d

theorem resolveMeterId_config (d : device) (td : TariffDevice) (conn : Nat) (w : World) :
    sameConfig d (d.resolveMeterId td conn w).2.1 := by
  unfold device.resolveMeterId
  split
  · split <;> exact ⟨rfl, rfl, rfl, rfl, rfl, rfl⟩
  · exact sameConfig_refl d

theorem setup_config (d : device) (conn : Nat) (w : World) :
    sameConfig d (d.setup conn w).2.1 := by
  unfold device.setup
  have c1 := resolveIdleTo_config (d.setHandle (d.cl.handleFor conn)) (d.cl.handleFor conn) conn w
  generalize (d.setHandle (d.cl.handleFor conn)).resolveIdleTo (d.cl.handleFor conn) conn w = p
    at c1 ⊢
  obtain ⟨r1, d1, w1⟩ := p
  have c01 : sameConfig d d1 := sameConfig_trans ⟨rfl, rfl, rfl, rfl, rfl, rfl⟩ c1
  cases r1 with
  | error e => exact c01
  | ok u =>
    dsimp only
    have c2 := resolveMeterId_config (d1.setHandle ((d.cl.handleFor conn).setIdle d1.cl.idleTo))
      ((d.cl.handleFor conn).setIdle d1.cl.idleTo) conn w1
    generalize (d1.setHandle ((d.cl.handleFor conn).setIdle d1.cl.idleTo)).resolveMeterId
      ((d.cl.handleFor conn).setIdle d1.cl.idleTo) conn w1 = q at c2 ⊢
    obtain ⟨r2, d2, w2⟩ := q
    have c02 : sameConfig d d2 :=
      sameConfig_trans c01 (sameConfig_trans ⟨rfl, rfl, rfl, rfl, rfl, rfl⟩ c2)
    cases r2 with
    | error e => exact c02
    | ok u2 => exact sameConfig_trans c02 ⟨rfl, rfl, rfl, rfl, rfl, rfl⟩

theorem client_config (d : device) (w : World) : sameConfig d (d.client w).2.1 := by
  unfold device.client
  by_cases hc : d.cl.isConnected = true
  · rw [if_pos hc]
    exact sameConfig_refl d
  · rw [if_neg hc]
    have c1 := dropStale_config d w
    generalize (d.dropStale w).2.dial = q
    obtain ⟨_ | conn, w1⟩ := q
    · exact c1
    · exact sameConfig_trans c1 (setup_config _ conn w1)

theorem commandToMeter_config (d : device) (cmd : Command) (w : World) :
    sameConfig d (d.commandToMeter cmd w).2.1 := by
  unfold device.commandToMeter
  have c1 := client_config d w
  generalize d.client w = p at c1 ⊢
  obtain ⟨r, d1, w1⟩ := p
  cases r with
  | error e => exact c1
  | ok otd =>
    cases otd with
    | none => exact c1
    | some td =>
      dsimp only
      generalize td.Command cmd w1 = q
      obtain ⟨r2, w2⟩ := q
      cases r2 with
      | error e => exact sameConfig_trans c1 ⟨rfl, rfl, rfl, rfl, rfl, rfl⟩
      | ok db => exact c1

/-! ## Lemmas: value extraction -/

theorem mapKeys_mapSet {V : Type} (m : List (String × V)) (k : String) (v : V) (key : String) :
    key ∈ mapKeys (mapSet m k v) ↔ key = k ∨ key ∈ mapKeys m := by
  induction m with
  | nil => simp [mapSet, mapKeys]
  | cons p rest ih =>
    obtain ⟨k1, v1⟩ := p
    unfold mapSet
    by_cases h : k1 = k
    · rw [if_pos h]
      simp [mapKeys, h]
    · rw [if_neg h]
      unfold mapKeys at ih ⊢
      rw [List.map_cons, List.mem_cons, ih]
      simp only [List.map_cons, List.mem_cons]
      tauto

/-- Outside single-tariff mode, with every value parsing and the mask lookup
in range, the inner loop runs to its end and adds at most the key of line `i`. -/
theorem gatherSets_multi (t : tariffFilter) (pfx : String) (i : Nat) (hs : t.isSingle = false)
    (b : Bool) (hb : wanted t i = some b) (sets : List DataSet)
    (hp : ∀ s ∈ sets, ∃ v, parseValue s.Value = .ok v) :
    ∀ rv : result, ∃ rv1, gatherSets t pfx i sets rv = .next rv1 ∧ rv1.tags = rv.tags ∧
      ∀ key, key ∈ mapKeys rv1.fields ↔
        (key ∈ mapKeys rv.fields ∨
          (b = true ∧ sets ≠ [] ∧ key = pfx ++ fmtInt (i + (if !t.isAll then t.minId else 1)))) := by
  induction sets with
  | nil =>
    intro rv
    exact ⟨rv, rfl, rfl, by simp⟩
  | cons ds rest ih =>
    intro rv
    have hrest : ∀ s ∈ rest, ∃ v, parseValue s.Value = .ok v :=
      fun s hs => hp s (List.mem_cons_of_mem _ hs)
    obtain ⟨val, hval⟩ := hp ds (List.mem_cons_self _ _)
    unfold gatherSets
    simp only [hs, hb, Bool.false_eq_true, if_false]
    cases b with
    | false =>
      obtain ⟨rv1, h1, h2, h3⟩ := ih hrest rv
      refine ⟨rv1, h1, h2, ?_⟩
      intro key
      rw [h3 key]
      simp
    | true =>
      simp only [hval]
      obtain ⟨rv1, h1, h2, h3⟩ := ih hrest
        ⟨rv.tags, mapSet rv.fields (pfx ++ fmtInt (i + (if !t.isAll then t.minId else 1)))
          (.uint val)⟩
      refine ⟨rv1, h1, h2, ?_⟩
      intro key
      rw [h3 key, mapKeys_mapSet]
      simp only [true_and, ne_eq, not_false_eq_true, reduceCtorEq]
      tauto

/-- Outside single-tariff mode, with every value parsing and every mask lookup
of a consulted line in range, the outer loop ends with a result whose new keys
are those of the consulted, non-empty, wanted lines. -/
theorem gatherLines_multi (t : tariffFilter) (pfx : String) (hs : t.isSingle = false)
    (lines : List DataLine) :
    ∀ (i : Nat) (rv : result),
      (∀ l ∈ lines, ∀ s ∈ l.Sets, ∃ v, parseValue s.Value = .ok v) →
      (∀ j : Nat, j < lines.length → i + j < 5 → ∃ b, wanted t (i + j) = some b) →
      ∃ rv1, gatherLines t pfx i lines rv = .ok rv1 ∧ rv1.tags = rv.tags ∧
        ∀ key, key ∈ mapKeys rv1.fields ↔
          (key ∈ mapKeys rv.fields ∨
            ∃ (j : Nat) (l : DataLine), lines[j]? = some l ∧ i + j < 5 ∧ l.Sets ≠ [] ∧
              wanted t (i + j) = some true ∧
              key = pfx ++ fmtInt (((i + j : Nat) : Int) + (if !t.isAll then t.minId else 1))) := by
  induction lines with
  | nil =>
    intro i rv _ _
    exact ⟨rv, rfl, rfl, by simp⟩
  | cons dl rest ih =>
    intro i rv hp hw
    unfold gatherLines
    by_cases hbr : maxTariffId < (i : Int) + 1
    · rw [if_pos hbr]
      refine ⟨rv, rfl, rfl, ?_⟩
      intro key
      constructor
      · intro h
        exact Or.inl h
      · rintro (h | ⟨j, l, _, hj, _⟩)
        · exact h
        · unfold maxTariffId at hbr
          omega
    · rw [if_neg hbr]
      have hi : i < 5 := by
        unfold maxTariffId at hbr
        omega
      obtain ⟨b, hb⟩ := hw 0 (by simp) (by omega)
      rw [Nat.add_zero] at hb
      obtain ⟨rv0, g1, g2, g3⟩ := gatherSets_multi t pfx i hs b hb dl.Sets
        (hp dl (List.mem_cons_self _ _)) rv
      rw [g1]
      dsimp only
      obtain ⟨rv1, h1, h2, h3⟩ := ih (i + 1) rv0
        (fun l hl => hp l (List.mem_cons_of_mem _ hl))
        (fun j hj hj5 => by
          have := hw (j + 1) (by simp; omega) (by omega)
          rwa [show i + (j + 1) = i + 1 + j by omega] at this)
      refine ⟨rv1, h1, h2.trans g2, ?_⟩
      intro key
      rw [h3 key, g3 key]
      constructor
      · rintro ((h | ⟨hbt, hne, hkey⟩) | ⟨j, l, hjl, hj5, hne, hwj, hkey⟩)
        · exact Or.inl h
        · refine Or.inr ⟨0, dl, by simp, by omega, hne, ?_, ?_⟩
          · rw [Nat.add_zero, hb, hbt]
          · rw [Nat.add_zero]
            exact hkey
        · refine Or.inr ⟨j + 1, l, by simpa using hjl, by omega, hne, ?_, ?_⟩
          · rwa [show i + (j + 1) = i + 1 + j by omega]
          · rwa [show i + (j + 1) = i + 1 + j by omega]
      · rintro (h | ⟨j, l, hjl, hj5, hne, hwj, hkey⟩)
        · exact Or.inl (Or.inl h)
        · cases j with
          | zero =>
            simp only [List.getElem?_cons_zero, Option.some.injEq] at hjl
            subst hjl
            rw [Nat.add_zero] at hwj hkey
            rw [hb] at hwj
            exact Or.inl (Or.inr ⟨by simpa using hwj, hne, hkey⟩)
          | succ j =>
            refine Or.inr ⟨j, l, by simpa using hjl, by omega, hne, ?_, ?_⟩
            · rwa [show i + 1 + j = i + (j + 1) by omega]
            · rwa [show i + 1 + j = i + (j + 1) by omega]

theorem isOk_iff {α : Type} (r : Except NumError α) : r.isOk = true ↔ ∃ v, r = .ok v := by
  cases r with
  | error e => simp [Except.isOk, Except.toBool]
  | ok v => simp [Except.isOk, Except.toBool]

theorem getElem?_of_length_five (m : List Bool) (hlen : m.length = 5) (k : Nat) (hk : k < 5) :
    ∃ b, m[k]? = some b :=
  ⟨m[k], List.getElem?_eq_getElem (by omega)⟩

/-- A filter that came out in range mode was built from two or more valid
indices, and its mask holds exactly those. -/
theorem newTariffFilter_range_inv (cfg : List Int) (f : tariffFilter)
    (hf : newTariffFilter cfg = .ok f) (hs : f.isSingle = false) (ha : f.isAll = false) :
    (∀ t ∈ cfg, validTariff t) ∧ f.mask.length = 5 ∧ f.minId ∈ cfg ∧
    ∀ k : Nat, k < 5 → (f.mask[k]? = some true ↔ ((k : Int) + 1) ∈ cfg) := by
  have hvalid : ∀ t ∈ cfg, validTariff t := by
    intro t ht
    by_contra hn
    have : ∃ e, newTariffFilter cfg = .error e :=
      (newTariffFilter_fails_iff cfg).mpr ⟨t, ht, by unfold validTariff at hn; omega⟩
    obtain ⟨e, he⟩ := this
    rw [he] at hf
    cases hf
  match cfg, hf, hvalid with
  | [], hf, _ =>
    simp only [newTariffFilter, Except.ok.injEq] at hf
    rw [← hf] at ha
    cases ha
  | [a], hf, hvalid =>
    have hv := hvalid a (List.mem_singleton.mpr rfl)
    unfold validTariff at hv
    simp only [newTariffFilter, maxTariffId] at hf
    rw [if_neg (by omega)] at hf
    simp only [Except.ok.injEq] at hf
    rw [← hf] at hs
    cases hs
  | a :: b :: rest, hf, hvalid =>
    obtain ⟨f1, hf1, hmin, hlen, hmask, _, _⟩ :=
      newTariffFilter_multi (a :: b :: rest) (by simp) hvalid
    rw [hf1] at hf
    simp only [Except.ok.injEq] at hf
    subst hf
    refine ⟨hvalid, hlen, ?_, hmask⟩
    rw [hmin]
    exact (sortInts_mem _ _).mp (headD_mem_of_ne_nil _ (by
      intro h0
      have := sortInts_length (a :: b :: rest)
      rw [h0] at this
      simp at this))

/-- With a non-empty response, `gatherValues` returns what the loops return
on the lines of the response. -/
theorem gatherValues_of_reply (d : device) (w : World) (db : DataBlock)
    (hreply : (d.commandToMeter (valuesCmd d.tariffs) w).1 = .ok db)
    (hfirst : firstValue db ≠ none) :
    ∃ id, (d.gatherValues w).1 =
      gatherLines d.tariffs d.Prefix 0 db.Lines { tags := [(keyMeterId, id)], fields := [] } := by
  unfold device.gatherValues
  have hc := commandToMeter_config d (valuesCmd d.tariffs) w
  generalize d.commandToMeter (valuesCmd d.tariffs) w = p at hreply hc ⊢
  obtain ⟨r, d1, w1⟩ := p
  dsimp only at hreply hc
  subst hreply
  dsimp only
  cases hfv : firstValue db with
  | none => exact absurd hfv hfirst
  | some v =>
    dsimp only
    rw [hc.1, hc.2.1]
    exact ⟨d1.meterId, rfl⟩

/-! ## Claims on value extraction -/

/-- C1: in all-tariffs or range mode, for every response whose first line
holds a value, whose values all parse and (in range mode) that has no more
lines than the requested window `max-min+1`, `gatherValues` returns a result
whose field keys are exactly `prefix+k` for `k = i + base`, where `i` ranges
over the offsets of the first five lines that hold at least one value, `base`
is 1 for all-tariffs and `minId` otherwise, and in range mode `k` is one of
the requested indices; a sixth or later line never produces a field. -/
theorem gatherValues_field_keys (cfg : List Int) (f : tariffFilter) (d : device) (w : World)
    (db : DataBlock) (hf : newTariffFilter cfg = .ok f) (hd : d.tariffs = f)
    (hmode : f.isSingle = false)
    (hreply : (d.commandToMeter (valuesCmd f) w).1 = .ok db)
    (hfirst : firstValue db ≠ none)
    (hparse : ∀ l ∈ db.Lines, ∀ s ∈ l.Sets, (parseValue s.Value).isOk = true)
    (hwin : f.isAll = false →
      ∃ mx ∈ cfg, (∀ x ∈ cfg, x ≤ mx) ∧ (db.Lines.length : Int) ≤ mx - f.minId + 1) :
    ∃ rv, (d.gatherValues w).1 = .ok rv ∧
      ∀ key, key ∈ mapKeys rv.fields ↔
        ∃ (i : Nat) (l : DataLine), i < 5 ∧ db.Lines[i]? = some l ∧ l.Sets ≠ [] ∧
          (f.isAll = true ∨ (i : Int) + f.minId ∈ cfg) ∧
          key = d.Prefix ++ fmtInt ((i : Int) + (if f.isAll then 1 else f.minId)) := by
  subst hd
  obtain ⟨id, hgv⟩ := gatherValues_of_reply d w db hreply hfirst
  have hparse2 : ∀ l ∈ db.Lines, ∀ s ∈ l.Sets, ∃ v, parseValue s.Value = .ok v :=
    fun l hl s hs => (isOk_iff _).mp (hparse l hl s hs)
  cases hall : d.tariffs.isAll with
  | true =>
    have hw : ∀ j : Nat, wanted d.tariffs j = some true := by
      intro j
      simp [wanted, hall]
    obtain ⟨rv1, h1, _, h3⟩ := gatherLines_multi d.tariffs d.Prefix hmode db.Lines 0
      { tags := [(keyMeterId, id)], fields := [] } hparse2
      (fun j _ _ => ⟨true, by rw [Nat.zero_add]; exact hw j⟩)
    refine ⟨rv1, hgv.trans h1, ?_⟩
    intro key
    rw [h3 key]
    simp only [mapKeys, List.map_nil, List.not_mem_nil, false_or, Nat.zero_add, hw, hall,
      Bool.not_true, Bool.false_eq_true, if_false, if_true, true_or, true_and]
    constructor
    · rintro ⟨j, l, h1, h2, h3, h4⟩
      exact ⟨j, l, h2, h1, h3, h4⟩
    · rintro ⟨j, l, h1, h2, h3, h4⟩
      exact ⟨j, l, h2, h1, h3, h4⟩
  | false =>
    obtain ⟨mx, hmx, hmax, hlen⟩ := hwin hall
    obtain ⟨hvalid, hmlen, hminmem, hmask⟩ := newTariffFilter_range_inv cfg d.tariffs hf hmode hall
    have hmin1 := hvalid _ hminmem
    have hmx5 := hvalid _ hmx
    unfold validTariff at hmin1 hmx5
    have hw : ∀ j : Nat, j < db.Lines.length →
        wanted d.tariffs j = d.tariffs.mask[(d.tariffs.minId + j - 1).toNat]? := by
      intro j hj
      unfold wanted maskAt maxTariffId
      simp only [hall, Bool.false_eq_true, if_false]
      rw [if_pos (by omega)]
    have hwt : ∀ j : Nat, j < db.Lines.length →
        (wanted d.tariffs j = some true ↔ (j : Int) + d.tariffs.minId ∈ cfg) := by
      intro j hj
      rw [hw j hj, hmask _ (by omega)]
      have : (((d.tariffs.minId + j - 1).toNat : Nat) : Int) + 1 = (j : Int) + d.tariffs.minId := by
        omega
      rw [this]
    obtain ⟨rv1, h1, _, h3⟩ := gatherLines_multi d.tariffs d.Prefix hmode db.Lines 0
      { tags := [(keyMeterId, id)], fields := [] } hparse2
      (fun j hj _ => by
        rw [Nat.zero_add, hw j hj]
        exact getElem?_of_length_five _ hmlen _ (by omega))
    refine ⟨rv1, hgv.trans h1, ?_⟩
    intro key
    rw [h3 key]
    simp only [mapKeys, List.map_nil, List.not_mem_nil, false_or, Nat.zero_add, hall,
      Bool.not_false, Bool.false_eq_true, if_false, if_true]
    constructor
    · rintro ⟨j, l, h1, h2, h3, h4, h5⟩
      have hj : j < db.Lines.length := (List.getElem?_eq_some_iff.mp h1).1
      exact ⟨j, l, h2, h1, h3, (hwt j hj).mp h4, h5⟩
    · rintro ⟨j, l, h1, h2, h3, h4, h5⟩
      have hj : j < db.Lines.length := (List.getElem?_eq_some_iff.mp h2).1
      exact ⟨j, l, h2, h1, h3, (hwt j hj).mpr h4, h5⟩

/-- Witness for C1: the filter built from `[2,4]` on a three-line response
yields exactly the fields `chan_2` and `chan_4`. -/
theorem gatherValues_field_keys_witness :
    ((sampleDevice ⟨false, false, [false, true, false, true, false], 2, "2,3"⟩
        ⟨0, 0, 0⟩).gatherValues (sampleWorld sampleValues)).1 =
      .ok ⟨[("id", "12345")], [("chan_2", .uint 1234), ("chan_4", .uint 71)]⟩ ∧
    ∃ rv, ((sampleDevice ⟨false, false, [false, true, false, true, false], 2, "2,3"⟩
        ⟨0, 0, 0⟩).gatherValues (sampleWorld sampleValues)).1 = .ok rv ∧
      ∀ key, key ∈ mapKeys rv.fields ↔
        ∃ (i : Nat) (l : DataLine), i < 5 ∧ sampleValues.Lines[i]? = some l ∧ l.Sets ≠ [] ∧
          ((false : Bool) = true ∨ (i : Int) + 2 ∈ ([2, 4] : List Int)) ∧
          key = "chan_" ++ fmtInt ((i : Int) + (if (false : Bool) then 1 else 2)) :=
  ⟨by decide,
   gatherValues_field_keys [2, 4] ⟨false, false, [false, true, false, true, false], 2, "2,3"⟩
     (sampleDevice ⟨false, false, [false, true, false, true, false], 2, "2,3"⟩ ⟨0, 0, 0⟩)
     (sampleWorld sampleValues) sampleValues (by decide) rfl rfl (by decide) (by decide)
     (by decide) (fun _ => ⟨4, by decide, by decide, by decide⟩)⟩

/-- C2: in single-tariff mode (filter built from one index `k`), for every
response whose first line holds a value, `gatherValues` looks only at the
first value of the first line: if it parses, the result has exactly one field,
keyed `prefix+k` (`k = minId`), holding the parsed integer, whatever the other
values and lines contain; if it does not parse, `gatherValues` returns the
error and no result. -/
theorem gatherValues_single (k : Int) (f : tariffFilter) (d : device) (w : World)
    (db : DataBlock) (l : DataLine) (rest : List DataLine) (s : DataSet) (ss : List DataSet)
    (hf : newTariffFilter [k] = .ok f) (hd : d.tariffs = f)
    (hreply : (d.commandToMeter (valuesCmd f) w).1 = .ok db)
    (hlines : db.Lines = l :: rest) (hsets : l.Sets = s :: ss) :
    f.isSingle = true ∧ f.minId = k ∧
    (∀ v, parseValue s.Value = .ok v →
      ∃ rv, (d.gatherValues w).1 = .ok rv ∧ rv.fields = [(d.Prefix ++ fmtInt k, .uint v)]) ∧
    (∀ e, parseValue s.Value = .error e → (d.gatherValues w).1 = .error (.num e)) := by
  subst hd
  have hk : ¬ (0 ≥ k ∨ k > maxTariffId) := by
    intro hbad
    simp only [newTariffFilter] at hf
    rw [if_pos hbad] at hf
    cases hf
  simp only [newTariffFilter] at hf
  rw [if_neg hk] at hf
  simp only [Except.ok.injEq] at hf
  have hsingle : d.tariffs.isSingle = true := by rw [← hf]
  have hmin : d.tariffs.minId = k := by rw [← hf]
  have hfirst : firstValue db ≠ none := by
    simp [firstValue, hlines, hsets]
  obtain ⟨id, hgv⟩ := gatherValues_of_reply d w db hreply hfirst
  have hbr : ¬ (maxTariffId < ((0 : Nat) : Int) + 1) := by
    unfold maxTariffId
    omega
  refine ⟨hsingle, hmin, ?_, ?_⟩
  · intro v hv
    refine ⟨⟨[(keyMeterId, id)], [(d.Prefix ++ fmtInt k, .uint v)]⟩, ?_, rfl⟩
    rw [hgv, hlines]
    unfold gatherLines
    rw [if_neg hbr, hsets]
    unfold gatherSets
    simp only [hsingle, if_true, hv, hmin, mapSet]
  · intro e he
    rw [hgv, hlines]
    unfold gatherLines
    rw [if_neg hbr, hsets]
    unfold gatherSets
    simp only [hsingle, if_true, he]

/-- Witness for C2: single tariff 2 on a three-line response gives exactly the
field `chan_2` with the first value of the first line. -/
theorem gatherValues_single_witness :
    ((sampleDevice ⟨false, true, [false, true, false, false, false], 2, "2"⟩
        ⟨0, 0, 0⟩).gatherValues (sampleWorld sampleValues)).1 =
      .ok ⟨[("id", "12345")], [("chan_2", .uint 1234)]⟩ ∧
    ∃ rv, ((sampleDevice ⟨false, true, [false, true, false, false, false], 2, "2"⟩
        ⟨0, 0, 0⟩).gatherValues (sampleWorld sampleValues)).1 = .ok rv ∧
      rv.fields = [("chan_" ++ fmtInt 2, .uint 1234)] :=
  ⟨by decide,
   (gatherValues_single 2 ⟨false, true, [false, true, false, false, false], 2, "2"⟩
     (sampleDevice ⟨false, true, [false, true, false, false, false], 2, "2"⟩ ⟨0, 0, 0⟩)
     (sampleWorld sampleValues) sampleValues ⟨[⟨"ET0PE", "0001.234"⟩]⟩
     [⟨[⟨"ET0PE", "0002.5"⟩]⟩, ⟨[⟨"ET0PE", "7.1"⟩]⟩] ⟨"ET0PE", "0001.234"⟩ []
     (by decide) rfl (by decide) rfl rfl).2.2.1 1234 (by decide)⟩

/-! ## Lemmas: status decoding -/

theorem nat_and_two_pow_ne_zero (n k : Nat) : n &&& 2 ^ k ≠ 0 ↔ n.testBit k = true := by
  rw [Nat.and_two_pow]
  have hpos : 0 < 2 ^ k := by positivity
  cases h : n.testBit k with
  | false => simp
  | true =>
    simp only [Bool.toNat_true, one_mul, ne_eq, iff_true]
    omega

theorem nat_ldiff_two_pow_ne_zero (n k : Nat) :
    Nat.ldiff (2 ^ k) n ≠ 0 ↔ n.testBit k = false := by
  constructor
  · intro h
    by_contra hb
    apply h
    apply Nat.eq_of_testBit_eq
    intro i
    rw [Nat.testBit_ldiff, Nat.testBit_two_pow, Nat.zero_testBit]
    by_cases hki : k = i
    · subst hki
      simp only [Bool.not_eq_false] at hb
      simp [hb]
    · simp [hki]
  · intro hb h0
    have := Nat.testBit_ldiff (2 ^ k) n k
    rw [h0, Nat.zero_testBit, Nat.testBit_two_pow_self, hb] at this
    simp at this

/-- The test `val & (1 << k) != 0` reads bit `k` of the two's complement of `val`. -/
theorem land_shift_ne_zero (val : Int) (k : Nat) :
    Int.land val ((1 <<< k : Nat) : Int) ≠ 0 ↔ val.testBit k = true := by
  rw [Nat.one_shiftLeft]
  cases val with
  | ofNat n =>
    show ((n &&& 2 ^ k : Nat) : Int) ≠ 0 ↔ n.testBit k = true
    rw [← nat_and_two_pow_ne_zero]
    simp
  | negSucc n =>
    show ((Nat.ldiff (2 ^ k) n : Nat) : Int) ≠ 0 ↔ (!n.testBit k) = true
    rw [Bool.not_eq_true', ← nat_ldiff_two_pow_ne_zero]
    simp

theorem mapKeys_cond {V : Type} (c : Prop) [Decidable c] (rv : List (String × V))
    (k : String) (v : V) (key : String) :
    key ∈ mapKeys (if c then mapSet rv k v else rv) ↔ ((c ∧ key = k) ∨ key ∈ mapKeys rv) := by
  by_cases h : c
  · rw [if_pos h, mapKeys_mapSet]
    simp [h]
  · rw [if_neg h]
    simp [h]

theorem statusFlags_keys (val : Int) (key : String) :
    key ∈ mapKeys (statusFlags val) ↔
      ∃ p ∈ statusCatalog, p.2 = key ∧ val.testBit p.1 = true := by
  unfold statusFlags
  simp only [mapKeys_cond, land_shift_ne_zero]
  simp only [statusCatalog, List.mem_cons, List.mem_singleton, exists_eq_or_imp, exists_eq_left,
    mapKeys, List.map_nil, List.not_mem_nil, or_false, List.mem_nil_iff, exists_false]
  constructor
  · rintro (⟨h, rfl⟩ | ⟨h, rfl⟩ | ⟨h, rfl⟩ | ⟨h, rfl⟩ | ⟨h, rfl⟩ | ⟨h, rfl⟩ | ⟨h, rfl⟩ | ⟨h, rfl⟩) <;>
      simp [h]
  · rintro (⟨rfl, h⟩ | ⟨rfl, h⟩ | ⟨rfl, h⟩ | ⟨rfl, h⟩ | ⟨rfl, h⟩ | ⟨rfl, h⟩ | ⟨rfl, h⟩ | ⟨rfl, h⟩) <;>
      simp [h]

/-- With a parsed status word, `curState` returns the decoded flags. -/
theorem curState_of_reply (d : device) (w : World) (db : DataBlock) (v : String) (val : Int)
    (hreply : (d.commandToMeter statCmd w).1 = .ok db) (hv : firstValue db = some v)
    (hparse : parseInt v.toList 16 32 = .ok val) :
    (d.curState w).1 = .ok (statusFlags val) := by
  unfold device.curState
  generalize d.commandToMeter statCmd w = p at hreply ⊢
  obtain ⟨r, d1, w1⟩ := p
  dsimp only at hreply
  subst hreply
  simp only [hv, hparse]

/-! ## Claims on status decoding -/

/-- C7: for every status value that `curState` parses from the `STAT_`
response, the returned map contains a catalog key if and only if that key's
bit is set in the value (3 BatDischarged, 12 TimeSync, 16 PowChecksum,
17 IllegalAccess, 19 BatExpired, 20 EEPROM, 21 DeviceParam, 28 Scheduler),
each bit on its own, and the map contains no other key. -/
theorem curState_flags (d : device) (w : World) (db : DataBlock) (v : String) (val : Int)
    (hreply : (d.commandToMeter statCmd w).1 = .ok db) (hv : firstValue db = some v)
    (hparse : parseInt v.toList 16 32 = .ok val) :
    ∃ m, (d.curState w).1 = .ok m ∧
      ∀ key, key ∈ mapKeys m ↔ ∃ p ∈ statusCatalog, p.2 = key ∧ val.testBit p.1 = true :=
  ⟨statusFlags val, curState_of_reply d w db v val hreply hv hparse, statusFlags_keys val⟩

/-- Witness for C7: the value `0x1009` decodes to exactly BatDischarged and
TimeSync. -/
theorem curState_flags_witness :
    ((sampleDevice tariffFilter.zero ⟨0, 0, 0⟩).curState (sampleWorld (statusReply "1009"))).1 =
      .ok [("BatDischarged", "Battery discharged"), ("TimeSync", "Time is not syncronizeded")] ∧
    ∃ m, ((sampleDevice tariffFilter.zero ⟨0, 0, 0⟩).curState
        (sampleWorld (statusReply "1009"))).1 = .ok m ∧
      ∀ key, key ∈ mapKeys m ↔
        ∃ p ∈ statusCatalog, p.2 = key ∧ (0x1009 : Int).testBit p.1 = true :=
  ⟨by decide,
   curState_flags (sampleDevice tariffFilter.zero ⟨0, 0, 0⟩) (sampleWorld (statusReply "1009"))
     (statusReply "1009") "1009" 0x1009 (by decide) rfl (by decide)⟩

/-- C8 fails on the code: the 32-bit status word `0x80000000` (bit 31 set),
reported as `"80000000"`, makes `curState` return the status parse error,
because the word is read with the signed `ParseInt(_, 16, 32)`. -/
theorem curState_rejects_bit31 :
    (0x80000000 : Nat) < 2 ^ 32 ∧
    parseInt "80000000".toList 16 32 = .error .rangeErr ∧
    ((sampleDevice tariffFilter.zero ⟨0, 0, 0⟩).curState
      (sampleWorld (statusReply "80000000"))).1 = .error .statusParse ∧
    ((sampleDevice tariffFilter.zero ⟨0, 0, 0⟩).curState
      (sampleWorld (statusReply "00000000"))).1 = .ok [] :=
  ⟨by decide, by decide, by decide, by decide⟩

/-! ## Lemmas: what connecting writes to the log -/

theorem extendsQuietly_refl (w : World) : extendsQuietly w w :=
  ⟨[], by simp, by simp [sendsStat]⟩

theorem extendsQuietly_trans {a b c : World} (h1 : extendsQuietly a b)
    (h2 : extendsQuietly b c) : extendsQuietly a c := by
  obtain ⟨e1, l1, n1⟩ := h1
  obtain ⟨e2, l2, n2⟩ := h2
  refine ⟨e1 ++ e2, by rw [l2, l1, List.append_assoc], ?_⟩
  rintro ⟨c, hc⟩
  rcases List.mem_append.mp hc with h | h
  · exact n1 ⟨c, h⟩
  · exact n2 ⟨c, h⟩

theorem extendsQuietly_emit (w : World) (e : Event) (he : ∀ c, e ≠ .command c statCmd) :
    extendsQuietly w (w.emit e) := by
  refine ⟨[e], rfl, ?_⟩
  rintro ⟨c, hc⟩
  simp only [List.mem_singleton] at hc
  exact he c hc.symm

theorem dropStale_quiet (d : device) (w : World) : extendsQuietly w (d.dropStale w).2 := by
  unfold device.dropStale
  split
  · exact extendsQuietly_emit w _ (by intro c h; cases h)
  · exact extendsQuietly_refl w

theorem dial_quiet (w : World) : extendsQuietly w w.dial.2 := by
  refine ⟨[.dial w.dials (w.dialOk w.dials)], rfl, ?_⟩
  rintro ⟨c, hc⟩
  simp at hc

theorem command_quiet (td : TariffDevice) (cmd : Command) (w : World) (hcmd : cmd ≠ statCmd) :
    extendsQuietly w (td.Command cmd w).2 := by
  refine ⟨[.command td.conn cmd], rfl, ?_⟩
  rintro ⟨c, hc⟩
  simp only [List.mem_singleton, Event.command.injEq] at hc
  exact hcmd hc.2.symm

theorem getIdleTimeout_quiet (td : TariffDevice) (w : World) :
    extendsQuietly w (getIdleTimeout td w).2 := by
  unfold getIdleTimeout
  have h := command_quiet td { Address := "ACTIV", Value := "" } w (by decide)
  generalize td.Command { Address := "ACTIV", Value := "" } w = p at h ⊢
  obtain ⟨r, w1⟩ := p
  cases r with
  | error e => exact h
  | ok db =>
    dsimp only
    split
    · exact h
    · split <;> exact h

theorem getMeterId_quiet (td : TariffDevice) (w : World) :
    extendsQuietly w (getMeterId td w).2 := by
  unfold getMeterId
  have h := command_quiet td { Address := "SNUMB", Value := "" } w (by decide)
  generalize td.Command { Address := "SNUMB", Value := "" } w = p at h ⊢
  obtain ⟨r, w1⟩ := p
  cases r with
  | error e => exact h
  | ok db =>
    dsimp only
    split <;> exact h

theorem resolveIdleTo_quiet (d : device) (td : TariffDevice) (conn : Nat) (w : World) :
    extendsQuietly w (d.resolveIdleTo td conn w).2.2 := by
  unfold device.resolveIdleTo
  split
  · have h := getIdleTimeout_quiet td w
    generalize getIdleTimeout td w = p at h ⊢
    obtain ⟨r, w1⟩ := p
    cases r with
    | error e =>
      exact extendsQuietly_trans h (extendsQuietly_emit w1 _ (by intro c hc; cases hc))
    | ok v => exact h
  · exact extendsQuietly_refl w

theorem resolveMeterId_quiet (d : device) (td : TariffDevice) (conn : Nat) (w : World) :
    extendsQuietly w (d.resolveMeterId td conn w).2.2 := by
  unfold device.resolveMeterId
  split
  · have h := getMeterId_quiet td w
    generalize getMeterId td w = p at h ⊢
    obtain ⟨r, w1⟩ := p
    cases r with
    | error e =>
      exact extendsQuietly_trans h (extendsQuietly_emit w1 _ (by intro c hc; cases hc))
    | ok v => exact h
  · exact extendsQuietly_refl w

theorem setup_quiet (d : device) (conn : Nat) (w : World) :
    extendsQuietly w (d.setup conn w).2.2 := by
  unfold device.setup
  have c1 := resolveIdleTo_quiet (d.setHandle (d.cl.handleFor conn)) (d.cl.handleFor conn) conn w
  generalize (d.setHandle (d.cl.handleFor conn)).resolveIdleTo (d.cl.handleFor conn) conn w = p
    at c1 ⊢
  obtain ⟨r1, d1, w1⟩ := p
  cases r1 with
  | error e => exact c1
  | ok u =>
    dsimp only
    have c2 := resolveMeterId_quiet (d1.setHandle ((d.cl.handleFor conn).setIdle d1.cl.idleTo))
      ((d.cl.handleFor conn).setIdle d1.cl.idleTo) conn w1
    generalize (d1.setHandle ((d.cl.handleFor conn).setIdle d1.cl.idleTo)).resolveMeterId
      ((d.cl.handleFor conn).setIdle d1.cl.idleTo) conn w1 = q at c2 ⊢
    obtain ⟨r2, d2, w2⟩ := q
    cases r2 with
    | error e => exact extendsQuietly_trans c1 c2
    | ok u2 => exact extendsQuietly_trans c1 c2

/-- Connecting never sends a `STAT_` request. -/
theorem client_quiet (d : device) (w : World) : extendsQuietly w (d.client w).2.2 := by
  unfold device.client
  by_cases hc : d.cl.isConnected = true
  · rw [if_pos hc]
    exact extendsQuietly_refl w
  · rw [if_neg hc]
    have c1 := dropStale_quiet d w
    have c2 := dial_quiet (d.dropStale w).2
    generalize (d.dropStale w).2.dial = q at c2 ⊢
    obtain ⟨_ | conn, w1⟩ := q
    · exact extendsQuietly_trans c1 c2
    · exact extendsQuietly_trans (extendsQuietly_trans c1 c2) (setup_quiet _ conn w1)

/-- Once the handle is there, `commandToMeter` logs the request as the last
event, however the exchange ends. -/
theorem commandToMeter_log (d : device) (cmd : Command) (w : World) (td : TariffDevice)
    (hconn : (d.client w).1 = .ok (some td)) :
    (d.commandToMeter cmd w).2.2.log = (d.client w).2.2.log ++ [.command td.conn cmd] := by
  unfold device.commandToMeter
  generalize d.client w = p at hconn ⊢
  obtain ⟨r, d1, w1⟩ := p
  dsimp only at hconn
  subst hconn
  dsimp only
  have hlog : (td.Command cmd w1).2.log = w1.log ++ [.command td.conn cmd] := rfl
  generalize td.Command cmd w1 = q at hlog ⊢
  obtain ⟨r2, w2⟩ := q
  cases r2 with
  | error e => exact hlog
  | ok db => exact hlog

theorem curState_log (d : device) (w : World) :
    (d.curState w).2.2.log = (d.commandToMeter statCmd w).2.2.log := by
  unfold device.curState
  generalize d.commandToMeter statCmd w = p
  obtain ⟨r, d1, w1⟩ := p
  cases r with
  | error e => rfl
  | panic => rfl
  | ok db =>
    dsimp only
    split
    · rfl
    · split <;> rfl

theorem until_log (s : Duration) (t : Int) (w : World) : (s.Until t w).2.log = w.log := rfl

theorem gatherStatus_skip (d : device) (w : World)
    (h : d.Status.Empty = true ∨ 0 ≤ (d.Status.Until d.lastStatusTime w).1) :
    (d.gatherStatus w).1 = .ok [] ∧ (d.gatherStatus w).2.1 = d ∧
    (d.gatherStatus w).2.2.log = w.log ∧ (d.gatherStatus w).2.2.sent = w.sent ∧
    (d.gatherStatus w).2.2.dials = w.dials := by
  unfold device.gatherStatus
  by_cases he : d.Status.Empty = true
  · rw [if_pos he]
    exact ⟨rfl, rfl, rfl, rfl, rfl⟩
  · rw [if_neg he]
    have hu : 0 ≤ (d.Status.Until d.lastStatusTime w).1 := by
      rcases h with h | h
      · exact absurd h he
      · exact h
    have hl : (d.Status.Until d.lastStatusTime w).2.log = w.log := rfl
    have hs : (d.Status.Until d.lastStatusTime w).2.sent = w.sent := rfl
    have hd : (d.Status.Until d.lastStatusTime w).2.dials = w.dials := rfl
    generalize d.Status.Until d.lastStatusTime w = p at hu hl hs hd ⊢
    obtain ⟨u, w1⟩ := p
    dsimp only at hu hl hs hd ⊢
    rw [if_pos hu]
    exact ⟨rfl, rfl, hl, hs, hd⟩

theorem gatherStatus_log_due (d : device) (w : World) (he : d.Status.Empty = false)
    (hu : (d.Status.Until d.lastStatusTime w).1 < 0) :
    (d.gatherStatus w).2.2.log = (d.curState (d.Status.Until d.lastStatusTime w).2).2.2.log := by
  unfold device.gatherStatus
  rw [if_neg (by simp [he])]
  generalize d.Status.Until d.lastStatusTime w = p at hu ⊢
  obtain ⟨u, w1⟩ := p
  dsimp only at hu ⊢
  rw [if_neg (by omega)]
  generalize d.curState w1 = q
  obtain ⟨r, d1, w2⟩ := q
  cases r with
  | error e => rfl
  | panic => rfl
  | ok stat => rfl

/-! ## Claims on the status poll -/

/-- C9 as written fails: with a non-empty interval and `Until(lastStatusTime)`
exactly zero (non-positive), `gatherStatus` sends nothing, although the meter
is reachable; one nanosecond later the request is sent. -/
theorem gatherStatus_zero_skips :
    (sampleDevice tariffFilter.zero ⟨1000, 0, 0⟩).Status.Empty = false ∧
    ((sampleDevice tariffFilter.zero ⟨1000, 0, 0⟩).Status.Until 0
      (sampleWorld (statusReply "1009"))).1 = 0 ∧
    ((sampleDevice tariffFilter.zero ⟨1000, 0, 0⟩).gatherStatus
      (sampleWorld (statusReply "1009"))).1 = .ok [] ∧
    ((sampleDevice tariffFilter.zero ⟨1000, 0, 0⟩).gatherStatus
      (sampleWorld (statusReply "1009"))).2.2.log = [] ∧
    ((sampleDevice tariffFilter.zero ⟨999, 0, 0⟩).gatherStatus
      (sampleWorld (statusReply "1009"))).2.2.log =
      [.dial 0 true, .command 0 ⟨"ACTIV", ""⟩, .command 0 ⟨"SNUMB", ""⟩, .command 0 statCmd] :=
  ⟨by decide, by decide, by decide, by decide, by decide⟩

/-- C9 (amended): `gatherStatus` sends the `STAT_` request only if the
configured interval is not empty and `Until(lastStatusTime)` is strictly
negative, and in that case it does send it whenever the session is connected
or can connect; otherwise (empty interval, or `Until(lastStatusTime)` zero or
positive) it returns no records and no error, sends nothing and leaves the
device state, `lastStatusTime` included, unchanged. -/
theorem gatherStatus_polls_iff (d : device) (w : World) :
    ((d.Status.Empty = true ∨ 0 ≤ (d.Status.Until d.lastStatusTime w).1) →
      (d.gatherStatus w).1 = .ok [] ∧ (d.gatherStatus w).2.1 = d ∧
      (d.gatherStatus w).2.2.log = w.log ∧ (d.gatherStatus w).2.2.sent = w.sent ∧
      (d.gatherStatus w).2.2.dials = w.dials) ∧
    (sendsStat ((d.gatherStatus w).2.2.log.drop w.log.length) →
      d.Status.Empty = false ∧ (d.Status.Until d.lastStatusTime w).1 < 0) ∧
    (d.Status.Empty = false → (d.Status.Until d.lastStatusTime w).1 < 0 →
      ∀ td, (d.client (d.Status.Until d.lastStatusTime w).2).1 = .ok (some td) →
        sendsStat ((d.gatherStatus w).2.2.log.drop w.log.length)) := by
  refine ⟨gatherStatus_skip d w, ?_, ?_⟩
  · intro hs
    by_contra hn
    have hskip : d.Status.Empty = true ∨ 0 ≤ (d.Status.Until d.lastStatusTime w).1 := by
      cases he : d.Status.Empty with
      | true => exact Or.inl rfl
      | false =>
        right
        by_contra hlt
        exact hn ⟨he, by omega⟩
    have hlog := (gatherStatus_skip d w hskip).2.2.1
    rw [hlog] at hs
    obtain ⟨c, hc⟩ := hs
    simp at hc
  · intro he hu td hconn
    have h1 := gatherStatus_log_due d w he hu
    rw [curState_log, commandToMeter_log d statCmd _ td hconn] at h1
    obtain ⟨evs, hevs, _⟩ := client_quiet d (d.Status.Until d.lastStatusTime w).2
    rw [hevs, until_log] at h1
    rw [h1, List.append_assoc, List.drop_left]
    exact ⟨td.conn, by simp⟩

/-- Witness for C9 (amended): one nanosecond past the interval the request is
sent; exactly at the interval nothing happens. -/
theorem gatherStatus_polls_iff_witness :
    sendsStat (((sampleDevice tariffFilter.zero ⟨999, 0, 0⟩).gatherStatus
      (sampleWorld (statusReply "1009"))).2.2.log.drop
        (sampleWorld (statusReply "1009")).log.length) ∧
    ((sampleDevice tariffFilter.zero ⟨1000, 0, 0⟩).gatherStatus
      (sampleWorld (statusReply "1009"))).1 = .ok [] :=
  ⟨(gatherStatus_polls_iff (sampleDevice tariffFilter.zero ⟨999, 0, 0⟩)
      (sampleWorld (statusReply "1009"))).2.2 (by decide) (by decide)
      ⟨0, 30000000000⟩ (by decide),
   ((gatherStatus_polls_iff (sampleDevice tariffFilter.zero ⟨1000, 0, 0⟩)
      (sampleWorld (statusReply "1009"))).1 (Or.inr (by decide))).1⟩

/-! ## Claims on the retry wrapper -/

/-- C10: for every phase function, `withRetries` calls it at least once and
at most 3 times, stops at the first call that does not return an error (every
earlier call returned one), hands back what the last call gave, returns no
error if and only if one of the calls succeeded, and when every call returned
an error there were 3 calls and the error returned is that of the third. -/
theorem withRetries_calls {σ : Type} (fn : σ → Outcome Unit × σ) (s : σ) :
    1 ≤ (withRetries (logged fn) (s, [])).2.2.length ∧
    (withRetries (logged fn) (s, [])).2.2.length ≤ 3 ∧
    (∀ i : Nat, i + 1 < (withRetries (logged fn) (s, [])).2.2.length →
      ∃ e, (withRetries (logged fn) (s, [])).2.2[i]? = some (.error e)) ∧
    (withRetries (logged fn) (s, [])).2.2.getLast? = some (withRetries (logged fn) (s, [])).1 ∧
    ((withRetries (logged fn) (s, [])).1 = .ok () ↔
      Outcome.ok () ∈ (withRetries (logged fn) (s, [])).2.2) ∧
    ((∀ c ∈ (withRetries (logged fn) (s, [])).2.2, c ≠ .ok () ∧ c ≠ .panic) →
      (withRetries (logged fn) (s, [])).2.2.length = 3 ∧
      ∃ e, (withRetries (logged fn) (s, [])).2.2[2]? = some (.error e) ∧
        (withRetries (logged fn) (s, [])).1 = .error e) ∧
    withRetries fn s = ((withRetries (logged fn) (s, [])).1, (withRetries (logged fn) (s, [])).2.1) := by
  unfold withRetries maxRetries
  simp only [withRetriesLoop, logged]
  rcases h1 : fn s with ⟨r1, s1⟩
  cases r1 with
  | ok u => simp
  | panic => simp
  | error e1 =>
    simp only [List.nil_append]
    rcases h2 : fn s1 with ⟨r2, s2⟩
    cases r2 with
    | ok u =>
      simp
      intro i hi
      have hi2 : i < 1 := by omega
      interval_cases i
      simp
    | panic =>
      simp
      intro i hi
      have hi2 : i < 1 := by omega
      interval_cases i
      simp
    | error e2 =>
      simp only
      rcases h3 : fn s2 with ⟨r3, s3⟩
      cases r3 with
      | ok u =>
        simp
        intro i hi
        have hi2 : i < 2 := by omega
        interval_cases i <;> simp
      | panic =>
        simp
        intro i hi
        have hi2 : i < 2 := by omega
        interval_cases i <;> simp
      | error e3 =>
        simp
        intro i hi
        have hi2 : i < 2 := by omega
        interval_cases i <;> simp

/-- Witness for C10: a phase that always fails is called three times and the
error of the third call comes back; one that fails twice succeeds on the
third call. -/
theorem withRetries_calls_witness :
    withRetries failingPhase 0 = (.error (.transport 2), 3) ∧
    withRetries flakyPhase 0 = (.ok (), 3) ∧
    ((withRetries (logged failingPhase) (0, [])).2.2.length = 3 ∧
      ∃ e, (withRetries (logged failingPhase) (0, [])).2.2[2]? = some (.error e) ∧
        (withRetries (logged failingPhase) (0, [])).1 = .error e) :=
  ⟨by decide, by decide, (withRetries_calls failingPhase 0).2.2.2.2.2.1 (by decide)⟩

/-! ## Lemmas: the connected flag -/

theorem dropStale_flags (d : device) (w : World) :
    (d.dropStale w).1.cl.isConnected = d.cl.isConnected ∧
    (d.dropStale w).1.cl.idleTo = d.cl.idleTo ∧ (d.dropStale w).1.meterId = d.meterId ∧
    (d.dropStale w).1.cl.td = d.cl.td ∧ (d.dropStale w).1.cl.conn = none := by
  unfold device.dropStale
  split
  · exact ⟨rfl, rfl, rfl, rfl, rfl⟩
  · rename_i h
    exact ⟨rfl, rfl, rfl, rfl, h⟩

theorem resolveIdleTo_flag (d : device) (td : TariffDevice) (conn : Nat) (w : World) :
    (d.resolveIdleTo td conn w).2.1.cl.isConnected = d.cl.isConnected ∧
    (d.resolveIdleTo td conn w).2.1.cl.conn = d.cl.conn := by
  unfold device.resolveIdleTo
  split
  · split <;> exact ⟨rfl, rfl⟩
  · exact ⟨rfl, rfl⟩

theorem resolveMeterId_flag (d : device) (td : TariffDevice) (conn : Nat) (w : World) :
    (d.resolveMeterId td conn w).2.1.cl.isConnected = d.cl.isConnected ∧
    (d.resolveMeterId td conn w).2.1.cl.conn = d.cl.conn := by
  unfold device.resolveMeterId
  split
  · split <;> exact ⟨rfl, rfl⟩
  · exact ⟨rfl, rfl⟩

/-- After the dial, the connect either fails and leaves the flag and the
stored connection as they were, or succeeds with a handle and sets both. -/
theorem setup_flag (d : device) (conn : Nat) (w : World) :
    (∃ e, (d.setup conn w).1 = .error e ∧
      (d.setup conn w).2.1.cl.isConnected = d.cl.isConnected ∧
      (d.setup conn w).2.1.cl.conn = d.cl.conn) ∨
    (∃ td, (d.setup conn w).1 = .ok (some td) ∧ td.conn = conn ∧
      (d.setup conn w).2.1.cl.isConnected = true ∧
      (d.setup conn w).2.1.cl.conn = some conn) := by
  unfold device.setup
  have c1 := resolveIdleTo_flag (d.setHandle (d.cl.handleFor conn)) (d.cl.handleFor conn) conn w
  generalize (d.setHandle (d.cl.handleFor conn)).resolveIdleTo (d.cl.handleFor conn) conn w = p
    at c1 ⊢
  obtain ⟨r1, d1, w1⟩ := p
  cases r1 with
  | error e => exact Or.inl ⟨e, rfl, c1.1, c1.2⟩
  | ok u =>
    dsimp only at c1 ⊢
    have c2 := resolveMeterId_flag (d1.setHandle ((d.cl.handleFor conn).setIdle d1.cl.idleTo))
      ((d.cl.handleFor conn).setIdle d1.cl.idleTo) conn w1
    generalize (d1.setHandle ((d.cl.handleFor conn).setIdle d1.cl.idleTo)).resolveMeterId
      ((d.cl.handleFor conn).setIdle d1.cl.idleTo) conn w1 = q at c2 ⊢
    obtain ⟨r2, d2, w2⟩ := q
    cases r2 with
    | error e => exact Or.inl ⟨e, rfl, c2.1.trans c1.1, c2.2.trans c1.2⟩
    | ok u2 =>
      refine Or.inr ⟨_, rfl, ?_, rfl, rfl⟩
      unfold TariffDevice.setIdle client.handleFor
      split <;> rfl

/-- From a disconnected session `client` ends connected exactly when it
returns a handle; a connected session is returned as it is. -/
theorem client_flag (d : device) (w : World) :
    (∃ e, (d.client w).1 = .error e ∧ (d.client w).2.1.cl.isConnected = false) ∨
    (∃ otd, (d.client w).1 = .ok otd ∧ (d.client w).2.1.cl.isConnected = true ∧
      (d.cl.isConnected = false → otd ≠ none)) := by
  unfold device.client
  by_cases hc : d.cl.isConnected = true
  · rw [if_pos hc]
    exact Or.inr ⟨_, rfl, hc, fun h => by rw [hc] at h; cases h⟩
  · rw [if_neg hc]
    have hf : d.cl.isConnected = false := by simpa using hc
    have c1 := (dropStale_flags d w).1
    generalize (d.dropStale w).2.dial = q
    obtain ⟨_ | conn, w1⟩ := q
    · exact Or.inl ⟨_, rfl, c1.trans hf⟩
    · dsimp only
      rcases setup_flag (d.dropStale w).1 conn w1 with ⟨e, h1, h2, _⟩ | ⟨td, h1, _, h2, _⟩
      · exact Or.inl ⟨e, h1, h2.trans (c1.trans hf)⟩
      · exact Or.inr ⟨_, h1, h2, fun _ => by simp⟩

/-- How `commandToMeter` ends, by how `client` and the exchange end. -/
theorem commandToMeter_cases (d : device) (cmd : Command) (w : World) :
    (∃ e, (d.client w).1 = .error e ∧ (d.commandToMeter cmd w).1 = .error e ∧
      (d.commandToMeter cmd w).2.1 = (d.client w).2.1 ∧
      (d.commandToMeter cmd w).2.2 = (d.client w).2.2) ∨
    ((d.client w).1 = .ok none ∧ (d.commandToMeter cmd w).1 = .panic ∧
      (d.commandToMeter cmd w).2.1 = (d.client w).2.1 ∧
      (d.commandToMeter cmd w).2.2 = (d.client w).2.2) ∨
    (∃ td, (d.client w).1 = .ok (some td) ∧
      (d.commandToMeter cmd w).2.2 = (td.Command cmd (d.client w).2.2).2 ∧
      ((∃ e, (td.Command cmd (d.client w).2.2).1 = .error e ∧
          (d.commandToMeter cmd w).1 = .error e ∧
          (d.commandToMeter cmd w).2.1 = (d.client w).2.1.markFailed) ∨
       (∃ db, (td.Command cmd (d.client w).2.2).1 = .ok db ∧
          (d.commandToMeter cmd w).1 = .ok db ∧
          (d.commandToMeter cmd w).2.1 = (d.client w).2.1))) := by
  unfold device.commandToMeter
  generalize d.client w = p
  obtain ⟨r, d1, w1⟩ := p
  cases r with
  | error e => exact Or.inl ⟨e, rfl, rfl, rfl, rfl⟩
  | ok otd =>
    cases otd with
    | none => exact Or.inr (Or.inl ⟨rfl, rfl, rfl, rfl⟩)
    | some td =>
      refine Or.inr (Or.inr ⟨td, rfl, ?_⟩)
      dsimp only
      generalize td.Command cmd w1 = q
      obtain ⟨r2, w2⟩ := q
      cases r2 with
      | error e => exact ⟨rfl, Or.inl ⟨e, rfl, rfl, rfl⟩⟩
      | ok db => exact ⟨rfl, Or.inr ⟨db, rfl, rfl, rfl⟩⟩

/-! ## Lemmas: how many exchanges connecting makes -/

theorem getIdleTimeout_sent (td : TariffDevice) (w : World) :
    (getIdleTimeout td w).2.sent = w.sent + 1 := by
  unfold getIdleTimeout
  have h : (td.Command { Address := "ACTIV", Value := "" } w).2.sent = w.sent + 1 := rfl
  generalize td.Command { Address := "ACTIV", Value := "" } w = p at h ⊢
  obtain ⟨r, w1⟩ := p
  cases r with
  | error e => exact h
  | ok db =>
    dsimp only
    split
    · exact h
    · split <;> exact h

theorem getMeterId_sent (td : TariffDevice) (w : World) :
    (getMeterId td w).2.sent = w.sent + 1 := by
  unfold getMeterId
  have h : (td.Command { Address := "SNUMB", Value := "" } w).2.sent = w.sent + 1 := rfl
  generalize td.Command { Address := "SNUMB", Value := "" } w = p at h ⊢
  obtain ⟨r, w1⟩ := p
  cases r with
  | error e => exact h
  | ok db =>
    dsimp only
    split <;> exact h

theorem resolveIdleTo_sent (d : device) (td : TariffDevice) (conn : Nat) (w : World) :
    (d.resolveIdleTo td conn w).2.2.sent ≤ w.sent + 1 ∧
    w.sent ≤ (d.resolveIdleTo td conn w).2.2.sent := by
  unfold device.resolveIdleTo
  split
  · have h := getIdleTimeout_sent td w
    generalize getIdleTimeout td w = p at h ⊢
    obtain ⟨r, w1⟩ := p
    cases r with
    | error e =>
      show (w1.emit (.close conn)).sent ≤ w.sent + 1 ∧ w.sent ≤ (w1.emit (.close conn)).sent
      have : (w1.emit (.close conn)).sent = w1.sent := rfl
      dsimp only at h
      omega
    | ok v =>
      dsimp only at h ⊢
      omega
  · dsimp only
    omega

theorem resolveMeterId_sent (d : device) (td : TariffDevice) (conn : Nat) (w : World) :
    (d.resolveMeterId td conn w).2.2.sent ≤ w.sent + 1 ∧
    w.sent ≤ (d.resolveMeterId td conn w).2.2.sent := by
  unfold device.resolveMeterId
  split
  · have h := getMeterId_sent td w
    generalize getMeterId td w = p at h ⊢
    obtain ⟨r, w1⟩ := p
    cases r with
    | error e =>
      show (w1.emit (.close conn)).sent ≤ w.sent + 1 ∧ w.sent ≤ (w1.emit (.close conn)).sent
      have : (w1.emit (.close conn)).sent = w1.sent := rfl
      dsimp only at h
      omega
    | ok v =>
      dsimp only at h ⊢
      omega
  · dsimp only
    omega

theorem setup_sent (d : device) (conn : Nat) (w : World) :
    (d.setup conn w).2.2.sent ≤ w.sent + 2 ∧ w.sent ≤ (d.setup conn w).2.2.sent := by
  unfold device.setup
  have c1 := resolveIdleTo_sent (d.setHandle (d.cl.handleFor conn)) (d.cl.handleFor conn) conn w
  generalize (d.setHandle (d.cl.handleFor conn)).resolveIdleTo (d.cl.handleFor conn) conn w = p
    at c1 ⊢
  obtain ⟨r1, d1, w1⟩ := p
  cases r1 with
  | error e =>
    dsimp only at c1 ⊢
    omega
  | ok u =>
    dsimp only at c1 ⊢
    have c2 := resolveMeterId_sent (d1.setHandle ((d.cl.handleFor conn).setIdle d1.cl.idleTo))
      ((d.cl.handleFor conn).setIdle d1.cl.idleTo) conn w1
    generalize (d1.setHandle ((d.cl.handleFor conn).setIdle d1.cl.idleTo)).resolveMeterId
      ((d.cl.handleFor conn).setIdle d1.cl.idleTo) conn w1 = q at c2 ⊢
    obtain ⟨r2, d2, w2⟩ := q
    cases r2 with
    | error e =>
      dsimp only at c2 ⊢
      omega
    | ok u2 =>
      dsimp only at c2 ⊢
      omega

/-- Connecting makes at most two exchanges (the two cached queries). -/
theorem client_sent (d : device) (w : World) :
    (d.client w).2.2.sent ≤ w.sent + 2 ∧ w.sent ≤ (d.client w).2.2.sent := by
  unfold device.client
  by_cases hc : d.cl.isConnected = true
  · rw [if_pos hc]
    dsimp only
    omega
  · rw [if_neg hc]
    have c1 : (d.dropStale w).2.sent = w.sent := by
      unfold device.dropStale
      split <;> rfl
    have c2 : (d.dropStale w).2.dial.2.sent = (d.dropStale w).2.sent := rfl
    generalize (d.dropStale w).2.dial = q at c2 ⊢
    obtain ⟨_ | conn, w1⟩ := q
    · dsimp only at c2 ⊢
      omega
    · dsimp only at c2 ⊢
      have := setup_sent (d.dropStale w).1 conn w1
      omega

/-! ## Claims on the command dispatch -/

/-- C12: for every session state and every command, `commandToMeter` makes
at most one exchange of the command on the handle and never retries it: once
`client` has returned (having made at most the two cached queries when it had
to connect), the log grows by nothing when `client` failed and by exactly one
exchange, of the command on the returned handle, otherwise; and when
`commandToMeter` returns, the `isConnected` flag is true if and only if it
returned no error, so every error, from connecting or from the exchange,
leaves `isConnected` false. -/
theorem commandToMeter_once (d : device) (cmd : Command) (w : World) :
    (((d.commandToMeter cmd w).2.2.log = (d.client w).2.2.log ∧
        (d.commandToMeter cmd w).2.2.sent = (d.client w).2.2.sent) ∨
      (∃ td, (d.client w).1 = .ok (some td) ∧
        (d.commandToMeter cmd w).2.2.log = (d.client w).2.2.log ++ [.command td.conn cmd] ∧
        (d.commandToMeter cmd w).2.2.sent = (d.client w).2.2.sent + 1)) ∧
    (d.client w).2.2.sent ≤ w.sent + 2 ∧
    ((d.commandToMeter cmd w).1 ≠ .panic →
      ((d.commandToMeter cmd w).2.1.cl.isConnected = true ↔
        ∃ db, (d.commandToMeter cmd w).1 = .ok db)) ∧
    (∀ e, (d.commandToMeter cmd w).1 = .error e →
      (d.commandToMeter cmd w).2.1.cl.isConnected = false) := by
  have hflag := client_flag d w
  rcases commandToMeter_cases d cmd w with
    ⟨e, hc, hr, hd, hw⟩ | ⟨hc, hr, hd, hw⟩ | ⟨td, hc, hw, hx⟩
  · have hfalse : (d.client w).2.1.cl.isConnected = false := by
      rcases hflag with ⟨e2, _, h2⟩ | ⟨otd, h1, _⟩
      · exact h2
      · rw [hc] at h1
        cases h1
    refine ⟨Or.inl ⟨by rw [hw], by rw [hw]⟩, (client_sent d w).1, ?_, ?_⟩
    · intro _
      rw [hd, hfalse, hr]
      simp
    · intro _ _
      rw [hd, hfalse]
  · refine ⟨Or.inl ⟨by rw [hw], by rw [hw]⟩, (client_sent d w).1, ?_, ?_⟩
    · intro hp
      exact absurd hr hp
    · intro e he
      rw [hr] at he
      cases he
  · have htrue : (d.client w).2.1.cl.isConnected = true := by
      rcases hflag with ⟨e2, h1, _⟩ | ⟨otd, _, h2, _⟩
      · rw [hc] at h1
        cases h1
      · exact h2
    refine ⟨Or.inr ⟨td, hc, by rw [hw]; rfl, by rw [hw]; rfl⟩, (client_sent d w).1, ?_, ?_⟩
    · intro _
      rcases hx with ⟨e, _, hr, hd⟩ | ⟨db, _, hr, hd⟩
      · rw [hd, hr]
        simp [device.markFailed]
      · rw [hd, hr, htrue]
        simp
    · intro e he
      rcases hx with ⟨e2, _, hr, hd⟩ | ⟨db, _, hr, hd⟩
      · rw [hd]
        rfl
      · rw [hr] at he
        cases he

/-- Witness for C12: after the connect of the sample session the failing
exchange is made once and leaves the session disconnected. -/
theorem commandToMeter_once_witness :
    ((sampleDevice tariffFilter.zero ⟨0, 0, 0⟩).commandToMeter statCmd
      (failingWorld 2)).1 = .error (.transport 2) ∧
    ((sampleDevice tariffFilter.zero ⟨0, 0, 0⟩).commandToMeter statCmd
      (failingWorld 2)).2.2.sent = 3 ∧
    ((sampleDevice tariffFilter.zero ⟨0, 0, 0⟩).commandToMeter statCmd
      (failingWorld 2)).2.1.cl.isConnected = false :=
  ⟨by decide, by decide,
   (commandToMeter_once (sampleDevice tariffFilter.zero ⟨0, 0, 0⟩) statCmd
     (failingWorld 2)).2.2.2 (.transport 2) (by decide)⟩

/-! ## Lemmas: open connections -/

theorem openAfter_append (log evs : List Event) :
    openAfter (log ++ evs) = evs.foldl trackStep (openAfter log) := by
  unfold openAfter
  rw [List.foldl_append]

theorem openAfter_emit (w : World) (e : Event) :
    openAfter (w.emit e).log = trackStep (openAfter w.log) e := by
  show openAfter (w.log ++ [e]) = _
  rw [openAfter_append]
  rfl

theorem openAfter_command (td : TariffDevice) (cmd : Command) (w : World) (cs : List Nat)
    (h : openAfter w.log = some cs) : openAfter (td.Command cmd w).2.log = some cs := by
  show openAfter (w.log ++ [.command td.conn cmd]) = _
  rw [openAfter_append, h]
  rfl

theorem getIdleTimeout_open (td : TariffDevice) (w : World) (cs : List Nat)
    (h : openAfter w.log = some cs) : openAfter (getIdleTimeout td w).2.log = some cs := by
  unfold getIdleTimeout
  have hc := openAfter_command td { Address := "ACTIV", Value := "" } w cs h
  generalize td.Command { Address := "ACTIV", Value := "" } w = p at hc ⊢
  obtain ⟨r, w1⟩ := p
  cases r with
  | error e => exact hc
  | ok db =>
    dsimp only
    split
    · exact hc
    · split <;> exact hc

theorem getMeterId_open (td : TariffDevice) (w : World) (cs : List Nat)
    (h : openAfter w.log = some cs) : openAfter (getMeterId td w).2.log = some cs := by
  unfold getMeterId
  have hc := openAfter_command td { Address := "SNUMB", Value := "" } w cs h
  generalize td.Command { Address := "SNUMB", Value := "" } w = p at hc ⊢
  obtain ⟨r, w1⟩ := p
  cases r with
  | error e => exact hc
  | ok db =>
    dsimp only
    split <;> exact hc

theorem close_only (conn : Nat) : trackStep (some [conn]) (.close conn) = some [] := by
  simp [trackStep]

theorem resolveIdleTo_open (d : device) (td : TariffDevice) (conn : Nat) (w : World)
    (h : openAfter w.log = some [conn]) :
    openAfter (d.resolveIdleTo td conn w).2.2.log =
      some (if (d.resolveIdleTo td conn w).1.isOk then [conn] else []) := by
  unfold device.resolveIdleTo
  split
  · have hc := getIdleTimeout_open td w [conn] h
    generalize getIdleTimeout td w = p at hc ⊢
    obtain ⟨r, w1⟩ := p
    cases r with
    | error e =>
      dsimp only at hc ⊢
      rw [openAfter_emit, hc, close_only]
      rfl
    | ok v => exact hc
  · exact h

theorem resolveMeterId_open (d : device) (td : TariffDevice) (conn : Nat) (w : World)
    (h : openAfter w.log = some [conn]) :
    openAfter (d.resolveMeterId td conn w).2.2.log =
      some (if (d.resolveMeterId td conn w).1.isOk then [conn] else []) := by
  unfold device.resolveMeterId
  split
  · have hc := getMeterId_open td w [conn] h
    generalize getMeterId td w = p at hc ⊢
    obtain ⟨r, w1⟩ := p
    cases r with
    | error e =>
      dsimp only at hc ⊢
      rw [openAfter_emit, hc, close_only]
      rfl
    | ok v => exact hc
  · exact h

/-- The connect after a successful dial keeps the new connection open when it
succeeds and has closed it when a query failed. -/
theorem setup_open (d : device) (conn : Nat) (w : World)
    (h : openAfter w.log = some [conn]) :
    openAfter (d.setup conn w).2.2.log =
      some (if (d.setup conn w).1.isOk then [conn] else []) := by
  unfold device.setup
  have c1 := resolveIdleTo_open (d.setHandle (d.cl.handleFor conn)) (d.cl.handleFor conn)
    conn w h
  generalize (d.setHandle (d.cl.handleFor conn)).resolveIdleTo (d.cl.handleFor conn) conn w = p
    at c1 ⊢
  obtain ⟨r1, d1, w1⟩ := p
  cases r1 with
  | error e => exact c1
  | ok u =>
    dsimp only at c1 ⊢
    have c2 := resolveMeterId_open (d1.setHandle ((d.cl.handleFor conn).setIdle d1.cl.idleTo))
      ((d.cl.handleFor conn).setIdle d1.cl.idleTo) conn w1 c1
    generalize (d1.setHandle ((d.cl.handleFor conn).setIdle d1.cl.idleTo)).resolveMeterId
      ((d.cl.handleFor conn).setIdle d1.cl.idleTo) conn w1 = q at c2 ⊢
    obtain ⟨r2, d2, w2⟩ := q
    cases r2 with
    | error e => exact c2
    | ok u2 => exact c2

theorem dropStale_open (d : device) (w : World) (h : oneConnection d w) :
    openAfter (d.dropStale w).2.log = some [] := by
  unfold oneConnection at h
  unfold device.dropStale
  split
  · rename_i c hc
    dsimp only
    rw [openAfter_emit, h, hc]
    simp [trackStep]
  · rename_i hc
    dsimp only
    rw [h, hc]
    rfl

theorem dial_open (w : World) (h : openAfter w.log = some []) :
    openAfter w.dial.2.log = some w.dial.1.toList := by
  show openAfter (w.log ++ [.dial w.dials (w.dialOk w.dials)]) = _
  rw [openAfter_append, h]
  unfold World.dial
  cases hd : w.dialOk w.dials <;> simp [trackStep, hd]

/-- `client` keeps the bookkeeping invariant. -/
theorem client_oneConnection (d : device) (w : World) (h : oneConnection d w) :
    oneConnection (d.client w).2.1 (d.client w).2.2 := by
  unfold device.client
  by_cases hc : d.cl.isConnected = true
  · rw [if_pos hc]
    exact h
  · rw [if_neg hc]
    have c1 := dropStale_open d w h
    have c0 := (dropStale_flags d w).2.2.2.2
    have c2 := dial_open (d.dropStale w).2 c1
    generalize (d.dropStale w).2.dial = q at c2 ⊢
    obtain ⟨_ | conn, w1⟩ := q
    · unfold oneConnection
      dsimp only at c2 ⊢
      rw [c2, c0]
    · dsimp only at c2 ⊢
      have c3 := setup_open (d.dropStale w).1 conn w1 c2
      unfold oneConnection
      rw [c3]
      rcases setup_flag (d.dropStale w).1 conn w1 with ⟨e, h1, _, h3⟩ | ⟨td, h1, _, _, h3⟩
      · rw [h1, h3, c0]
        rfl
      · rw [h1, h3]
        rfl

/-- `commandToMeter` keeps the bookkeeping invariant. -/
theorem commandToMeter_oneConnection (d : device) (cmd : Command) (w : World)
    (h : oneConnection d w) :
    oneConnection (d.commandToMeter cmd w).2.1 (d.commandToMeter cmd w).2.2 := by
  have hcl := client_oneConnection d w h
  rcases commandToMeter_cases d cmd w with
    ⟨e, _, _, hd, hw⟩ | ⟨_, _, hd, hw⟩ | ⟨td, _, hw, hx⟩
  · rw [hd, hw]
    exact hcl
  · rw [hd, hw]
    exact hcl
  · unfold oneConnection at hcl ⊢
    rw [hw, openAfter_command td cmd _ _ hcl]
    rcases hx with ⟨e, _, _, hd⟩ | ⟨db, _, _, hd⟩
    · rw [hd]
      rfl
    · rw [hd]

theorem runOps_oneConnection (ops : List SessionOp) :
    ∀ (d : device) (w : World), oneConnection d w →
      oneConnection (runOps ops d w).1 (runOps ops d w).2 := by
  induction ops with
  | nil =>
    intro d w h
    exact h
  | cons op rest ih =>
    intro d w h
    cases op with
    | client =>
      unfold runOps
      exact ih _ _ (client_oneConnection d w h)
    | command cmd =>
      unfold runOps
      have hc := commandToMeter_oneConnection d cmd w h
      split
      · exact hc
      · exact ih _ _ hc

/-! ## Claims on connection handling -/

/-- C13: in every session state reachable from the initial state (no stored
connection, empty log) by any sequence of `client` and `commandToMeter` calls,
whatever the outcomes of dialing and of the exchanges, at most one dialed
connection is open, it is the stored one, and at every dial of the run all
connections dialed earlier had been closed, a connection whose connect query
failed included. -/
theorem session_one_connection (ops : List SessionOp) (d : device) (w : World)
    (hconn : d.cl.conn = none) (hlog : w.log = []) :
    openAfter (runOps ops d w).2.log = some (runOps ops d w).1.cl.conn.toList ∧
    ∃ cs, openAfter (runOps ops d w).2.log = some cs ∧ cs.length ≤ 1 := by
  have h0 : oneConnection d w := by
    unfold oneConnection
    rw [hlog, hconn]
    rfl
  have h := runOps_oneConnection ops d w h0
  unfold oneConnection at h
  refine ⟨h, _, h, ?_⟩
  cases (runOps ops d w).1.cl.conn <;> simp

/-- Witness for C13: the first connect loses its connection to a failed
idle-timeout query, the second succeeds, then a command runs; connection 0
was closed before connection 1 was dialed and only connection 1 is open. -/
theorem session_one_connection_witness :
    (runOps [.client, .client, .command statCmd]
      (sampleDevice tariffFilter.zero ⟨0, 0, 0⟩) flakyWorld).2.log =
      [.dial 0 true, .command 0 ⟨"ACTIV", ""⟩, .close 0, .dial 1 true,
       .command 1 ⟨"ACTIV", ""⟩, .command 1 ⟨"SNUMB", ""⟩, .command 1 statCmd] ∧
    openAfter (runOps [.client, .client, .command statCmd]
      (sampleDevice tariffFilter.zero ⟨0, 0, 0⟩) flakyWorld).2.log = some [1] ∧
    openAfter (runOps [.client, .client, .command statCmd]
      (sampleDevice tariffFilter.zero ⟨0, 0, 0⟩) flakyWorld).2.log =
      some (runOps [.client, .client, .command statCmd]
        (sampleDevice tariffFilter.zero ⟨0, 0, 0⟩) flakyWorld).1.cl.conn.toList :=
  ⟨by decide, by decide,
   (session_one_connection [.client, .client, .command statCmd]
     (sampleDevice tariffFilter.zero ⟨0, 0, 0⟩) flakyWorld rfl rfl).1⟩

/-! ## Lemmas: the cached session values -/

/-- With both cached values set, the connect after a dial makes no exchange
and succeeds. -/
theorem setup_cached (d : device) (conn : Nat) (w : World) (h : cacheSet d) :
    (d.setup conn w).2.2 = w ∧
    (d.setup conn w).1 = .ok (some ((d.cl.handleFor conn).setIdle d.cl.idleTo)) ∧
    (d.setup conn w).2.1.cl.idleTo = d.cl.idleTo ∧ (d.setup conn w).2.1.meterId = d.meterId ∧
    (d.setup conn w).2.1.cl.isConnected = true := by
  obtain ⟨h1, h2⟩ := h
  have r1 : (d.setHandle (d.cl.handleFor conn)).resolveIdleTo (d.cl.handleFor conn) conn w =
      (.ok (), d.setHandle (d.cl.handleFor conn), w) := by
    unfold device.resolveIdleTo
    rw [if_neg]
    exact h1
  have r2 : ((d.setHandle (d.cl.handleFor conn)).setHandle
      ((d.cl.handleFor conn).setIdle (d.setHandle (d.cl.handleFor conn)).cl.idleTo)).resolveMeterId
      ((d.cl.handleFor conn).setIdle (d.setHandle (d.cl.handleFor conn)).cl.idleTo) conn w =
      (.ok (), (d.setHandle (d.cl.handleFor conn)).setHandle
        ((d.cl.handleFor conn).setIdle (d.setHandle (d.cl.handleFor conn)).cl.idleTo), w) := by
    unfold device.resolveMeterId
    rw [if_neg]
    exact h2
  unfold device.setup
  rw [r1]
  dsimp only
  rw [r2]
  exact ⟨rfl, rfl, rfl, rfl, rfl⟩

theorem dropStale_log (d : device) (w : World) :
    (d.dropStale w).2.log = w.log ++ closeEvents d.cl.conn ∧
    (d.dropStale w).2.dials = w.dials ∧ (d.dropStale w).2.dialOk = w.dialOk ∧
    (d.dropStale w).2.sent = w.sent := by
  unfold device.dropStale closeEvents
  cases d.cl.conn with
  | none => exact ⟨by simp, rfl, rfl, rfl⟩
  | some c => exact ⟨rfl, rfl, rfl, rfl⟩

/-- With both cached values set, a reconnect is a close of the stale
connection and one dial, and nothing else. -/
theorem client_cached (d : device) (w : World) (h : cacheSet d)
    (hdis : d.cl.isConnected = false) :
    (d.client w).2.2.log =
      w.log ++ closeEvents d.cl.conn ++ [.dial w.dials (w.dialOk w.dials)] ∧
    (d.client w).2.2.sent = w.sent ∧ (d.client w).2.2.dials = w.dials + 1 ∧
    (d.client w).2.1.cl.idleTo = d.cl.idleTo ∧ (d.client w).2.1.meterId = d.meterId ∧
    ((d.client w).1 = .error .dial ∧ w.dialOk w.dials = false ∨
      (∃ td, (d.client w).1 = .ok (some td) ∧ td.conn = w.dials ∧ w.dialOk w.dials = true)) := by
  obtain ⟨f1, f2, f3, f4, _⟩ := dropStale_flags d w
  obtain ⟨l1, l2, l3, l4⟩ := dropStale_log d w
  have hset : cacheSet (d.dropStale w).1 := by
    unfold cacheSet
    rw [f2, f3]
    exact h
  have hd1 : (d.dropStale w).2.dial.1 = if w.dialOk w.dials then some w.dials else none := by
    unfold World.dial
    rw [l2, l3]
  have hd2 : (d.dropStale w).2.dial.2.log =
      w.log ++ closeEvents d.cl.conn ++ [.dial w.dials (w.dialOk w.dials)] := by
    show (d.dropStale w).2.log ++
      [.dial (d.dropStale w).2.dials ((d.dropStale w).2.dialOk (d.dropStale w).2.dials)] = _
    rw [l1, l2, l3]
  have hd3 : (d.dropStale w).2.dial.2.sent = w.sent := l4
  have hd4 : (d.dropStale w).2.dial.2.dials = w.dials + 1 := by
    show (d.dropStale w).2.dials + 1 = _
    rw [l2]
  unfold device.client
  rw [if_neg (by simp [hdis])]
  generalize (d.dropStale w).2.dial = q at hd1 hd2 hd3 hd4 ⊢
  obtain ⟨o, w1⟩ := q
  dsimp only at hd1 hd2 hd3 hd4
  cases hok : w.dialOk w.dials with
  | false =>
    rw [hok] at hd1 hd2
    simp only [Bool.false_eq_true, if_false] at hd1
    subst hd1
    exact ⟨hd2, hd3, hd4, f2, f3, Or.inl ⟨rfl, rfl⟩⟩
  | true =>
    rw [hok] at hd1 hd2
    simp only [if_true] at hd1
    subst hd1
    dsimp only
    obtain ⟨s1, s2, s3, s4, _⟩ := setup_cached (d.dropStale w).1 w.dials w1 hset
    rw [s1, s2, s3, s4]
    refine ⟨hd2, hd3, hd4, f2, f3, Or.inr ⟨_, rfl, ?_, rfl⟩⟩
    unfold TariffDevice.setIdle client.handleFor
    split <;> rfl

theorem client_keeps_cache (d : device) (w : World) (h : cacheSet d) :
    (d.client w).2.1.cl.idleTo = d.cl.idleTo ∧ (d.client w).2.1.meterId = d.meterId := by
  cases hc : d.cl.isConnected with
  | true =>
    unfold device.client
    rw [if_pos hc]
    exact ⟨rfl, rfl⟩
  | false =>
    obtain ⟨_, _, _, h4, h5, _⟩ := client_cached d w h hc
    exact ⟨h4, h5⟩

theorem commandToMeter_keeps_cache (d : device) (cmd : Command) (w : World) (h : cacheSet d) :
    (d.commandToMeter cmd w).2.1.cl.idleTo = d.cl.idleTo ∧
    (d.commandToMeter cmd w).2.1.meterId = d.meterId := by
  obtain ⟨k1, k2⟩ := client_keeps_cache d w h
  rcases commandToMeter_cases d cmd w with
    ⟨e, _, _, hd, _⟩ | ⟨_, _, hd, _⟩ | ⟨td, _, _, hx⟩
  · rw [hd]
    exact ⟨k1, k2⟩
  · rw [hd]
    exact ⟨k1, k2⟩
  · rcases hx with ⟨e, _, _, hd⟩ | ⟨db, _, _, hd⟩
    · rw [hd]
      exact ⟨k1, k2⟩
    · rw [hd]
      exact ⟨k1, k2⟩

theorem runOps_keeps_cache (ops : List SessionOp) :
    ∀ (d : device) (w : World), cacheSet d →
      (runOps ops d w).1.cl.idleTo = d.cl.idleTo ∧ (runOps ops d w).1.meterId = d.meterId := by
  induction ops with
  | nil =>
    intro d w _
    exact ⟨rfl, rfl⟩
  | cons op rest ih =>
    intro d w h
    cases op with
    | client =>
      unfold runOps
      obtain ⟨k1, k2⟩ := client_keeps_cache d w h
      have h2 : cacheSet (d.client w).2.1 := by
        unfold cacheSet
        rw [k1, k2]
        exact h
      obtain ⟨i1, i2⟩ := ih _ (d.client w).2.2 h2
      exact ⟨i1.trans k1, i2.trans k2⟩
    | command cmd =>
      unfold runOps
      obtain ⟨k1, k2⟩ := commandToMeter_keeps_cache d cmd w h
      have h2 : cacheSet (d.commandToMeter cmd w).2.1 := by
        unfold cacheSet
        rw [k1, k2]
        exact h
      split
      · exact ⟨k1, k2⟩
      · obtain ⟨i1, i2⟩ := ih _ (d.commandToMeter cmd w).2.2 h2
        exact ⟨i1.trans k1, i2.trans k2⟩

/-- With both cached values set, a command attempt on a disconnected session
closes the stale connection, dials once and, if the dial succeeded, sends the
command. -/
theorem commandToMeter_cached (d : device) (cmd : Command) (w : World) (h : cacheSet d)
    (hdis : d.cl.isConnected = false) :
    (d.commandToMeter cmd w).2.2.log =
      w.log ++ closeEvents d.cl.conn ++ [.dial w.dials (w.dialOk w.dials)] ++
        (if w.dialOk w.dials then [.command w.dials cmd] else []) ∧
    (d.commandToMeter cmd w).2.2.dials = w.dials + 1 := by
  obtain ⟨c1, _, c3, _, _, c6⟩ := client_cached d w h hdis
  rcases commandToMeter_cases d cmd w with
    ⟨e, hc, _, _, hw⟩ | ⟨hc, _, _, hw⟩ | ⟨td, hc, hw, _⟩
  · rcases c6 with ⟨_, hok⟩ | ⟨td, h1, _, _⟩
    · rw [hw, c1, c3, hok]
      simp
    · rw [hc] at h1
      cases h1
  · rcases c6 with ⟨h1, _⟩ | ⟨td, h1, _, _⟩
    · rw [hc] at h1
      cases h1
    · rw [hc] at h1
      cases h1
  · rcases c6 with ⟨h1, _⟩ | ⟨td2, h1, h2, hok⟩
    · rw [hc] at h1
      cases h1
    · rw [hc] at h1
      simp only [Except.ok.injEq, Option.some.injEq] at h1
      subst h1
      rw [hw, hok]
      refine ⟨?_, ?_⟩
      · show (d.client w).2.2.log ++ [.command td.conn cmd] = _
        rw [c1, h2]
        simp [hok]
      · show (d.client w).2.2.dials = _
        exact c3

/-! ## Claims on the cached session values -/

/-- C14 as written fails: the meter answers the idle-timeout query with `0`,
the connect succeeds, the next command fails, and the reconnect of the
following command attempt sends `ACTIV` again. -/
theorem reconnect_repeats_zero_timeout :
    ((sampleDevice tariffFilter.zero ⟨0, 0, 0⟩).client zeroIdleWorld).1 = .ok (some ⟨0, 0⟩) ∧
    (runOps [.command statCmd, .command statCmd]
      (sampleDevice tariffFilter.zero ⟨0, 0, 0⟩) zeroIdleWorld).2.log =
      [.dial 0 true, .command 0 ⟨"ACTIV", ""⟩, .command 0 ⟨"SNUMB", ""⟩, .command 0 statCmd,
       .close 0, .dial 1 true, .command 1 ⟨"ACTIV", ""⟩, .command 1 statCmd] :=
  ⟨by decide, by decide⟩

/-- C14 (amended): once the session holds a non-zero idle timeout and a
non-empty meter serial number (a connect succeeded and the device returned
such values), every later sequence of `client` and `commandToMeter` calls
keeps both, and a command attempt on the disconnected session (after a command
failure) closes the stale connection, dials exactly one new connection and
sends neither `ACTIV` nor `SNUMB`: only the command, when the dial succeeded. -/
theorem reconnect_uses_cache (ops : List SessionOp) (d : device) (w : World) (cmd : Command)
    (hidle : d.cl.idleTo ≠ 0) (hid : d.meterId ≠ "") :
    (runOps ops d w).1.cl.idleTo = d.cl.idleTo ∧ (runOps ops d w).1.meterId = d.meterId ∧
    ((runOps ops d w).1.cl.isConnected = false →
      ((runOps ops d w).1.commandToMeter cmd (runOps ops d w).2).2.2.log =
        (runOps ops d w).2.log ++ closeEvents (runOps ops d w).1.cl.conn ++
          [.dial (runOps ops d w).2.dials ((runOps ops d w).2.dialOk (runOps ops d w).2.dials)] ++
          (if (runOps ops d w).2.dialOk (runOps ops d w).2.dials
            then [.command (runOps ops d w).2.dials cmd] else []) ∧
      ((runOps ops d w).1.commandToMeter cmd (runOps ops d w).2).2.2.dials =
        (runOps ops d w).2.dials + 1) := by
  obtain ⟨k1, k2⟩ := runOps_keeps_cache ops d w ⟨hidle, hid⟩
  refine ⟨k1, k2, ?_⟩
  intro hdis
  have hset : cacheSet (runOps ops d w).1 := by
    unfold cacheSet
    rw [k1, k2]
    exact ⟨hidle, hid⟩
  exact commandToMeter_cached _ cmd _ hset hdis

/-- Witness for C14 (amended): the sample meter (idle timeout 30, serial
12345) loses the first command after the connect; the next attempt closes
connection 0, dials connection 1 and sends only the command. -/
theorem reconnect_uses_cache_witness :
    (runOps [.command statCmd, .command statCmd]
      (sampleDevice tariffFilter.zero ⟨0, 0, 0⟩) (failingWorld 2)).2.log =
      [.dial 0 true, .command 0 ⟨"ACTIV", ""⟩, .command 0 ⟨"SNUMB", ""⟩, .command 0 statCmd,
       .close 0, .dial 1 true, .command 1 statCmd] ∧
    ((runOps [.command statCmd]
        ((sampleDevice tariffFilter.zero ⟨0, 0, 0⟩).client (failingWorld 2)).2.1
        ((sampleDevice tariffFilter.zero ⟨0, 0, 0⟩).client (failingWorld 2)).2.2).1.commandToMeter
      statCmd
      (runOps [.command statCmd]
        ((sampleDevice tariffFilter.zero ⟨0, 0, 0⟩).client (failingWorld 2)).2.1
        ((sampleDevice tariffFilter.zero ⟨0, 0, 0⟩).client (failingWorld 2)).2.2).2).2.2.dials =
      (runOps [.command statCmd]
        ((sampleDevice tariffFilter.zero ⟨0, 0, 0⟩).client (failingWorld 2)).2.1
        ((sampleDevice tariffFilter.zero ⟨0, 0, 0⟩).client (failingWorld 2)).2.2).2.dials + 1 :=
  ⟨by decide,
   ((reconnect_uses_cache [.command statCmd]
     ((sampleDevice tariffFilter.zero ⟨0, 0, 0⟩).client (failingWorld 2)).2.1
     ((sampleDevice tariffFilter.zero ⟨0, 0, 0⟩).client (failingWorld 2)).2.2
     statCmd (by decide) (by decide)).2.2 (by decide)).2⟩

/-! ## Claims on run-time safety -/

/-- C19 fails on the code: with the filter built from `[2,4]` (`minId` 2) and
a response of five lines, all parsing, the lookup for line offset 4 is
`mask[5]`, outside the 5-entry mask, and `gatherValues` panics instead of
ending with a result or a parse error. -/
theorem gatherValues_mask_out_of_range :
    newTariffFilter [2, 4] =
      .ok ⟨false, false, [false, true, false, true, false], 2, "2,3"⟩ ∧
    firstValue fiveLines ≠ none ∧
    (∀ l ∈ fiveLines.Lines, ∀ s ∈ l.Sets, (parseValue s.Value).isOk = true) ∧
    maskAt [false, true, false, true, false] (2 + 4 - 1) = none ∧
    ((sampleDevice ⟨false, false, [false, true, false, true, false], 2, "2,3"⟩
      ⟨0, 0, 0⟩).gatherValues (sampleWorld fiveLines)).1 = .panic :=
  ⟨by decide, by decide, by decide, by decide, by decide⟩

/-- C20 fails on the code: a `DATE_` response whose first value has fewer
than 3 characters (`"ab"`) makes `systime` panic on `dateStr[3:]` instead of
returning an error; only the cases of no lines or no data sets are answered
with the empty-result error, and a value of 3 or more characters is stripped of
exactly its first 3. -/
theorem systime_short_date_panics :
    ((sampleDevice tariffFilter.zero ⟨0, 0, 0⟩).systime
      (dateWorld ⟨[⟨[⟨"DATE_", "ab"⟩]⟩]⟩)).1 = .panic ∧
    ((sampleDevice tariffFilter.zero ⟨0, 0, 0⟩).systime
      (dateWorld ⟨[]⟩)).1 = .error (.emptyResult "system date") ∧
    ((sampleDevice tariffFilter.zero ⟨0, 0, 0⟩).systime
      (dateWorld ⟨[⟨[]⟩]⟩)).1 = .error (.emptyResult "system date") ∧
    ((sampleDevice tariffFilter.zero ⟨0, 0, 0⟩).systime
      (dateWorld ⟨[⟨[⟨"DATE_", "03.01.02.23"⟩]⟩]⟩)).1 = .ok 1675246830000000000 :=
  ⟨by decide, by decide, by decide, by decide⟩

/-! ## Lemmas: retries carry invariants -/

/-- A relation that every call of the phase respects is respected by the
retried phase. -/
theorem withRetries_rel {σ : Type} (fn : σ → Outcome Unit × σ) (R : σ → σ → Prop)
    (htrans : ∀ a b c, R a b → R b c → R a c)
    (hfn : ∀ s, R s (fn s).2) (s : σ) : R s (withRetries fn s).2 := by
  unfold withRetries maxRetries
  simp only [withRetriesLoop]
  have h1 := hfn s
  generalize fn s = p1 at h1 ⊢
  obtain ⟨r1, s1⟩ := p1
  cases r1 with
  | ok u => exact h1
  | panic => exact h1
  | error e1 =>
    dsimp only at h1 ⊢
    have h2 := hfn s1
    generalize fn s1 = p2 at h2 ⊢
    obtain ⟨r2, s2⟩ := p2
    cases r2 with
    | ok u => exact htrans _ _ _ h1 h2
    | panic => exact htrans _ _ _ h1 h2
    | error e2 =>
      dsimp only at h2 ⊢
      have h3 := hfn s2
      generalize fn s2 = p3 at h3 ⊢
      obtain ⟨r3, s3⟩ := p3
      cases r3 with
      | ok u => exact htrans _ _ _ h1 (htrans _ _ _ h2 h3)
      | panic => exact htrans _ _ _ h1 (htrans _ _ _ h2 h3)
      | error e3 => exact htrans _ _ _ h1 (htrans _ _ _ h2 h3)

/-- When the retried phase returns an error, every call returned one: a
relation respected by the failing calls is respected by the whole. -/
theorem withRetries_error_rel {σ : Type} (fn : σ → Outcome Unit × σ) (R : σ → σ → Prop)
    (htrans : ∀ a b c, R a b → R b c → R a c)
    (hfn : ∀ s e, (fn s).1 = .error e → R s (fn s).2) (s : σ) (e : Err)
    (herr : (withRetries fn s).1 = .error e) : R s (withRetries fn s).2 := by
  unfold withRetries maxRetries at herr ⊢
  simp only [withRetriesLoop] at herr ⊢
  have h1 := hfn s
  generalize fn s = p1 at h1 herr ⊢
  obtain ⟨r1, s1⟩ := p1
  cases r1 with
  | ok u => cases herr
  | panic => cases herr
  | error e1 =>
    dsimp only at h1 herr ⊢
    have h2 := hfn s1
    generalize fn s1 = p2 at h2 herr ⊢
    obtain ⟨r2, s2⟩ := p2
    cases r2 with
    | ok u => cases herr
    | panic => cases herr
    | error e2 =>
      dsimp only at h2 herr ⊢
      have h3 := hfn s2
      generalize fn s2 = p3 at h3 herr ⊢
      obtain ⟨r3, s3⟩ := p3
      cases r3 with
      | ok u => cases herr
      | panic => cases herr
      | error e3 =>
        exact htrans _ _ _ (h1 e1 rfl) (htrans _ _ _ (h2 e2 rfl) (h3 e3 rfl))

/-- When the retried phase returns no error, its last call returned none and
left the final state. -/
theorem withRetries_ok_last {σ : Type} (fn : σ → Outcome Unit × σ) (s : σ)
    (hok : (withRetries fn s).1 = .ok ()) :
    ∃ s0, fn s0 = (.ok (), (withRetries fn s).2) := by
  unfold withRetries maxRetries at hok ⊢
  simp only [withRetriesLoop] at hok ⊢
  rcases h1 : fn s with ⟨r1, s1⟩
  rw [h1] at hok
  cases r1 with
  | ok u => exact ⟨s, h1⟩
  | panic => cases hok
  | error e1 =>
    dsimp only at hok ⊢
    rcases h2 : fn s1 with ⟨r2, s2⟩
    rw [h2] at hok
    cases r2 with
    | ok u => exact ⟨s1, h2⟩
    | panic => cases hok
    | error e2 =>
      dsimp only at hok ⊢
      rcases h3 : fn s2 with ⟨r3, s3⟩
      rw [h3] at hok
      cases r3 with
      | ok u => exact ⟨s2, h3⟩
      | panic => cases hok
      | error e3 => cases hok

/-! ## Lemmas: which requests a phase sends -/

theorem sendsOnly_refl (addrs : List String) (w : World) : sendsOnly addrs w w :=
  ⟨[], by simp, by simp⟩

theorem sendsOnly_trans (addrs : List String) (a b c : World) (h1 : sendsOnly addrs a b)
    (h2 : sendsOnly addrs b c) : sendsOnly addrs a c := by
  obtain ⟨e1, l1, n1⟩ := h1
  obtain ⟨e2, l2, n2⟩ := h2
  refine ⟨e1 ++ e2, by rw [l2, l1, List.append_assoc], ?_⟩
  intro c cmd hc
  rcases List.mem_append.mp hc with h | h
  · exact n1 c cmd h
  · exact n2 c cmd h

theorem sendsOnly_of_log_eq (addrs : List String) (w w1 : World) (h : w1.log = w.log) :
    sendsOnly addrs w w1 :=
  ⟨[], by simp [h], by simp⟩

theorem sendsOnly_emit (addrs : List String) (w : World) (e : Event)
    (he : ∀ c cmd, e ≠ .command c cmd) : sendsOnly addrs w (w.emit e) := by
  refine ⟨[e], rfl, ?_⟩
  intro c cmd hc
  simp only [List.mem_singleton] at hc
  exact absurd hc.symm (he c cmd)

theorem sendsOnly_command (addrs : List String) (td : TariffDevice) (cmd : Command) (w : World)
    (h : cmd.Address ∈ addrs) : sendsOnly addrs w (td.Command cmd w).2 := by
  refine ⟨[.command td.conn cmd], rfl, ?_⟩
  intro c cmd2 hc
  simp only [List.mem_singleton, Event.command.injEq] at hc
  rw [hc.2]
  exact h

theorem getIdleTimeout_sends (addrs : List String) (td : TariffDevice) (w : World)
    (hA : "ACTIV" ∈ addrs) : sendsOnly addrs w (getIdleTimeout td w).2 := by
  unfold getIdleTimeout
  have h := sendsOnly_command addrs td { Address := "ACTIV", Value := "" } w hA
  generalize td.Command { Address := "ACTIV", Value := "" } w = p at h ⊢
  obtain ⟨r, w1⟩ := p
  cases r with
  | error e => exact h
  | ok db =>
    dsimp only
    split
    · exact h
    · split <;> exact h

theorem getMeterId_sends (addrs : List String) (td : TariffDevice) (w : World)
    (hS : "SNUMB" ∈ addrs) : sendsOnly addrs w (getMeterId td w).2 := by
  unfold getMeterId
  have h := sendsOnly_command addrs td { Address := "SNUMB", Value := "" } w hS
  generalize td.Command { Address := "SNUMB", Value := "" } w = p at h ⊢
  obtain ⟨r, w1⟩ := p
  cases r with
  | error e => exact h
  | ok db =>
    dsimp only
    split <;> exact h

theorem resolveIdleTo_sends (addrs : List String) (d : device) (td : TariffDevice) (conn : Nat)
    (w : World) (hA : "ACTIV" ∈ addrs) : sendsOnly addrs w (d.resolveIdleTo td conn w).2.2 := by
  unfold device.resolveIdleTo
  split
  · have h := getIdleTimeout_sends addrs td w hA
    generalize getIdleTimeout td w = p at h ⊢
    obtain ⟨r, w1⟩ := p
    cases r with
    | error e =>
      exact sendsOnly_trans _ _ _ _ h (sendsOnly_emit _ w1 _ (by intro c cmd hc; cases hc))
    | ok v => exact h
  · exact sendsOnly_refl _ w

theorem resolveMeterId_sends (addrs : List String) (d : device) (td : TariffDevice) (conn : Nat)
    (w : World) (hS : "SNUMB" ∈ addrs) : sendsOnly addrs w (d.resolveMeterId td conn w).2.2 := by
  unfold device.resolveMeterId
  split
  · have h := getMeterId_sends addrs td w hS
    generalize getMeterId td w = p at h ⊢
    obtain ⟨r, w1⟩ := p
    cases r with
    | error e =>
      exact sendsOnly_trans _ _ _ _ h (sendsOnly_emit _ w1 _ (by intro c cmd hc; cases hc))
    | ok v => exact h
  · exact sendsOnly_refl _ w

theorem setup_sends (addrs : List String) (d : device) (conn : Nat) (w : World)
    (hA : "ACTIV" ∈ addrs) (hS : "SNUMB" ∈ addrs) :
    sendsOnly addrs w (d.setup conn w).2.2 := by
  unfold device.setup
  have c1 := resolveIdleTo_sends addrs (d.setHandle (d.cl.handleFor conn))
    (d.cl.handleFor conn) conn w hA
  generalize (d.setHandle (d.cl.handleFor conn)).resolveIdleTo (d.cl.handleFor conn) conn w = p
    at c1 ⊢
  obtain ⟨r1, d1, w1⟩ := p
  cases r1 with
  | error e => exact c1
  | ok u =>
    dsimp only
    have c2 := resolveMeterId_sends addrs
      (d1.setHandle ((d.cl.handleFor conn).setIdle d1.cl.idleTo))
      ((d.cl.handleFor conn).setIdle d1.cl.idleTo) conn w1 hS
    generalize (d1.setHandle ((d.cl.handleFor conn).setIdle d1.cl.idleTo)).resolveMeterId
      ((d.cl.handleFor conn).setIdle d1.cl.idleTo) conn w1 = q at c2 ⊢
    obtain ⟨r2, d2, w2⟩ := q
    cases r2 with
    | error e => exact sendsOnly_trans _ _ _ _ c1 c2
    | ok u2 => exact sendsOnly_trans _ _ _ _ c1 c2

/-- Connecting sends nothing but the two cached queries. -/
theorem client_sends (addrs : List String) (d : device) (w : World)
    (hA : "ACTIV" ∈ addrs) (hS : "SNUMB" ∈ addrs) : sendsOnly addrs w (d.client w).2.2 := by
  unfold device.client
  by_cases hc : d.cl.isConnected = true
  · rw [if_pos hc]
    exact sendsOnly_refl _ w
  · rw [if_neg hc]
    have c1 : sendsOnly addrs w (d.dropStale w).2 := by
      unfold device.dropStale
      split
      · exact sendsOnly_emit _ w _ (by intro c cmd h; cases h)
      · exact sendsOnly_refl _ w
    have c2 : sendsOnly addrs (d.dropStale w).2 (d.dropStale w).2.dial.2 := by
      refine ⟨[.dial (d.dropStale w).2.dials
        ((d.dropStale w).2.dialOk (d.dropStale w).2.dials)], rfl, ?_⟩
      intro c cmd hc
      simp at hc
    generalize (d.dropStale w).2.dial = q at c2 ⊢
    obtain ⟨_ | conn, w1⟩ := q
    · exact sendsOnly_trans _ _ _ _ c1 c2
    · exact sendsOnly_trans _ _ _ _ (sendsOnly_trans _ _ _ _ c1 c2)
        (setup_sends addrs _ conn w1 hA hS)

theorem commandToMeter_sends (addrs : List String) (d : device) (cmd : Command) (w : World)
    (hA : "ACTIV" ∈ addrs) (hS : "SNUMB" ∈ addrs) (hC : cmd.Address ∈ addrs) :
    sendsOnly addrs w (d.commandToMeter cmd w).2.2 := by
  have hcl := client_sends addrs d w hA hS
  rcases commandToMeter_cases d cmd w with
    ⟨e, _, _, _, hw⟩ | ⟨_, _, _, hw⟩ | ⟨td, _, hw, _⟩
  · rw [hw]
    exact hcl
  · rw [hw]
    exact hcl
  · rw [hw]
    exact sendsOnly_trans _ _ _ _ hcl (sendsOnly_command addrs td cmd _ hC)

theorem systime_sends (addrs : List String) (d : device) (w : World)
    (hA : "ACTIV" ∈ addrs) (hS : "SNUMB" ∈ addrs) (hD : "DATE_" ∈ addrs)
    (hT : "TIME_" ∈ addrs) : sendsOnly addrs w (d.systime w).2.2 := by
  unfold device.systime
  have c1 := commandToMeter_sends addrs d dateCmd w hA hS hD
  generalize d.commandToMeter dateCmd w = p at c1 ⊢
  obtain ⟨r, d1, w1⟩ := p
  cases r with
  | error e => exact c1
  | panic => exact c1
  | ok db =>
    dsimp only
    split
    · exact c1
    · split
      · exact c1
      · have c2 := commandToMeter_sends addrs d1 timeCmd w1 hA hS hT
        generalize d1.commandToMeter timeCmd w1 = q at c2 ⊢
        obtain ⟨r2, d2, w2⟩ := q
        have c12 := sendsOnly_trans _ _ _ _ c1 c2
        cases r2 with
        | error e => exact c12
        | panic => exact c12
        | ok db2 =>
          dsimp only
          split
          · exact c12
          · split <;> exact c12

theorem curState_sends (addrs : List String) (d : device) (w : World)
    (hA : "ACTIV" ∈ addrs) (hS : "SNUMB" ∈ addrs) (hT : "STAT_" ∈ addrs) :
    sendsOnly addrs w (d.curState w).2.2 := by
  unfold device.curState
  have c1 := commandToMeter_sends addrs d statCmd w hA hS hT
  generalize d.commandToMeter statCmd w = p at c1 ⊢
  obtain ⟨r, d1, w1⟩ := p
  cases r with
  | error e => exact c1
  | panic => exact c1
  | ok db =>
    dsimp only
    split
    · exact c1
    · split <;> exact c1

theorem gatherStatus_sends (addrs : List String) (d : device) (w : World)
    (hA : "ACTIV" ∈ addrs) (hS : "SNUMB" ∈ addrs) (hT : "STAT_" ∈ addrs) :
    sendsOnly addrs w (d.gatherStatus w).2.2 := by
  unfold device.gatherStatus
  split
  · exact sendsOnly_refl _ w
  · have hu : sendsOnly addrs w (d.Status.Until d.lastStatusTime w).2 :=
      sendsOnly_of_log_eq _ _ _ rfl
    generalize d.Status.Until d.lastStatusTime w = p at hu ⊢
    obtain ⟨u, w1⟩ := p
    dsimp only at hu ⊢
    split
    · exact hu
    · have c1 := curState_sends addrs d w1 hA hS hT
      generalize d.curState w1 = q at c1 ⊢
      obtain ⟨r, d1, w2⟩ := q
      have c01 := sendsOnly_trans _ _ _ _ hu c1
      cases r with
      | error e => exact c01
      | panic => exact c01
      | ok stat =>
        exact sendsOnly_trans _ _ _ _ c01 (sendsOnly_of_log_eq _ _ _ rfl)

/-! ## Lemmas: what a phase does to the pass -/

theorem timePhase_frame (addrs : List String) (hA : "ACTIV" ∈ addrs) (hS : "SNUMB" ∈ addrs)
    (hD : "DATE_" ∈ addrs) (hT : "TIME_" ∈ addrs) (s : Pass) :
    (timePhase s).2.acc = s.acc ∧ sendsOnly addrs s.w (timePhase s).2.w := by
  unfold timePhase
  have c := systime_sends addrs s.d s.w hA hS hD hT
  generalize s.d.systime s.w = p at c ⊢
  obtain ⟨r, d1, w1⟩ := p
  cases r with
  | ok tm => exact ⟨rfl, c⟩
  | error e => exact ⟨rfl, c⟩
  | panic => exact ⟨rfl, c⟩

theorem timePhase_ok (s s1 : Pass) (h : timePhase s = (.ok (), s1)) :
    (s.d.systime s.w).1 = .ok s1.t := by
  unfold timePhase at h
  generalize s.d.systime s.w = p at h ⊢
  obtain ⟨r, d1, w1⟩ := p
  cases r with
  | ok tm =>
    simp only [Prod.mk.injEq, true_and] at h
    rw [← h]
  | error e =>
    simp only [Prod.mk.injEq] at h
    cases h.1
  | panic =>
    simp only [Prod.mk.injEq] at h
    cases h.1

theorem statusPhase_frame (addrs : List String) (hA : "ACTIV" ∈ addrs) (hS : "SNUMB" ∈ addrs)
    (hT : "STAT_" ∈ addrs) (s : Pass) :
    (statusPhase s).2.t = s.t ∧ sendsOnly addrs s.w (statusPhase s).2.w ∧
    (∀ e, (statusPhase s).1 = .error e → (statusPhase s).2.acc = s.acc) := by
  unfold statusPhase
  have c := gatherStatus_sends addrs s.d s.w hA hS hT
  generalize s.d.gatherStatus s.w = p at c ⊢
  obtain ⟨r, d1, w1⟩ := p
  cases r with
  | ok stat => exact ⟨rfl, c, fun e h => by cases h⟩
  | error e => exact ⟨rfl, c, fun _ _ => rfl⟩
  | panic => exact ⟨rfl, c, fun _ _ => rfl⟩

theorem valuesPhase_frame (s : Pass) :
    (valuesPhase s).2.t = s.t ∧
    (∀ e, (valuesPhase s).1 = .error e → (valuesPhase s).2.acc = s.acc) := by
  unfold valuesPhase
  generalize s.d.gatherValues s.w = p
  obtain ⟨r, d1, w1⟩ := p
  cases r with
  | ok v => exact ⟨rfl, fun e h => by cases h⟩
  | error e => exact ⟨rfl, fun _ _ => rfl⟩
  | panic => exact ⟨rfl, fun _ _ => rfl⟩

/-! ## Lemmas: the three phases of a pass -/

theorem afterTime_frame (addrs : List String) (hA : "ACTIV" ∈ addrs) (hS : "SNUMB" ∈ addrs)
    (hD : "DATE_" ∈ addrs) (hT : "TIME_" ∈ addrs) (d : device) (w : World)
    (acc : List Record) :
    (afterTime d w acc).2.acc = acc ∧ sendsOnly addrs w (afterTime d w acc).2.w := by
  have h := withRetries_rel timePhase
    (fun a b => b.acc = a.acc ∧ sendsOnly addrs a.w b.w)
    (fun a b c h1 h2 => ⟨h2.1.trans h1.1, sendsOnly_trans _ _ _ _ h1.2 h2.2⟩)
    (fun s => timePhase_frame addrs hA hS hD hT s)
    { d := d, w := w, acc := acc, t := zeroTime }
  exact h

theorem afterStatus_frame (addrs : List String) (hA : "ACTIV" ∈ addrs) (hS : "SNUMB" ∈ addrs)
    (hT : "STAT_" ∈ addrs) (d : device) (w : World) (acc : List Record) :
    (afterStatus d w acc).2.t = (afterTime d w acc).2.t ∧
    sendsOnly addrs (afterTime d w acc).2.w (afterStatus d w acc).2.w ∧
    (∀ e, (afterStatus d w acc).1 = .error e →
      (afterStatus d w acc).2.acc = (afterTime d w acc).2.acc) := by
  have h := withRetries_rel statusPhase
    (fun a b => b.t = a.t ∧ sendsOnly addrs a.w b.w)
    (fun a b c h1 h2 => ⟨h2.1.trans h1.1, sendsOnly_trans _ _ _ _ h1.2 h2.2⟩)
    (fun s => ⟨(statusPhase_frame addrs hA hS hT s).1, (statusPhase_frame addrs hA hS hT s).2.1⟩)
    (afterTime d w acc).2
  refine ⟨h.1, h.2, ?_⟩
  intro e he
  exact withRetries_error_rel statusPhase (fun a b => b.acc = a.acc)
    (fun a b c h1 h2 => h2.trans h1)
    (fun s e hs => (statusPhase_frame addrs hA hS hT s).2.2 e hs) _ e he

theorem afterValues_frame (d : device) (w : World) (acc : List Record) :
    (afterValues d w acc).2.t = (afterStatus d w acc).2.t ∧
    (∀ e, (afterValues d w acc).1 = .error e →
      (afterValues d w acc).2.acc = (afterStatus d w acc).2.acc) := by
  refine ⟨?_, ?_⟩
  · exact withRetries_rel valuesPhase (fun a b => b.t = a.t)
      (fun a b c h1 h2 => h2.trans h1) (fun s => (valuesPhase_frame s).1) _
  · intro e he
    exact withRetries_error_rel valuesPhase (fun a b => b.acc = a.acc)
      (fun a b c h1 h2 => h2.trans h1) (fun s e hs => (valuesPhase_frame s).2 e hs) _ e he

theorem gatherData_time_error (d : device) (w : World) (acc : List Record) (e : Err)
    (h : (afterTime d w acc).1 = .error e) :
    d.gatherData w acc =
      (((afterTime d w acc).2.w.now.1, .error e),
        { (afterTime d w acc).2 with w := (afterTime d w acc).2.w.now.2 }) := by
  unfold device.gatherData
  unfold afterTime at h ⊢
  generalize withRetries timePhase { d := d, w := w, acc := acc, t := zeroTime } = p at h ⊢
  obtain ⟨r, s⟩ := p
  dsimp only at h
  subst h
  rfl

theorem gatherData_status_error (d : device) (w : World) (acc : List Record) (e : Err)
    (h1 : (afterTime d w acc).1 = .ok ()) (h2 : (afterStatus d w acc).1 = .error e) :
    d.gatherData w acc = (((afterStatus d w acc).2.t, .error e), (afterStatus d w acc).2) := by
  unfold device.gatherData
  unfold afterStatus at h2 ⊢
  unfold afterTime at h1 h2 ⊢
  generalize withRetries timePhase { d := d, w := w, acc := acc, t := zeroTime } = p at h1 h2 ⊢
  obtain ⟨r, s⟩ := p
  dsimp only at h1 h2 ⊢
  subst h1
  dsimp only
  generalize withRetries statusPhase s = q at h2 ⊢
  obtain ⟨r2, s2⟩ := q
  dsimp only at h2
  subst h2
  rfl

theorem gatherData_values (d : device) (w : World) (acc : List Record)
    (h1 : (afterTime d w acc).1 = .ok ()) (h2 : (afterStatus d w acc).1 = .ok ()) :
    d.gatherData w acc =
      (((afterValues d w acc).2.t, (afterValues d w acc).1), (afterValues d w acc).2) := by
  unfold device.gatherData
  unfold afterValues
  unfold afterStatus at h2 ⊢
  unfold afterTime at h1 h2 ⊢
  generalize withRetries timePhase { d := d, w := w, acc := acc, t := zeroTime } = p at h1 h2 ⊢
  obtain ⟨r, s⟩ := p
  dsimp only at h1 h2 ⊢
  subst h1
  dsimp only
  generalize withRetries statusPhase s = q at h2 ⊢
  obtain ⟨r2, s2⟩ := q
  dsimp only at h2 ⊢
  subst h2
  rfl

/-! ## Lemmas: the retried phases and the attempts they make -/

theorem lastError_errors_ok {α : Type} (errs : List Err) (a : α) :
    ∀ err : Option Err, lastError (errs.map Outcome.error ++ [Outcome.ok a]) err = .ok () := by
  induction errs with
  | nil =>
    intro err
    cases err <;> rfl
  | cons e rest ih =>
    intro err
    exact ih (some e)

/-- The attempts end at the first call that does not return an error, or
after `n` calls that all returned one. -/
theorem attempts_shape {α : Type} (f : device → World → Outcome α × device × World) :
    ∀ (n : Nat) (d : device) (w : World),
      (∃ errs : List Err, errs.length = n ∧ (attempts f n d w).1 = errs.map Outcome.error) ∨
      (∃ (errs : List Err) (r : Outcome α), errs.length < n ∧ (∀ e, r ≠ .error e) ∧
        (attempts f n d w).1 = errs.map Outcome.error ++ [r]) := by
  intro n
  induction n with
  | zero =>
    intro d w
    exact .inl ⟨[], rfl, rfl⟩
  | succ n ih =>
    intro d w
    rw [attempts]
    generalize f d w = p
    obtain ⟨r, d1, w1⟩ := p
    cases r with
    | ok a => exact .inr ⟨[], .ok a, Nat.succ_pos n, fun e h => (by cases h), rfl⟩
    | panic => exact .inr ⟨[], .panic, Nat.succ_pos n, fun e h => (by cases h), rfl⟩
    | error e =>
      dsimp only
      rcases ih d1 w1 with ⟨errs, hl, h⟩ | ⟨errs, r, hl, hr, h⟩
      · exact .inl ⟨e :: errs, by simp [hl], by rw [h]; rfl⟩
      · exact .inr ⟨e :: errs, r, by simp only [List.length_cons]; omega, hr, by rw [h]; rfl⟩

/-- The retry loop over a closure that calls a session function and notes
its outcome in the accumulator and in `t` ends as the attempts of that
function do. -/
theorem withRetriesLoop_attempts {α : Type}
    (f : device → World → Outcome α × device × World) (ph : Pass → Outcome Unit × Pass)
    (note : List Record × Int → Outcome α → List Record × Int)
    (hph : ∀ s : Pass, ph s = ((f s.d s.w).1.void,
      ⟨(f s.d s.w).2.1, (f s.d s.w).2.2, (note (s.acc, s.t) (f s.d s.w).1).1,
        (note (s.acc, s.t) (f s.d s.w).1).2⟩)) :
    ∀ (n : Nat) (err : Option Err) (s : Pass),
      withRetriesLoop ph n err s =
        (lastError (attempts f n s.d s.w).1 err,
          ⟨(attempts f n s.d s.w).2.1, (attempts f n s.d s.w).2.2,
            ((attempts f n s.d s.w).1.foldl note (s.acc, s.t)).1,
            ((attempts f n s.d s.w).1.foldl note (s.acc, s.t)).2⟩) := by
  intro n
  induction n with
  | zero =>
    intro err s
    cases err <;> rfl
  | succ n ih =>
    intro err s
    rw [withRetriesLoop, hph s, attempts]
    generalize f s.d s.w = p
    obtain ⟨r, d1, w1⟩ := p
    cases r with
    | ok a => rfl
    | panic => rfl
    | error e =>
      dsimp only [Outcome.void]
      rw [ih]
      rfl

theorem timePhase_note (s : Pass) :
    timePhase s = ((s.d.systime s.w).1.void,
      ⟨(s.d.systime s.w).2.1, (s.d.systime s.w).2.2,
        (noteTime (s.acc, s.t) (s.d.systime s.w).1).1,
        (noteTime (s.acc, s.t) (s.d.systime s.w).1).2⟩) := by
  unfold timePhase
  generalize s.d.systime s.w = p
  obtain ⟨r, d1, w1⟩ := p
  cases r <;> rfl

theorem statusPhase_note (s : Pass) :
    statusPhase s = ((s.d.gatherStatus s.w).1.void,
      ⟨(s.d.gatherStatus s.w).2.1, (s.d.gatherStatus s.w).2.2,
        (noteStatus (s.acc, s.t) (s.d.gatherStatus s.w).1).1,
        (noteStatus (s.acc, s.t) (s.d.gatherStatus s.w).1).2⟩) := by
  unfold statusPhase
  generalize s.d.gatherStatus s.w = p
  obtain ⟨r, d1, w1⟩ := p
  cases r <;> rfl

theorem valuesPhase_note (s : Pass) :
    valuesPhase s = ((s.d.gatherValues s.w).1.void,
      ⟨(s.d.gatherValues s.w).2.1, (s.d.gatherValues s.w).2.2,
        (noteValues (s.acc, s.t) (s.d.gatherValues s.w).1).1,
        (noteValues (s.acc, s.t) (s.d.gatherValues s.w).1).2⟩) := by
  unfold valuesPhase
  generalize s.d.gatherValues s.w = p
  obtain ⟨r, d1, w1⟩ := p
  cases r <;> rfl

theorem noteTime_errors_ok (errs : List Err) (t : Int) :
    ∀ st : List Record × Int,
      (errs.map Outcome.error ++ [Outcome.ok t]).foldl noteTime st = (st.1, t) := by
  induction errs with
  | nil =>
    intro st
    rfl
  | cons e rest ih =>
    intro st
    exact ih (st.1, zeroTime)

theorem noteStatus_errors_ok (errs : List Err) (stat : List result) :
    ∀ st : List Record × Int,
      (errs.map Outcome.error ++ [Outcome.ok stat]).foldl noteStatus st =
        (st.1 ++ stat.map fun v => ⟨v.fields, v.tags, st.2⟩, st.2) := by
  induction errs with
  | nil =>
    intro st
    rfl
  | cons e rest ih =>
    intro st
    exact ih st

/-- Three failed calls of `systime`: the retried time phase returns the
third error and leaves the accumulator alone. -/
theorem afterTime_failed (d : device) (w : World) (acc : List Record) (e1 e2 e : Err)
    (h : (timeTries d w).1 = [.error e1, .error e2, .error e]) :
    afterTime d w acc = (.error e, ⟨(timeTries d w).2.1, (timeTries d w).2.2, acc, zeroTime⟩) := by
  unfold afterTime withRetries
  rw [withRetriesLoop_attempts device.systime timePhase noteTime timePhase_note]
  unfold timeTries at h
  dsimp only
  rw [h]
  rfl

/-- A call of `systime` that returned `t` after failed ones: the retried time
phase returns no error and leaves `t` in the variable. -/
theorem afterTime_done (d : device) (w : World) (acc : List Record) (errs : List Err) (t : Int)
    (h : (timeTries d w).1 = errs.map Outcome.error ++ [Outcome.ok t]) :
    afterTime d w acc = (.ok (), ⟨(timeTries d w).2.1, (timeTries d w).2.2, acc, t⟩) := by
  unfold afterTime withRetries
  rw [withRetriesLoop_attempts device.systime timePhase noteTime timePhase_note]
  unfold timeTries at h
  dsimp only
  rw [h, lastError_errors_ok, noteTime_errors_ok]
  rfl

theorem afterStatus_failed (d : device) (w : World) (acc : List Record) (errs : List Err)
    (t : Int) (e1 e2 e : Err)
    (ht : (timeTries d w).1 = errs.map Outcome.error ++ [Outcome.ok t])
    (h : (statusTries d w).1 = [.error e1, .error e2, .error e]) :
    afterStatus d w acc =
      (.error e, ⟨(statusTries d w).2.1, (statusTries d w).2.2, acc, t⟩) := by
  unfold afterStatus withRetries
  rw [afterTime_done d w acc errs t ht,
    withRetriesLoop_attempts device.gatherStatus statusPhase noteStatus statusPhase_note]
  unfold statusTries at h
  dsimp only
  rw [h]
  rfl

theorem afterStatus_done (d : device) (w : World) (acc : List Record) (errs errs2 : List Err)
    (t : Int) (stat : List result)
    (ht : (timeTries d w).1 = errs.map Outcome.error ++ [Outcome.ok t])
    (h : (statusTries d w).1 = errs2.map Outcome.error ++ [Outcome.ok stat]) :
    afterStatus d w acc =
      (.ok (), ⟨(statusTries d w).2.1, (statusTries d w).2.2,
        acc ++ stat.map fun v => ⟨v.fields, v.tags, t⟩, t⟩) := by
  unfold afterStatus withRetries
  rw [afterTime_done d w acc errs t ht,
    withRetriesLoop_attempts device.gatherStatus statusPhase noteStatus statusPhase_note]
  unfold statusTries at h
  dsimp only
  rw [h, lastError_errors_ok, noteStatus_errors_ok]
  rfl

theorem afterValues_failed (d : device) (w : World) (acc : List Record) (errs errs2 : List Err)
    (t : Int) (stat : List result) (e1 e2 e : Err)
    (ht : (timeTries d w).1 = errs.map Outcome.error ++ [Outcome.ok t])
    (hs : (statusTries d w).1 = errs2.map Outcome.error ++ [Outcome.ok stat])
    (h : (valuesTries d w).1 = [.error e1, .error e2, .error e]) :
    afterValues d w acc =
      (.error e, ⟨(valuesTries d w).2.1, (valuesTries d w).2.2,
        acc ++ stat.map fun v => ⟨v.fields, v.tags, t⟩, t⟩) := by
  unfold afterValues withRetries
  rw [afterStatus_done d w acc errs errs2 t stat ht hs,
    withRetriesLoop_attempts device.gatherValues valuesPhase noteValues valuesPhase_note]
  unfold valuesTries at h
  dsimp only
  rw [h]
  rfl

/-! ## Claims on the polling pass -/

/-- C11: `gatherData` runs the phases time, status, values in that order,
each as at most three successive calls of `systime`, `gatherStatus`,
`gatherValues` from the state the calls before left, and stops at the first
phase whose three calls all return an error, returning the third error. If
the three `systime` calls fail, the wall clock read after them is returned, no
record is emitted and nothing is sent after them (only connect, date and time
requests: no status or values request). If a `systime` call returned `t` and
the three `gatherStatus` calls fail, `t` is returned, no record is emitted and
nothing is sent after them (no values request). If a `gatherStatus` call
returned `stat` and the three `gatherValues` calls fail, `t` is returned with
the error and the accumulator holds the status records of `stat`, stamped `t`,
and no value record. -/
theorem gatherData_phases (d : device) (w : World) (acc : List Record) :
    (∀ e1 e2 e, (timeTries d w).1 = [.error e1, .error e2, .error e] →
      (d.gatherData w acc).1 = ((timeTries d w).2.2.now.1, .error e) ∧
      (d.gatherData w acc).2.acc = acc ∧
      (d.gatherData w acc).2.w.log = (timeTries d w).2.2.log ∧
      sendsOnly ["ACTIV", "SNUMB", "DATE_", "TIME_"] w (d.gatherData w acc).2.w) ∧
    (∀ (errs : List Err) (t : Int), (timeTries d w).1 = errs.map Outcome.error ++ [Outcome.ok t] →
      (∀ e1 e2 e, (statusTries d w).1 = [.error e1, .error e2, .error e] →
        (d.gatherData w acc).1 = (t, .error e) ∧
        (d.gatherData w acc).2.acc = acc ∧
        (d.gatherData w acc).2.w.log = (statusTries d w).2.2.log ∧
        sendsOnly ["ACTIV", "SNUMB", "DATE_", "TIME_", "STAT_"] w (d.gatherData w acc).2.w) ∧
      (∀ (errs2 : List Err) (stat : List result),
        (statusTries d w).1 = errs2.map Outcome.error ++ [Outcome.ok stat] →
        ∀ e1 e2 e, (valuesTries d w).1 = [.error e1, .error e2, .error e] →
          (d.gatherData w acc).1 = (t, .error e) ∧
          (d.gatherData w acc).2.acc = acc ++ stat.map (fun v => ⟨v.fields, v.tags, t⟩) ∧
          (d.gatherData w acc).2.w.log = (valuesTries d w).2.2.log)) := by
  refine ⟨?_, ?_⟩
  · intro e1 e2 e h
    have ha := afterTime_failed d w acc e1 e2 e h
    obtain ⟨_, f2⟩ := afterTime_frame ["ACTIV", "SNUMB", "DATE_", "TIME_"]
      (by decide) (by decide) (by decide) (by decide) d w acc
    rw [gatherData_time_error d w acc e (by rw [ha])]
    rw [ha] at f2 ⊢
    exact ⟨rfl, rfl, rfl, sendsOnly_trans _ _ _ _ f2 (sendsOnly_of_log_eq _ _ _ rfl)⟩
  · intro errs t ht
    have ha := afterTime_done d w acc errs t ht
    refine ⟨?_, ?_⟩
    · intro e1 e2 e h
      have hb := afterStatus_failed d w acc errs t e1 e2 e ht h
      obtain ⟨_, f2⟩ := afterTime_frame ["ACTIV", "SNUMB", "DATE_", "TIME_", "STAT_"]
        (by decide) (by decide) (by decide) (by decide) d w acc
      obtain ⟨_, g2, _⟩ := afterStatus_frame ["ACTIV", "SNUMB", "DATE_", "TIME_", "STAT_"]
        (by decide) (by decide) (by decide) d w acc
      rw [gatherData_status_error d w acc e (by rw [ha]) (by rw [hb])]
      have f3 := sendsOnly_trans _ _ _ _ f2 g2
      rw [hb] at f3 ⊢
      exact ⟨rfl, rfl, rfl, f3⟩
    · intro errs2 stat hs e1 e2 e h
      have hb := afterStatus_done d w acc errs errs2 t stat ht hs
      have hc := afterValues_failed d w acc errs errs2 t stat e1 e2 e ht hs h
      rw [gatherData_values d w acc (by rw [ha]) (by rw [hb]), hc]
      exact ⟨rfl, rfl, rfl⟩

/-- Witness for C11, one pass for each phase. The date request fails three
times: the wall clock and the third error, no record, no status or values
request. The status interval is due and the status request fails three times:
the device time and the third error, no record, no values request. The status
request succeeds and the values request gets an empty response three times:
the device time and the empty-result error, the two status records and no
value record. -/
theorem gatherData_phases_witness :
    (((sampleDevice tariffFilter.zero ⟨0, 0, 0⟩).gatherData noDateWorld []).1 =
        (1000, .error (.transport 4)) ∧
      ((sampleDevice tariffFilter.zero ⟨0, 0, 0⟩).gatherData noDateWorld []).2.acc = [] ∧
      ((sampleDevice tariffFilter.zero ⟨0, 0, 0⟩).gatherData noDateWorld []).2.w.log =
        [.dial 0 true, .command 0 ⟨"ACTIV", ""⟩, .command 0 ⟨"SNUMB", ""⟩, .command 0 dateCmd,
         .close 0, .dial 1 true, .command 1 dateCmd, .close 1, .dial 2 true,
         .command 2 dateCmd]) ∧
    (((sampleDevice tariffFilter.zero ⟨999, 0, 0⟩).gatherData noStatusWorld []).1 =
        (1675246830000000000, .error (.transport 6)) ∧
      ((sampleDevice tariffFilter.zero ⟨999, 0, 0⟩).gatherData noStatusWorld []).2.acc = [] ∧
      ((sampleDevice tariffFilter.zero ⟨999, 0, 0⟩).gatherData noStatusWorld []).2.w.log =
        [.dial 0 true, .command 0 ⟨"ACTIV", ""⟩, .command 0 ⟨"SNUMB", ""⟩, .command 0 dateCmd,
         .command 0 timeCmd, .command 0 statCmd, .close 0, .dial 1 true, .command 1 statCmd,
         .close 1, .dial 2 true, .command 2 statCmd]) ∧
    (((sampleDevice tariffFilter.zero ⟨999, 0, 0⟩).gatherData statusOnlyWorld []).1 =
        (1675246830000000000, .error (.emptyResult "current values")) ∧
      ((sampleDevice tariffFilter.zero ⟨999, 0, 0⟩).gatherData statusOnlyWorld []).2.acc =
        [⟨[("error_key", .str "BatDischarged"), ("error_description", .str "Battery discharged")],
          [("id", "12345")], 1675246830000000000⟩,
         ⟨[("error_key", .str "TimeSync"),
            ("error_description", .str "Time is not syncronizeded")],
          [("id", "12345")], 1675246830000000000⟩] ∧
      ((sampleDevice tariffFilter.zero ⟨999, 0, 0⟩).gatherData statusOnlyWorld []).2.w.log =
        [.dial 0 true, .command 0 ⟨"ACTIV", ""⟩, .command 0 ⟨"SNUMB", ""⟩, .command 0 dateCmd,
         .command 0 timeCmd, .command 0 statCmd, .command 0 ⟨"ET0PE", ""⟩,
         .command 0 ⟨"ET0PE", ""⟩, .command 0 ⟨"ET0PE", ""⟩]) :=
  ⟨⟨((gatherData_phases (sampleDevice tariffFilter.zero ⟨0, 0, 0⟩) noDateWorld []).1
        (.transport 2) (.transport 3) (.transport 4) (by decide)).1.trans (by decide),
    ((gatherData_phases (sampleDevice tariffFilter.zero ⟨0, 0, 0⟩) noDateWorld []).1
        (.transport 2) (.transport 3) (.transport 4) (by decide)).2.1,
    ((gatherData_phases (sampleDevice tariffFilter.zero ⟨0, 0, 0⟩) noDateWorld []).1
        (.transport 2) (.transport 3) (.transport 4) (by decide)).2.2.1.trans (by decide)⟩,
   ⟨(((gatherData_phases (sampleDevice tariffFilter.zero ⟨999, 0, 0⟩) noStatusWorld []).2
        [] 1675246830000000000 (by decide)).1
        (.transport 4) (.transport 5) (.transport 6) (by decide)).1,
    (((gatherData_phases (sampleDevice tariffFilter.zero ⟨999, 0, 0⟩) noStatusWorld []).2
        [] 1675246830000000000 (by decide)).1
        (.transport 4) (.transport 5) (.transport 6) (by decide)).2.1,
    (((gatherData_phases (sampleDevice tariffFilter.zero ⟨999, 0, 0⟩) noStatusWorld []).2
        [] 1675246830000000000 (by decide)).1
        (.transport 4) (.transport 5) (.transport 6) (by decide)).2.2.1.trans (by decide)⟩,
   ⟨(((gatherData_phases (sampleDevice tariffFilter.zero ⟨999, 0, 0⟩) statusOnlyWorld []).2
        [] 1675246830000000000 (by decide)).2 []
        [⟨[("id", "12345")],
           [("error_key", .str "BatDischarged"), ("error_description", .str "Battery discharged")]⟩,
         ⟨[("id", "12345")],
           [("error_key", .str "TimeSync"),
            ("error_description", .str "Time is not syncronizeded")]⟩]
        (by decide) (.emptyResult "current values") (.emptyResult "current values")
        (.emptyResult "current values") (by decide)).1,
    (((gatherData_phases (sampleDevice tariffFilter.zero ⟨999, 0, 0⟩) statusOnlyWorld []).2
        [] 1675246830000000000 (by decide)).2 []
        [⟨[("id", "12345")],
           [("error_key", .str "BatDischarged"), ("error_description", .str "Battery discharged")]⟩,
         ⟨[("id", "12345")],
           [("error_key", .str "TimeSync"),
            ("error_description", .str "Time is not syncronizeded")]⟩]
        (by decide) (.emptyResult "current values") (.emptyResult "current values")
        (.emptyResult "current values") (by decide)).2.1.trans (by decide),
    (((gatherData_phases (sampleDevice tariffFilter.zero ⟨999, 0, 0⟩) statusOnlyWorld []).2
        [] 1675246830000000000 (by decide)).2 []
        [⟨[("id", "12345")],
           [("error_key", .str "BatDischarged"), ("error_description", .str "Battery discharged")]⟩,
         ⟨[("id", "12345")],
           [("error_key", .str "TimeSync"),
            ("error_description", .str "Time is not syncronizeded")]⟩]
        (by decide) (.emptyResult "current values") (.emptyResult "current values")
        (.emptyResult "current values") (by decide)).2.2.trans (by decide)⟩⟩

/-! ## Lemmas: the numbers of a duration text -/

theorem isDigit_iff (c : Char) : isDigit c = true ↔ isDecDigit c := by
  unfold isDigit isDecDigit
  simp

/-- On decimal digits the loop of `ParseUint(_, 10, 64)` returns the number
read so far, as long as it stays below `2^64`. -/
theorem parseUintLoop64_digits (ds : List Char) (hd : ∀ c ∈ ds, isDecDigit c) :
    ∀ n : Nat, n * 10 ^ ds.length + decimalValue ds < 2 ^ 64 →
      parseUintLoop 10 (2 ^ 64 - 1) ((2 ^ 64 - 1) / 10 + 1) ds n =
        .ok (n * 10 ^ ds.length + decimalValue ds) := by
  induction ds with
  | nil =>
    intro n _
    simp [parseUintLoop, decimalValue_nil]
  | cons c cs ih =>
    intro n hn
    have hc : isDecDigit c := hd c (List.mem_cons_self _ _)
    have hcs : ∀ x ∈ cs, isDecDigit x := fun x hx => hd x (List.mem_cons_of_mem _ hx)
    have hdig := digitOf_of_isDecDigit c hc
    unfold isDecDigit at hc
    rw [decimalValue_cons, List.length_cons, pow_succ] at hn
    have hpos : 0 < 10 ^ cs.length := by positivity
    have hstep : (n * 10 + (c.toNat - 48)) * 10 ^ cs.length + decimalValue cs < 2 ^ 64 := by
      have : (n * 10 + (c.toNat - 48)) * 10 ^ cs.length =
          n * (10 ^ cs.length * 10) + (c.toNat - 48) * 10 ^ cs.length := by ring
      omega
    have hsmall : n * 10 + (c.toNat - 48) < 2 ^ 64 := by
      have h1 : n * 10 + (c.toNat - 48) ≤ (n * 10 + (c.toNat - 48)) * 10 ^ cs.length :=
        Nat.le_mul_of_pos_right _ hpos
      omega
    have hres := ih hcs (n * 10 + (c.toNat - 48)) hstep
    unfold parseUintLoop
    simp only [hdig]
    have hn0 : n * 10 % 2 ^ 64 = n * 10 := Nat.mod_eq_of_lt (by omega)
    have hn1 : (n * 10 + (c.toNat - 48)) % 2 ^ 64 = n * 10 + (c.toNat - 48) :=
      Nat.mod_eq_of_lt (by omega)
    rw [if_neg (by omega), if_neg (by omega)]
    simp only [hn0, hn1]
    rw [if_neg (by omega), hres]
    congr 1
    rw [decimalValue_cons, List.length_cons, pow_succ]
    ring

/-- What the loop of `ParseUint(_, 10, 64)` returns on decimal digits, when it
returns a number, is the number read. -/
theorem parseUintLoop64_value (ds : List Char) (hd : ∀ c ∈ ds, isDecDigit c) :
    ∀ n r : Nat, parseUintLoop 10 (2 ^ 64 - 1) ((2 ^ 64 - 1) / 10 + 1) ds n = .ok r →
      r = n * 10 ^ ds.length + decimalValue ds := by
  induction ds with
  | nil =>
    intro n r h
    simp only [parseUintLoop, Except.ok.injEq] at h
    simp [decimalValue_nil, h]
  | cons c cs ih =>
    intro n r h
    have hc : isDecDigit c := hd c (List.mem_cons_self _ _)
    have hcs : ∀ x ∈ cs, isDecDigit x := fun x hx => hd x (List.mem_cons_of_mem _ hx)
    have hdig := digitOf_of_isDecDigit c hc
    unfold isDecDigit at hc
    unfold parseUintLoop at h
    simp only [hdig] at h
    rw [if_neg (by omega)] at h
    by_cases hcut : n ≥ (2 ^ 64 - 1) / 10 + 1
    · rw [if_pos hcut] at h
      cases h
    · rw [if_neg hcut] at h
      have hn0 : n * 10 % 2 ^ 64 = n * 10 := Nat.mod_eq_of_lt (by omega)
      simp only [hn0] at h
      by_cases hov : (n * 10 + (c.toNat - 48)) % 2 ^ 64 < n * 10 ∨
          (n * 10 + (c.toNat - 48)) % 2 ^ 64 > 2 ^ 64 - 1
      · rw [if_pos hov] at h
        cases h
      · rw [if_neg hov] at h
        have hn1 : (n * 10 + (c.toNat - 48)) % 2 ^ 64 = n * 10 + (c.toNat - 48) := by
          omega
        rw [hn1] at h
        have := ih hcs _ r h
        rw [this, decimalValue_cons, List.length_cons, pow_succ]
        ring

/-- `ParseInt(_, 10, 64)` on a non-empty run of decimal digits: it returns
the number of the run exactly when that number is below `2^63`. -/
theorem parseInt_digits (ds : List Char) (hne : ds ≠ []) (hd : ∀ c ∈ ds, isDecDigit c) :
    (decimalValue ds < 2 ^ 63 → parseInt ds 10 64 = .ok (decimalValue ds : Int)) ∧
    (∀ n : Int, parseInt ds 10 64 = .ok n →
      n = (decimalValue ds : Int) ∧ decimalValue ds < 2 ^ 63) := by
  match ds, hne with
  | c :: cs, _ =>
    have hc : isDecDigit c := hd c (List.mem_cons_self _ _)
    have hplus : ¬ (c = '+' ∨ c = '-') := by
      rintro (h | h) <;> subst h <;> revert hc <;> decide
    have hneg : decide (c = '-') = false := by
      simp only [decide_eq_false_iff_not]
      intro h
      exact hplus (Or.inr h)
    constructor
    · intro hlt
      have hloop := parseUintLoop64_digits (c :: cs) hd 0 (by omega)
      simp only [Nat.zero_mul, Nat.zero_add] at hloop
      unfold parseInt
      simp only [hneg, if_neg hplus]
      unfold parseUint
      rw [if_neg (by simp), hloop]
      simp only [Bool.not_false, true_and, Bool.false_eq_true, false_and, if_false]
      rw [if_neg (by omega)]
    · intro n h
      unfold parseInt at h
      simp only [hneg, if_neg hplus] at h
      unfold parseUint at h
      rw [if_neg (by simp)] at h
      cases hl : parseUintLoop 10 (2 ^ 64 - 1) ((2 ^ 64 - 1) / 10 + 1) (c :: cs) 0 with
      | error e =>
        rw [hl] at h
        cases h
      | ok un =>
        rw [hl] at h
        have hv := parseUintLoop64_value (c :: cs) hd 0 un hl
        simp only [Nat.zero_mul, Nat.zero_add] at hv
        simp only [Bool.not_false, true_and, Bool.false_eq_true, false_and, if_false] at h
        by_cases hbig : un ≥ 2 ^ (64 - 1)
        · rw [if_pos hbig] at h
          cases h
        · rw [if_neg hbig] at h
          simp only [Except.ok.injEq] at h
          rw [← hv]
          exact ⟨h.symm, by omega⟩

/-! ## Lemmas: one component -/

theorem head_not_letter (tail : List Char) (x : Char) (hx : ¬ isDecDigit x)
    (ht : ∀ ch, tail.head? = some ch → isDecDigit ch) : tail.head? ≠ some x := by
  intro h
  exact hx (ht x h)

theorem componentLoop_digit (c : Char) (rest digits : List Char) (d : Duration)
    (hc : isDigit c = true) :
    componentLoop (c :: rest) 0 digits d = componentLoop rest 0 (digits ++ [c]) d := by
  rw [componentLoop, if_pos hc]

theorem componentLoop_skip (c : Char) (rest digits : List Char) (k : Nat) (d : Duration) :
    componentLoop (c :: rest) (k + 1) digits d = componentLoop rest k digits d := by
  rw [componentLoop]

/-- Reading a run of digits moves it to the digit run of the component. -/
theorem componentLoop_digits (ds : List Char) (hd : ∀ c ∈ ds, isDecDigit c) :
    ∀ (tail acc : List Char) (d : Duration),
      componentLoop (ds ++ tail) 0 acc d = componentLoop tail 0 (acc ++ ds) d := by
  induction ds with
  | nil =>
    intro tail acc d
    simp
  | cons c cs ih =>
    intro tail acc d
    have hc : isDigit c = true := (isDigit_iff c).mpr (hd c (List.mem_cons_self _ _))
    rw [List.cons_append, componentLoop_digit c _ _ _ hc,
      ih (fun x hx => hd x (List.mem_cons_of_mem _ hx))]
    simp

/-- After a parsed digit run, the unit is applied and reading resumes
directly after it, when the text ends there or goes on with a digit. -/
theorem componentLoop_unit (uw : UnitWord) (digits tail : List Char) (n : Int) (d : Duration)
    (hne : digits ≠ []) (hn : parseInt digits 10 64 = .ok n)
    (ht : ∀ ch, tail.head? = some ch → isDecDigit ch) :
    componentLoop (uw.chars ++ tail) 0 digits d = componentLoop tail 0 [] (uw.apply n d) := by
  have hs := head_not_letter tail 's' (by decide) ht
  have ho := head_not_letter tail 'o' (by decide) ht
  cases uw <;>
    simp [UnitWord.chars, componentLoop, isDigit, applyUnit, UnitWord.apply, UnitWord.span,
      hne, hn, hs, ho]

theorem render_head (cs : List Component) (hall : ∀ c ∈ cs, c.wellFormed ∧ c.fits) :
    ∀ ch, (render cs).head? = some ch → isDecDigit ch := by
  intro ch h
  cases cs with
  | nil => simp [render] at h
  | cons c rest =>
    obtain ⟨⟨hne, hd⟩, _⟩ := hall c (List.mem_cons_self _ _)
    cases hdig : c.digits with
    | nil => exact absurd hdig hne
    | cons x xs =>
      simp only [render, Component.text, hdig, List.cons_append, List.head?_cons,
        Option.some.injEq] at h
      rw [← h]
      exact hd x (by rw [hdig]; exact List.mem_cons_self _ _)

/-- One well-formed component whose number fits is read and applied, and
reading resumes directly after its unit. -/
theorem componentLoop_component (c : Component) (hwf : c.wellFormed) (hfit : c.fits)
    (tail : List Char) (ht : ∀ ch, tail.head? = some ch → isDecDigit ch) (d : Duration) :
    componentLoop (c.text ++ tail) 0 [] d = componentLoop tail 0 [] (c.apply d) := by
  obtain ⟨hne, hd⟩ := hwf
  unfold Component.text Component.apply
  rw [List.append_assoc, componentLoop_digits c.digits hd, List.nil_append]
  exact componentLoop_unit c.unit c.digits tail _ d hne
    ((parseInt_digits c.digits hne hd).1 hfit) ht

/-- Every sequence of well-formed components whose numbers fit is accepted
and parses to the components applied in order. -/
theorem componentLoop_render (cs : List Component) :
    ∀ d : Duration, (∀ c ∈ cs, c.wellFormed ∧ c.fits) →
      componentLoop (render cs) 0 [] d = some (applyAll cs d) := by
  induction cs with
  | nil =>
    intro d _
    simp [render, applyAll, componentLoop]
  | cons c rest ih =>
    intro d hall
    have hrest : ∀ x ∈ rest, x.wellFormed ∧ x.fits :=
      fun x hx => hall x (List.mem_cons_of_mem _ hx)
    obtain ⟨hwf, hfit⟩ := hall c (List.mem_cons_self _ _)
    rw [render, componentLoop_component c hwf hfit _ (render_head rest hrest), applyAll]
    exact ih _ hrest

/-- A unit that the `switch` accepts is one of the spellings, written with
the rune read and, when one more rune is passed over, the rune after it. -/
theorem applyUnit_some (d d1 : Duration) (n : Int) (c : Char) (next : Option Char) (skip : Nat)
    (h : applyUnit d n c next = some (d1, skip)) :
    ∃ uw : UnitWord, d1 = uw.apply n d ∧
      ((skip = 0 ∧ uw.chars = [c]) ∨ (skip = 1 ∧ ∃ c2, next = some c2 ∧ uw.chars = [c, c2])) := by
  unfold applyUnit at h
  by_cases h1 : c = 's'
  · rw [if_pos h1] at h
    simp only [Option.some.injEq, Prod.mk.injEq] at h
    exact ⟨.s, h.1.symm, Or.inl ⟨h.2.symm, by rw [h1]; rfl⟩⟩
  rw [if_neg h1] at h
  by_cases h2 : c = 'h'
  · rw [if_pos h2] at h
    simp only [Option.some.injEq, Prod.mk.injEq] at h
    exact ⟨.h, h.1.symm, Or.inl ⟨h.2.symm, by rw [h2]; rfl⟩⟩
  rw [if_neg h2] at h
  by_cases h3 : c = 'd'
  · rw [if_pos h3] at h
    simp only [Option.some.injEq, Prod.mk.injEq] at h
    exact ⟨.d, h.1.symm, Or.inl ⟨h.2.symm, by rw [h3]; rfl⟩⟩
  rw [if_neg h3] at h
  by_cases h4 : c = 'w'
  · rw [if_pos h4] at h
    simp only [Option.some.injEq, Prod.mk.injEq] at h
    exact ⟨.w, h.1.symm, Or.inl ⟨h.2.symm, by rw [h4]; rfl⟩⟩
  rw [if_neg h4] at h
  by_cases h5 : c = 'y'
  · rw [if_pos h5] at h
    simp only [Option.some.injEq, Prod.mk.injEq] at h
    exact ⟨.y, h.1.symm, Or.inl ⟨h.2.symm, by rw [h5]; rfl⟩⟩
  rw [if_neg h5] at h
  by_cases h6 : c = 'n'
  · rw [if_pos h6] at h
    simp only [Option.some.injEq, Prod.mk.injEq] at h
    by_cases hs : next = some 's'
    · rw [if_pos hs] at h
      exact ⟨.ns, h.1.symm, Or.inr ⟨h.2.symm, 's', hs, by rw [h6]; rfl⟩⟩
    · rw [if_neg hs] at h
      exact ⟨.n, h.1.symm, Or.inl ⟨h.2.symm, by rw [h6]; rfl⟩⟩
  rw [if_neg h6] at h
  by_cases h7 : c = 'u' ∨ c = 'µ'
  · rw [if_pos h7] at h
    simp only [Option.some.injEq, Prod.mk.injEq] at h
    by_cases hs : next = some 's'
    · rw [if_pos hs] at h
      rcases h7 with h7 | h7
      · exact ⟨.us, h.1.symm, Or.inr ⟨h.2.symm, 's', hs, by rw [h7]; rfl⟩⟩
      · exact ⟨.mus, h.1.symm, Or.inr ⟨h.2.symm, 's', hs, by rw [h7]; rfl⟩⟩
    · rw [if_neg hs] at h
      rcases h7 with h7 | h7
      · exact ⟨.u, h.1.symm, Or.inl ⟨h.2.symm, by rw [h7]; rfl⟩⟩
      · exact ⟨.mu, h.1.symm, Or.inl ⟨h.2.symm, by rw [h7]; rfl⟩⟩
  rw [if_neg h7] at h
  by_cases h8 : c = 'm'
  · rw [if_pos h8] at h
    by_cases hs : next = some 's'
    · rw [if_pos hs] at h
      simp only [Option.some.injEq, Prod.mk.injEq] at h
      exact ⟨.ms, h.1.symm, Or.inr ⟨h.2.symm, 's', hs, by rw [h8]; rfl⟩⟩
    · rw [if_neg hs] at h
      by_cases ho : next = some 'o'
      · rw [if_pos ho] at h
        simp only [Option.some.injEq, Prod.mk.injEq] at h
        exact ⟨.mo, h.1.symm, Or.inr ⟨h.2.symm, 'o', ho, by rw [h8]; rfl⟩⟩
      · rw [if_neg ho] at h
        simp only [Option.some.injEq, Prod.mk.injEq] at h
        exact ⟨.m, h.1.symm, Or.inl ⟨h.2.symm, by rw [h8]; rfl⟩⟩
  rw [if_neg h8] at h
  cases h

/-- Whatever the component loop accepts is the text of a sequence of
well-formed components whose numbers fit, and the result is those components
applied in order. -/
theorem componentLoop_sound :
    ∀ (k : Nat) (cs acc : List Char) (d r : Duration), cs.length ≤ k →
      (∀ ch ∈ acc, isDecDigit ch) → componentLoop cs 0 acc d = some r →
      ∃ comps : List Component, (∀ c ∈ comps, c.wellFormed ∧ c.fits) ∧
        acc ++ cs = render comps ∧ r = applyAll comps d := by
  intro k
  induction k with
  | zero =>
    intro cs acc d r hlen hacc h
    have hcs : cs = [] := List.length_eq_zero.mp (by omega)
    subst hcs
    rw [componentLoop] at h
    by_cases he : acc = []
    · rw [if_pos he] at h
      simp only [Option.some.injEq] at h
      exact ⟨[], by simp, by simp [he, render], by rw [← h]; rfl⟩
    · rw [if_neg he] at h
      cases h
  | succ k ih =>
    intro cs acc d r hlen hacc h
    cases cs with
    | nil => exact ih [] acc d r (by simp) hacc h
    | cons c rest =>
      have hrest : rest.length ≤ k := by
        simp only [List.length_cons] at hlen
        omega
      rw [componentLoop] at h
      by_cases hc : isDigit c = true
      · rw [if_pos hc] at h
        have hacc2 : ∀ ch ∈ acc ++ [c], isDecDigit ch := by
          intro ch hch
          rcases List.mem_append.mp hch with h1 | h1
          · exact hacc ch h1
          · simp only [List.mem_singleton] at h1
            rw [h1]
            exact (isDigit_iff c).mp hc
        obtain ⟨comps, h1, h2, h3⟩ := ih rest (acc ++ [c]) d r hrest hacc2 h
        exact ⟨comps, h1, by rw [← h2]; simp, h3⟩
      · rw [if_neg hc] at h
        by_cases he : acc = []
        · rw [if_pos he] at h
          cases h
        · rw [if_neg he] at h
          cases hp : parseInt acc 10 64 with
          | error e =>
            rw [hp] at h
            cases h
          | ok n =>
            rw [hp] at h
            dsimp only at h
            obtain ⟨hval, hfit⟩ := (parseInt_digits acc he hacc).2 n hp
            cases hu : applyUnit d n c rest.head? with
            | none =>
              rw [hu] at h
              cases h
            | some p =>
              obtain ⟨d1, skip⟩ := p
              rw [hu] at h
              dsimp only at h
              obtain ⟨uw, hd1, hshape⟩ := applyUnit_some d d1 n c rest.head? skip hu
              rcases hshape with ⟨hs0, hch⟩ | ⟨hs1, c2, hnext, hch⟩
              · subst hs0
                obtain ⟨comps, h1, h2, h3⟩ := ih rest [] d1 r hrest (by simp) h
                refine ⟨⟨acc, uw⟩ :: comps, ?_, ?_, ?_⟩
                · intro x hx
                  rcases List.mem_cons.mp hx with hx | hx
                  · rw [hx]
                    exact ⟨⟨he, hacc⟩, hfit⟩
                  · exact h1 x hx
                · simp only [List.nil_append] at h2
                  simp [render, Component.text, hch, h2]
                · rw [h3, hd1, hval]
                  rfl
              · subst hs1
                cases rest with
                | nil => simp at hnext
                | cons x rest2 =>
                  simp only [List.head?_cons, Option.some.injEq] at hnext
                  subst hnext
                  rw [componentLoop_skip] at h
                  have hrest2 : rest2.length ≤ k := by
                    simp only [List.length_cons] at hrest
                    omega
                  obtain ⟨comps, h1, h2, h3⟩ := ih rest2 [] d1 r hrest2 (by simp) h
                  refine ⟨⟨acc, uw⟩ :: comps, ?_, ?_, ?_⟩
                  · intro y hy
                    rcases List.mem_cons.mp hy with hy | hy
                    · rw [hy]
                      exact ⟨⟨he, hacc⟩, hfit⟩
                    · exact h1 y hy
                  · simp only [List.nil_append] at h2
                    simp [render, Component.text, hch, h2]
                  · rw [h3, hd1, hval]
                    rfl

/-! ## Lemmas: rejected texts and spans that fit -/

theorem wrapInt64_of_fits (x : Int) (h0 : 0 ≤ x) (h1 : x < 2 ^ 63) : wrapInt64 x = x := by
  unfold wrapInt64
  omega

theorem addSpan_zero_fits (v k : Int) (h0 : 0 ≤ v * k) (h1 : v * k < 2 ^ 63) :
    Duration.addSpan ⟨0, 0, 0⟩ v k = ⟨v * k, 0, 0⟩ := by
  unfold Duration.addSpan
  simp only [zero_add]
  rw [wrapInt64_of_fits _ h0 h1, wrapInt64_of_fits _ h0 h1]

theorem unit_chars_ne_nil (uw : UnitWord) : uw.chars ≠ [] := by
  cases uw <;> simp [UnitWord.chars]

theorem render_ne_nil (c : Component) (cs : List Component) : render (c :: cs) ≠ [] := by
  simp [render, Component.text, unit_chars_ne_nil]

/-- A text of components with listed units never ends in the letter `n`. -/
theorem render_listed_last (cs : List Component) (hl : ∀ c ∈ cs, c.unit.listed = true) :
    (render cs).getLast? ≠ some 'n' := by
  induction cs with
  | nil => simp [render]
  | cons c rest ih =>
    have hrest : ∀ x ∈ rest, x.unit.listed = true :=
      fun x hx => hl x (List.mem_cons_of_mem _ hx)
    cases rest with
    | nil =>
      have hc := hl c (List.mem_cons_self _ _)
      simp only [render, List.append_nil, Component.text]
      rw [List.getLast?_append_of_ne_nil _ (unit_chars_ne_nil _)]
      revert hc
      cases c.unit <;> simp [UnitWord.chars, UnitWord.listed]
    | cons c2 rest2 =>
      rw [render, List.getLast?_append_of_ne_nil _ (render_ne_nil c2 rest2)]
      exact ih hrest

theorem applyUnit_other (d : Duration) (n : Int) (c : Char) (next : Option Char)
    (hc : c ∉ ['s', 'h', 'd', 'w', 'y', 'n', 'u', 'µ', 'm']) : applyUnit d n c next = none := by
  simp only [List.mem_cons, List.mem_singleton, List.not_mem_nil, or_false, not_or] at hc
  obtain ⟨h1, h2, h3, h4, h5, h6, h7, h8, h9⟩ := hc
  unfold applyUnit
  rw [if_neg h1, if_neg h2, if_neg h3, if_neg h4, if_neg h5, if_neg h6,
    if_neg (by rintro (h | h) <;> contradiction), if_neg h9]

/-! ## Lemmas: concatenated duration texts -/

theorem render_append (xs ys : List Component) : render (xs ++ ys) = render xs ++ render ys := by
  induction xs with
  | nil => simp [render]
  | cons c rest ih => simp [render, ih]

theorem applyAll_append (xs ys : List Component) (d : Duration) :
    applyAll (xs ++ ys) d = applyAll ys (applyAll xs d) := by
  induction xs generalizing d with
  | nil => simp [applyAll]
  | cons c rest ih => simp [applyAll, ih]

/-- The concatenation of two accepted texts is accepted, and its result is the
components of the second text applied on top of the result of the first: the
fixed spans add up in `int64`, a year or month component of the second text
replaces what the first text gave. -/
theorem parseComponents_append (a b : String) (da db : Duration)
    (ha : parseComponents a = some da) (hb : parseComponents b = some db) :
    ∃ comps : List Component, b.toList = render comps ∧ db = applyAll comps ⟨0, 0, 0⟩ ∧
      parseComponents (a ++ b) = some (applyAll comps da) := by
  obtain ⟨ca, a1, a2, a3⟩ :=
    componentLoop_sound a.toList.length a.toList [] ⟨0, 0, 0⟩ da (le_refl _) (by simp) ha
  obtain ⟨cb, b1, b2, b3⟩ :=
    componentLoop_sound b.toList.length b.toList [] ⟨0, 0, 0⟩ db (le_refl _) (by simp) hb
  simp only [List.nil_append] at a2 b2
  refine ⟨cb, b2, b3, ?_⟩
  have hall : ∀ c ∈ ca ++ cb, c.wellFormed ∧ c.fits := by
    intro c hc
    rcases List.mem_append.mp hc with h | h
    · exact a1 c h
    · exact b1 c h
  have := componentLoop_render (ca ++ cb) ⟨0, 0, 0⟩ hall
  rw [render_append, applyAll_append, ← a2, ← b2, ← a3] at this
  unfold parseComponents
  rw [show (a ++ b).toList = a.toList ++ b.toList from by simp]
  exact this

/-! ## Claims on duration texts -/

/-- C15 fails on the code: `"1y"` parses to 1 year and `"2y"` to 2 years, but
their concatenation `"1y2y"` parses to 2 years, not 3, because the year and
month branches assign (`d.years = int(n)`) where the fixed-span branches
accumulate (`d.tt +=`); likewise `"1mo2mo"` gives 2 months, while `"1h2h"`
gives 3 hours and `"1d12h"` 36 hours. -/
theorem components_years_overwritten :
    parseComponents "1y" = some ⟨0, 0, 1⟩ ∧ parseComponents "2y" = some ⟨0, 0, 2⟩ ∧
    parseComponents ("1y" ++ "2y") = some ⟨0, 0, 2⟩ ∧
    parseComponents ("1mo" ++ "2mo") = some ⟨0, 2, 0⟩ ∧
    parseComponents ("1h" ++ "2h") = some ⟨3 * hour, 0, 0⟩ ∧
    parseComponents "1d12h" = some ⟨36 * hour, 0, 0⟩ :=
  ⟨by decide, by decide, by decide, by decide, by decide, by decide⟩

/-- C17: the component loop takes the two-rune units before the one-rune
unit: for every non-empty digit run whose number of minutes fits a 64-bit
nanosecond count, the run followed by `m` parses to that many minutes and no
months, followed by `mo` to that many months and a zero fixed span, followed
by `ms` to that many milliseconds; and when the text goes on with another
component, reading resumes directly after the unit. -/
theorem two_rune_units_first (ds : List Char) (hne : ds ≠ []) (hd : ∀ c ∈ ds, isDecDigit c)
    (hfit : (decimalValue ds : Int) * minute < 2 ^ 63)
    (tail : List Char) (ht : ∀ ch, tail.head? = some ch → isDecDigit ch) (d : Duration) :
    parseComponents (String.mk (ds ++ ['m'])) = some ⟨(decimalValue ds : Int) * minute, 0, 0⟩ ∧
    parseComponents (String.mk (ds ++ ['m', 'o'])) = some ⟨0, (decimalValue ds : Int), 0⟩ ∧
    parseComponents (String.mk (ds ++ ['m', 's'])) =
      some ⟨(decimalValue ds : Int) * millisecond, 0, 0⟩ ∧
    componentLoop (ds ++ ['m'] ++ tail) 0 [] d =
      componentLoop tail 0 [] (d.addSpan (decimalValue ds) minute) ∧
    componentLoop (ds ++ ['m', 'o'] ++ tail) 0 [] d =
      componentLoop tail 0 [] { d with monts := (decimalValue ds : Int) } ∧
    componentLoop (ds ++ ['m', 's'] ++ tail) 0 [] d =
      componentLoop tail 0 [] (d.addSpan (decimalValue ds) millisecond) := by
  have hv0 : (0 : Int) ≤ (decimalValue ds : Int) := Int.ofNat_nonneg _
  have hmin : minute = 60000000000 := rfl
  have hms : millisecond = 1000000 := rfl
  have hfits : decimalValue ds < 2 ^ 63 := by
    rw [hmin] at hfit
    omega
  have hwf : ∀ uw : UnitWord, (⟨ds, uw⟩ : Component).wellFormed := fun _ => ⟨hne, hd⟩
  have hnil : ∀ ch, ([] : List Char).head? = some ch → isDecDigit ch := by
    intro ch h
    simp at h
  have key : ∀ (uw : UnitWord) (t : List Char),
      (∀ ch, t.head? = some ch → isDecDigit ch) → ∀ e : Duration,
      componentLoop (ds ++ uw.chars ++ t) 0 [] e =
        componentLoop t 0 [] (uw.apply (decimalValue ds) e) :=
    fun uw t h e => componentLoop_component ⟨ds, uw⟩ (hwf uw) hfits t h e
  have done : ∀ e : Duration, componentLoop [] 0 [] e = some e := by
    intro e
    simp [componentLoop]
  refine ⟨?_, ?_, ?_, key .m tail ht d, key .mo tail ht d, key .ms tail ht d⟩
  · have := key .m [] hnil ⟨0, 0, 0⟩
    rw [List.append_nil, done] at this
    unfold parseComponents
    show componentLoop (ds ++ ['m']) 0 [] ⟨0, 0, 0⟩ = _
    rw [show ds ++ ['m'] = ds ++ UnitWord.m.chars from rfl, this]
    show some (Duration.addSpan ⟨0, 0, 0⟩ (decimalValue ds) minute) = _
    rw [addSpan_zero_fits _ _ (by rw [hmin]; omega) hfit]
  · have := key .mo [] hnil ⟨0, 0, 0⟩
    rw [List.append_nil, done] at this
    unfold parseComponents
    show componentLoop (ds ++ ['m', 'o']) 0 [] ⟨0, 0, 0⟩ = _
    rw [show ds ++ ['m', 'o'] = ds ++ UnitWord.mo.chars from rfl, this]
    rfl
  · have := key .ms [] hnil ⟨0, 0, 0⟩
    rw [List.append_nil, done] at this
    unfold parseComponents
    show componentLoop (ds ++ ['m', 's']) 0 [] ⟨0, 0, 0⟩ = _
    rw [show ds ++ ['m', 's'] = ds ++ UnitWord.ms.chars from rfl, this]
    show some (Duration.addSpan ⟨0, 0, 0⟩ (decimalValue ds) millisecond) = _
    rw [addSpan_zero_fits _ _ (by rw [hms]; omega) (by rw [hms]; rw [hmin] at hfit; omega)]

/-- Witness for C17: `"5m30s"` is 5 minutes 30 seconds and `"2mo1d"` is 2
months and a day; after `5m` reading resumes at `30s`. -/
theorem two_rune_units_first_witness :
    parseComponents "5m30s" = some ⟨5 * minute + 30 * second, 0, 0⟩ ∧
    parseComponents "2mo1d" = some ⟨day, 2, 0⟩ ∧
    componentLoop (['5'] ++ ['m'] ++ "30s".toList) 0 [] ⟨0, 0, 0⟩ =
      componentLoop "30s".toList 0 [] (Duration.addSpan ⟨0, 0, 0⟩ (decimalValue ['5']) minute) :=
  ⟨by decide, by decide,
   (two_rune_units_first ['5'] (by decide) (by decide) (by decide) "30s".toList
     (by decide) ⟨0, 0, 0⟩).2.2.2.1⟩

/-- C18 as written fails: `"5n"`, a digit run followed by the letter `n`
alone, is accepted (as 5 nanoseconds), although it is not a concatenation of
components with the listed units `ns, us, µs, ms, s, m, h, d, w, mo, y`. -/
theorem components_bare_n_accepted :
    parseComponents "5n" = some ⟨5, 0, 0⟩ ∧
    ¬ ∃ comps : List Component,
      (∀ c ∈ comps, c.wellFormed ∧ c.unit.listed = true) ∧ "5n".toList = render comps := by
  refine ⟨by decide, ?_⟩
  rintro ⟨comps, hall, htext⟩
  have hlast := render_listed_last comps (fun c hc => (hall c hc).2)
  rw [← htext] at hlast
  exact hlast (by decide)

/-- C18 (amended): the component loop returns an error for every text that is
not a concatenation of components, each a non-empty run of decimal digits
followed by one of the spellings `ns, us, µs, ms, s, m, h, d, w, mo, y` or a
bare `n`, `u` or `µ`: in particular for a digit run with no following unit,
for a text that starts with a unit without digits before it, and for a digit
run followed by a rune that is neither a digit nor one of
`s h d w y n u µ m`. -/
theorem components_rejected :
    (∀ text : String,
      (¬ ∃ comps : List Component, (∀ c ∈ comps, c.wellFormed) ∧ text.toList = render comps) →
      parseComponents text = none) ∧
    (∀ ds : List Char, ds ≠ [] → (∀ c ∈ ds, isDecDigit c) →
      parseComponents (String.mk ds) = none) ∧
    (∀ (c : Char) (rest : List Char), ¬ isDecDigit c →
      parseComponents (String.mk (c :: rest)) = none) ∧
    (∀ (ds : List Char) (c : Char) (rest : List Char), ds ≠ [] → (∀ x ∈ ds, isDecDigit x) →
      ¬ isDecDigit c → c ∉ ['s', 'h', 'd', 'w', 'y', 'n', 'u', 'µ', 'm'] →
      parseComponents (String.mk (ds ++ c :: rest)) = none) := by
  refine ⟨?_, ?_, ?_, ?_⟩
  · intro text hno
    cases hp : parseComponents text with
    | none => rfl
    | some r =>
      exfalso
      obtain ⟨comps, h1, h2, _⟩ :=
        componentLoop_sound text.toList.length text.toList [] ⟨0, 0, 0⟩ r (le_refl _)
          (by simp) hp
      exact hno ⟨comps, fun c hc => (h1 c hc).1, by simpa using h2⟩
  · intro ds hne hd
    unfold parseComponents
    show componentLoop ds 0 [] ⟨0, 0, 0⟩ = none
    have := componentLoop_digits ds hd [] [] ⟨0, 0, 0⟩
    rw [List.append_nil, List.nil_append] at this
    rw [this, componentLoop, if_neg hne]
  · intro c rest hc
    unfold parseComponents
    show componentLoop (c :: rest) 0 [] ⟨0, 0, 0⟩ = none
    have hnd : ¬ (isDigit c = true) := fun h => hc ((isDigit_iff c).mp h)
    rw [componentLoop, if_neg hnd, if_pos rfl]
  · intro ds c rest hne hd hc hother
    unfold parseComponents
    show componentLoop (ds ++ c :: rest) 0 [] ⟨0, 0, 0⟩ = none
    have hnd : ¬ (isDigit c = true) := fun h => hc ((isDigit_iff c).mp h)
    rw [componentLoop_digits ds hd, List.nil_append, componentLoop, if_neg hnd, if_neg hne]
    cases parseInt ds 10 64 with
    | error e => rfl
    | ok n =>
      dsimp only
      rw [applyUnit_other _ _ _ _ hother]

/-- Witness for C18 (amended): `"15"`, `"s"` and `"5x"` are rejected. -/
theorem components_rejected_witness :
    parseComponents (String.mk ['1', '5']) = none ∧
    parseComponents (String.mk ('s' :: [])) = none ∧
    parseComponents (String.mk (['5'] ++ 'x' :: [])) = none :=
  ⟨components_rejected.2.1 ['1', '5'] (by decide) (by decide),
   components_rejected.2.2.1 's' [] (by decide),
   components_rejected.2.2.2 ['5'] 'x' [] (by decide) (by decide) (by decide) (by decide)⟩

/-! ## Lemmas: when a parsed duration is empty -/

theorem span_pos (uw : UnitWord) (k : Int) (h : uw.span = some k) : 0 < k := by
  cases uw <;> simp only [UnitWord.span, Option.some.injEq, reduceCtorEq] at h <;>
    rw [← h] <;> decide

theorem span_none_iff (uw : UnitWord) : uw.span = none ↔ (uw = .y ∨ uw = .mo) := by
  cases uw <;> simp [UnitWord.span]

theorem spanSum_nonneg (cs : List Component) : 0 ≤ spanSum cs := by
  induction cs with
  | nil => simp [spanSum]
  | cons c rest ih =>
    unfold spanSum
    cases hs : c.unit.span with
    | none => simpa using ih
    | some k =>
      have hk := span_pos _ _ hs
      have hv : (0 : Int) ≤ (decimalValue c.digits : Int) := Int.ofNat_nonneg _
      have := Int.mul_nonneg hv (le_of_lt hk)
      simp only
      omega

theorem apply_years (c : Component) (d : Duration) :
    (c.apply d).years = if c.unit = .y then (decimalValue c.digits : Int) else d.years := by
  unfold Component.apply UnitWord.apply
  cases c.unit <;> simp [UnitWord.span, Duration.addSpan]

theorem apply_monts (c : Component) (d : Duration) :
    (c.apply d).monts = if c.unit = .mo then (decimalValue c.digits : Int) else d.monts := by
  unfold Component.apply UnitWord.apply
  cases c.unit <;> simp [UnitWord.span, Duration.addSpan]

theorem apply_tt (c : Component) (d : Duration) :
    (c.apply d).tt =
      match c.unit.span with
      | some k => wrapInt64 (d.tt + wrapInt64 ((decimalValue c.digits : Int) * k))
      | none => d.tt := by
  unfold Component.apply UnitWord.apply
  cases c.unit <;> simp [UnitWord.span, Duration.addSpan]

/-- Without overflow the fixed span parsed is the exact sum of the spans. -/
theorem applyAll_tt (cs : List Component) :
    ∀ d : Duration, 0 ≤ d.tt → d.tt + spanSum cs < 2 ^ 63 →
      (applyAll cs d).tt = d.tt + spanSum cs := by
  induction cs with
  | nil =>
    intro d _ _
    simp [applyAll, spanSum]
  | cons c rest ih =>
    intro d h0 hlt
    have hrest := spanSum_nonneg rest
    unfold spanSum at hlt ⊢
    rw [applyAll]
    cases hs : c.unit.span with
    | none =>
      rw [hs] at hlt
      simp only [zero_add] at hlt ⊢
      have htt : (c.apply d).tt = d.tt := by rw [apply_tt, hs]
      rw [ih (c.apply d) (by rw [htt]; exact h0) (by rw [htt]; exact hlt), htt]
    | some k =>
      rw [hs] at hlt
      simp only at hlt ⊢
      have hk := span_pos _ _ hs
      have hv : (0 : Int) ≤ (decimalValue c.digits : Int) := Int.ofNat_nonneg _
      have hprod := Int.mul_nonneg hv (le_of_lt hk)
      have htt : (c.apply d).tt = d.tt + (decimalValue c.digits : Int) * k := by
        rw [apply_tt, hs]
        simp only
        rw [wrapInt64_of_fits _ hprod (by omega), wrapInt64_of_fits _ (by omega) (by omega)]
      rw [ih (c.apply d) (by rw [htt]; omega) (by rw [htt]; omega), htt]
      ring

theorem spanSum_eq_zero_iff (cs : List Component) :
    spanSum cs = 0 ↔ ∀ c ∈ cs, c.unit.span ≠ none → decimalValue c.digits = 0 := by
  induction cs with
  | nil => simp [spanSum]
  | cons c rest ih =>
    have hrest := spanSum_nonneg rest
    unfold spanSum
    simp only [List.mem_cons, forall_eq_or_imp]
    rw [← ih]
    cases hs : c.unit.span with
    | none => simp
    | some k =>
      have hk := span_pos _ _ hs
      have hv : (0 : Int) ≤ (decimalValue c.digits : Int) := Int.ofNat_nonneg _
      have hprod := Int.mul_nonneg hv (le_of_lt hk)
      simp only [ne_eq, reduceCtorEq, not_false_eq_true, forall_const]
      constructor
      · intro h
        have h1 : (decimalValue c.digits : Int) * k = 0 := by omega
        have h2 : spanSum rest = 0 := by omega
        rcases Int.mul_eq_zero.mp h1 with h3 | h3
        · exact ⟨by exact_mod_cast h3, h2⟩
        · omega
      · rintro ⟨h1, h2⟩
        rw [h1, h2]
        simp

theorem countUnit_cons (uw : UnitWord) (c : Component) (cs : List Component) :
    countUnit uw (c :: cs) = (if c.unit = uw then 1 else 0) + countUnit uw cs := by
  unfold countUnit
  by_cases h : c.unit = uw
  · simp [List.filter, h]
    omega
  · simp [List.filter, h]

theorem countUnit_zero (uw : UnitWord) (cs : List Component) (h : countUnit uw cs = 0) :
    ∀ c ∈ cs, c.unit ≠ uw := by
  induction cs with
  | nil => simp
  | cons c rest ih =>
    rw [countUnit_cons] at h
    intro x hx
    rcases List.mem_cons.mp hx with hx | hx
    · rw [hx]
      intro hc
      rw [if_pos hc] at h
      omega
    · exact ih (by omega) x hx

theorem applyAll_years_keep (cs : List Component) :
    ∀ d : Duration, countUnit .y cs = 0 → (applyAll cs d).years = d.years := by
  induction cs with
  | nil =>
    intro d _
    rfl
  | cons c rest ih =>
    intro d h
    rw [countUnit_cons] at h
    have hc : ¬ c.unit = .y := by
      intro hc
      rw [if_pos hc] at h
      omega
    rw [applyAll, ih _ (by omega), apply_years, if_neg hc]

theorem applyAll_monts_keep (cs : List Component) :
    ∀ d : Duration, countUnit .mo cs = 0 → (applyAll cs d).monts = d.monts := by
  induction cs with
  | nil =>
    intro d _
    rfl
  | cons c rest ih =>
    intro d h
    rw [countUnit_cons] at h
    have hc : ¬ c.unit = .mo := by
      intro hc
      rw [if_pos hc] at h
      omega
    rw [applyAll, ih _ (by omega), apply_monts, if_neg hc]

/-- With at most one year component, the years parsed are zero exactly when
that component's number is. -/
theorem applyAll_years_zero (cs : List Component) :
    ∀ d : Duration, countUnit .y cs ≤ 1 → d.years = 0 →
      ((applyAll cs d).years = 0 ↔ ∀ c ∈ cs, c.unit = .y → decimalValue c.digits = 0) := by
  induction cs with
  | nil =>
    intro d _ h0
    simp [applyAll, h0]
  | cons c rest ih =>
    intro d h h0
    rw [countUnit_cons] at h
    rw [applyAll]
    simp only [List.mem_cons, forall_eq_or_imp]
    by_cases hc : c.unit = .y
    · rw [if_pos hc] at h
      have hnone : countUnit .y rest = 0 := by omega
      rw [applyAll_years_keep rest _ hnone, apply_years, if_pos hc]
      have hvac : ∀ x ∈ rest, x.unit = .y → decimalValue x.digits = 0 :=
        fun x hx hy => absurd hy (countUnit_zero _ _ hnone x hx)
      constructor
      · intro hz
        exact ⟨fun _ => by exact_mod_cast hz, hvac⟩
      · rintro ⟨hz, _⟩
        exact_mod_cast hz hc
    · rw [if_neg hc] at h
      have hy : (c.apply d).years = 0 := by rw [apply_years, if_neg hc, h0]
      rw [ih (c.apply d) (by omega) hy]
      constructor
      · intro hall
        exact ⟨fun hcy => absurd hcy hc, hall⟩
      · rintro ⟨_, hall⟩
        exact hall

/-- With at most one month component, the months parsed are zero exactly when
that component's number is. -/
theorem applyAll_monts_zero (cs : List Component) :
    ∀ d : Duration, countUnit .mo cs ≤ 1 → d.monts = 0 →
      ((applyAll cs d).monts = 0 ↔ ∀ c ∈ cs, c.unit = .mo → decimalValue c.digits = 0) := by
  induction cs with
  | nil =>
    intro d _ h0
    simp [applyAll, h0]
  | cons c rest ih =>
    intro d h h0
    rw [countUnit_cons] at h
    rw [applyAll]
    simp only [List.mem_cons, forall_eq_or_imp]
    by_cases hc : c.unit = .mo
    · rw [if_pos hc] at h
      have hnone : countUnit .mo rest = 0 := by omega
      rw [applyAll_monts_keep rest _ hnone, apply_monts, if_pos hc]
      have hvac : ∀ x ∈ rest, x.unit = .mo → decimalValue x.digits = 0 :=
        fun x hx hy => absurd hy (countUnit_zero _ _ hnone x hx)
      constructor
      · intro hz
        exact ⟨fun _ => by exact_mod_cast hz, hvac⟩
      · rintro ⟨hz, _⟩
        exact_mod_cast hz hc
    · rw [if_neg hc] at h
      have hy : (c.apply d).monts = 0 := by rw [apply_monts, if_neg hc, h0]
      rw [ih (c.apply d) (by omega) hy]
      constructor
      · intro hall
        exact ⟨fun hcy => absurd hcy hc, hall⟩
      · rintro ⟨_, hall⟩
        exact hall

theorem empty_iff (d : Duration) : d.Empty = true ↔ (d.tt = 0 ∧ d.years = 0 ∧ d.monts = 0) := by
  unfold Duration.Empty
  simp [and_assoc]

/-- For components without overflow and with at most one year and one month
component, the parsed duration is empty exactly when every number is zero. -/
theorem applyAll_empty_iff (cs : List Component) (hsum : spanSum cs < 2 ^ 63)
    (hy : countUnit .y cs ≤ 1) (hmo : countUnit .mo cs ≤ 1) :
    (applyAll cs ⟨0, 0, 0⟩).Empty = true ↔ ∀ c ∈ cs, decimalValue c.digits = 0 := by
  have htt := applyAll_tt cs ⟨0, 0, 0⟩ (le_refl _) (by simpa using hsum)
  simp only [zero_add] at htt
  rw [empty_iff, htt, spanSum_eq_zero_iff, applyAll_years_zero cs _ hy rfl,
    applyAll_monts_zero cs _ hmo rfl]
  constructor
  · rintro ⟨h1, h2, h3⟩ c hc
    cases hs : c.unit.span with
    | some k => exact h1 c hc (by rw [hs]; simp)
    | none =>
      rcases (span_none_iff _).mp hs with h | h
      · exact h2 c hc h
      · exact h3 c hc h
  · intro h
    exact ⟨fun c hc _ => h c hc, fun c hc _ => h c hc, fun c hc _ => h c hc⟩

/-! ## Claims on empty durations -/

/-- C16 as written fails: `"36028797018963968s"` is accepted and its number is
not zero, yet the parsed duration is empty, because `2^55` seconds in
nanoseconds is a multiple of `2^64` and the `int64` product wraps to 0. -/
theorem components_empty_by_overflow :
    parseComponents "36028797018963968s" = some ⟨0, 0, 0⟩ ∧
    Duration.Empty ⟨0, 0, 0⟩ = true ∧
    decimalValue "36028797018963968".toList = 2 ^ 55 ∧
    parseComponents "0s" = some ⟨0, 0, 0⟩ :=
  ⟨by decide, by decide, by decide, by decide⟩

/-- C16 (amended): every text the component loop accepts is a sequence of
components (digit run and unit), and when the fixed spans of the components
add up to less than `2^63` nanoseconds and at most one component is a year and
at most one a month component, `Empty()` of the parsed duration is true if and
only if the text is empty or every number in it is zero. -/
theorem components_empty_iff (text : String) (d : Duration)
    (h : parseComponents text = some d) :
    ∃ comps : List Component, (∀ c ∈ comps, c.wellFormed ∧ c.fits) ∧
      text.toList = render comps ∧ d = applyAll comps ⟨0, 0, 0⟩ ∧
      (spanSum comps < 2 ^ 63 → countUnit .y comps ≤ 1 → countUnit .mo comps ≤ 1 →
        (d.Empty = true ↔ ∀ c ∈ comps, decimalValue c.digits = 0)) := by
  obtain ⟨comps, h1, h2, h3⟩ :=
    componentLoop_sound text.toList.length text.toList [] ⟨0, 0, 0⟩ d (le_refl _) (by simp) h
  refine ⟨comps, h1, by simpa using h2, h3, ?_⟩
  intro hsum hy hmo
  rw [h3]
  exact applyAll_empty_iff comps hsum hy hmo

/-- Witness for C16 (amended): `"0s"` parses to an empty duration. -/
theorem components_empty_iff_witness :
    parseComponents "0s" = some ⟨0, 0, 0⟩ ∧
    ∃ comps : List Component, (∀ c ∈ comps, c.wellFormed ∧ c.fits) ∧
      "0s".toList = render comps ∧ (⟨0, 0, 0⟩ : Duration) = applyAll comps ⟨0, 0, 0⟩ ∧
      (spanSum comps < 2 ^ 63 → countUnit .y comps ≤ 1 → countUnit .mo comps ≤ 1 →
        (Duration.Empty ⟨0, 0, 0⟩ = true ↔ ∀ c ∈ comps, decimalValue c.digits = 0)) :=
  ⟨by decide, components_empty_iff "0s" ⟨0, 0, 0⟩ (by decide)⟩

end Ce102m
